import Mathlib

/-!
# Nexa chess engine: board state, move generation, move application, search

A shallow embedding of `src/main.cpp` (class `ChessEngine`).

* C++ `int` is modelled by `Int`.  Every score the program computes is bounded
  in absolute value by `64 * 20000`, and every coordinate by a small constant,
  so 32-bit wrap-around never occurs.
* `std::vector<std::vector<int>> board` is modelled by `List (List Int)`.
  Reading outside the vector is undefined behaviour in the source; the model
  reads `0` there and drops writes.  The statements below speak about in-range
  accesses.
* The random generator `rng` is never read by any member function and is left
  out of the state.
-/

namespace Nexa

set_option maxRecDepth 100000

/-- A square: `(row, col)`. -/
abbrev Square := Int × Int

/-- A move: `{ {fromRow, fromCol}, {toRow, toCol} }`. -/
abbrev Move := Square × Square

/-- The data members of `ChessEngine`. -/
structure ChessEngine where
  board : List (List Int)
  whiteToMove : Bool
  whiteKingMoved : Bool
  blackKingMoved : Bool
  whiteKingsideRookMoved : Bool
  whiteQueensideRookMoved : Bool
  blackKingsideRookMoved : Bool
  blackQueensideRookMoved : Bool
  enPassantCol : Int
  deriving DecidableEq, Repr

/-- The expression `board[row][col]` read from a grid. -/
def readGrid (b : List (List Int)) (row col : Int) : Int :=
  if 0 ≤ row ∧ 0 ≤ col then (b.getD row.toNat []).getD col.toNat 0 else 0

/-- The assignment `board[row][col] = v` on a grid. -/
def writeGrid (b : List (List Int)) (row col : Int) (v : Int) : List (List Int) :=
  if 0 ≤ row ∧ 0 ≤ col then
    b.set row.toNat ((b.getD row.toNat []).set col.toNat v)
  else b

/-- The expression `board[row][col]` in a state. -/
def ChessEngine.at (s : ChessEngine) (row col : Int) : Int :=
  readGrid s.board row col

/-- The statement `board[row][col] = v;` in a state. -/
def ChessEngine.put (s : ChessEngine) (row col : Int) (v : Int) : ChessEngine :=
  { s with board := writeGrid s.board row col v }

/-- The grid has eight rows of eight cells. -/
def isGrid8 (b : List (List Int)) : Prop :=
  b.length = 8 ∧ ∀ r ∈ b, r.length = 8

instance (b : List (List Int)) : Decidable (isGrid8 b) := by
  unfold isGrid8; infer_instance

/-- The squares `0..7` a `for (int i = 0; i < 8; i++)` loop runs over. -/
def idx8 : List Int := [0, 1, 2, 3, 4, 5, 6, 7]

/-- The state `initializeBoard` leaves behind. -/
def initializeBoard : ChessEngine :=
  { board :=
      [ [4, 2, 3, 5, 6, 3, 2, 4],
        [1, 1, 1, 1, 1, 1, 1, 1],
        [0, 0, 0, 0, 0, 0, 0, 0],
        [0, 0, 0, 0, 0, 0, 0, 0],
        [0, 0, 0, 0, 0, 0, 0, 0],
        [0, 0, 0, 0, 0, 0, 0, 0],
        [7, 7, 7, 7, 7, 7, 7, 7],
        [10, 8, 9, 11, 12, 9, 8, 10] ],
    whiteToMove := true,
    whiteKingMoved := false,
    blackKingMoved := false,
    whiteKingsideRookMoved := false,
    whiteQueensideRookMoved := false,
    blackKingsideRookMoved := false,
    blackQueensideRookMoved := false,
    enPassantCol := -1 }

def isWhitePiece (piece : Int) : Bool :=
  decide (piece ≥ 1) && decide (piece ≤ 6)

def isBlackPiece (piece : Int) : Bool :=
  decide (piece ≥ 7) && decide (piece ≤ 12)

def ChessEngine.isEnemyPiece (s : ChessEngine) (piece : Int) : Bool :=
  if s.whiteToMove then isBlackPiece piece else isWhitePiece piece

def ChessEngine.isOwnPiece (s : ChessEngine) (piece : Int) : Bool :=
  if s.whiteToMove then isWhitePiece piece else isBlackPiece piece

/-- The test `r >= 0 && r < 8 && c >= 0 && c < 8`. -/
def onBoard (r c : Int) : Bool :=
  decide (r ≥ 0) && decide (r < 8) && decide (c ≥ 0) && decide (c < 8)

/-- One iteration of the `for (int dc : {-1, 1})` loop of `getPawnMoves`. -/
def ChessEngine.pawnCapture (s : ChessEngine) (row col dc : Int) : List Move :=
  let direction : Int := if s.whiteToMove then 1 else -1
  if decide (col + dc ≥ 0) && decide (col + dc < 8) && decide (row + direction ≥ 0)
      && decide (row + direction < 8) then
    (if decide (s.at (row + direction) (col + dc) ≠ 0)
        && s.isEnemyPiece (s.at (row + direction) (col + dc)) then
      [((row, col), (row + direction, col + dc))] else [])
    ++
    (if s.enPassantCol = col + dc then
      let epRow : Int := if s.whiteToMove then 5 else 2
      if row = epRow - direction then [((row, col), (epRow, col + dc))] else []
    else [])
  else []

/-- The moves `getPawnMoves(row, col, moves)` appends. -/
def ChessEngine.getPawnMoves (s : ChessEngine) (row col : Int) : List Move :=
  let direction : Int := if s.whiteToMove then 1 else -1
  let startRow : Int := if s.whiteToMove then 1 else 6
  (if decide (row + direction ≥ 0) && decide (row + direction < 8)
      && decide (s.at (row + direction) col = 0) then
    ((row, col), (row + direction, col)) ::
      (if decide (row = startRow) && decide (s.at (row + 2 * direction) col = 0) then
        [((row, col), (row + 2 * direction, col))] else [])
  else [])
  ++ s.pawnCapture row col (-1) ++ s.pawnCapture row col 1

/-- The table `knight_moves[8][2]`. -/
def knight_moves : List (Int × Int) :=
  [(-2, -1), (-2, 1), (-1, -2), (-1, 2), (1, -2), (1, 2), (2, -1), (2, 1)]

/-- One iteration of the offset loop shared by `getKnightMoves` and the first
loop of `getKingMoves`. -/
def ChessEngine.stepMove (s : ChessEngine) (row col : Int) (d : Int × Int) : List Move :=
  let newRow := row + d.1
  let newCol := col + d.2
  if onBoard newRow newCol then
    if decide (s.at newRow newCol = 0) || s.isEnemyPiece (s.at newRow newCol) then
      [((row, col), (newRow, newCol))]
    else []
  else []

/-- The moves `getKnightMoves(row, col, moves)` appends. -/
def ChessEngine.getKnightMoves (s : ChessEngine) (row col : Int) : List Move :=
  knight_moves.flatMap (s.stepMove row col)

/-- The inner `for (int distance = ...; distance < 8; distance++)` loop of
`getBishopMoves` / `getRookMoves`, run over the remaining distances. -/
def ChessEngine.slide (s : ChessEngine) (row col dr dc : Int) : List Int → List Move
  | [] => []
  | distance :: rest =>
    let newRow := row + dr * distance
    let newCol := col + dc * distance
    if decide (newRow < 0) || decide (newRow ≥ 8) || decide (newCol < 0)
        || decide (newCol ≥ 8) then []
    else if s.at newRow newCol = 0 then
      ((row, col), (newRow, newCol)) :: s.slide row col dr dc rest
    else if s.isEnemyPiece (s.at newRow newCol) then
      [((row, col), (newRow, newCol))]
    else []

/-- The distances `1..7` of the inner slide loop. -/
def distances : List Int := [1, 2, 3, 4, 5, 6, 7]

/-- The table `directions[4][2]` of `getBishopMoves`. -/
def bishopDirections : List (Int × Int) := [(-1, -1), (-1, 1), (1, -1), (1, 1)]

/-- The table `directions[4][2]` of `getRookMoves`. -/
def rookDirections : List (Int × Int) := [(-1, 0), (1, 0), (0, -1), (0, 1)]

/-- The moves `getBishopMoves(row, col, moves)` appends. -/
def ChessEngine.getBishopMoves (s : ChessEngine) (row col : Int) : List Move :=
  bishopDirections.flatMap fun d => s.slide row col d.1 d.2 distances

/-- The moves `getRookMoves(row, col, moves)` appends. -/
def ChessEngine.getRookMoves (s : ChessEngine) (row col : Int) : List Move :=
  rookDirections.flatMap fun d => s.slide row col d.1 d.2 distances

/-- The table `directions[8][2]` of `getKingMoves`. -/
def kingDirections : List (Int × Int) :=
  [(-1, -1), (-1, 0), (-1, 1), (0, -1), (0, 1), (1, -1), (1, 0), (1, 1)]

/-- The castling block of `getKingMoves`. -/
def ChessEngine.castlingMoves (s : ChessEngine) (row col : Int) : List Move :=
  if s.whiteToMove then
    if !s.whiteKingMoved && decide (row = 0) && decide (col = 4) then
      (if !s.whiteKingsideRookMoved && decide (s.at 0 5 = 0) && decide (s.at 0 6 = 0)
          && decide (s.at 0 7 = 4) then [((row, col), (0, 6))] else [])
      ++
      (if !s.whiteQueensideRookMoved && decide (s.at 0 3 = 0) && decide (s.at 0 2 = 0)
          && decide (s.at 0 1 = 0) && decide (s.at 0 0 = 4) then [((row, col), (0, 2))]
        else [])
    else []
  else
    if !s.blackKingMoved && decide (row = 7) && decide (col = 4) then
      (if !s.blackKingsideRookMoved && decide (s.at 7 5 = 0) && decide (s.at 7 6 = 0)
          && decide (s.at 7 7 = 10) then [((row, col), (7, 6))] else [])
      ++
      (if !s.blackQueensideRookMoved && decide (s.at 7 3 = 0) && decide (s.at 7 2 = 0)
          && decide (s.at 7 1 = 0) && decide (s.at 7 0 = 10) then [((row, col), (7, 2))]
        else [])
    else []

/-- The moves `getKingMoves(row, col, moves)` appends. -/
def ChessEngine.getKingMoves (s : ChessEngine) (row col : Int) : List Move :=
  kingDirections.flatMap (s.stepMove row col) ++ s.castlingMoves row col

/-- The body of the double loop of `getAllLegalMoves` for one square. -/
def ChessEngine.movesFrom (s : ChessEngine) (row col : Int) : List Move :=
  let piece := s.at row col
  if decide (piece = 0) || !s.isOwnPiece piece then []
  else
    let normalizedPiece := if piece > 6 then piece - 6 else piece
    if normalizedPiece = 1 then s.getPawnMoves row col
    else if normalizedPiece = 2 then s.getKnightMoves row col
    else if normalizedPiece = 3 then s.getBishopMoves row col
    else if normalizedPiece = 4 then s.getRookMoves row col
    else if normalizedPiece = 5 then s.getBishopMoves row col ++ s.getRookMoves row col
    else if normalizedPiece = 6 then s.getKingMoves row col
    else []

/-- The list `getAllLegalMoves(moves)` leaves in `moves`. -/
def ChessEngine.getAllLegalMoves (s : ChessEngine) : List Move :=
  idx8.flatMap fun row => idx8.flatMap fun col => s.movesFrom row col

/-- The statements "Reset en passant" and "Check for pawn double move". -/
def ChessEngine.stepEnPassantCol (s : ChessEngine) (piece fromRow fromCol toRow : Int) :
    ChessEngine :=
  if (piece = 1 ∨ piece = 7) ∧ (fromRow - toRow).natAbs = 2 then
    { s with enPassantCol := fromCol }
  else { s with enPassantCol := -1 }

/-- The statement "Check for en passant capture". -/
def ChessEngine.stepEnPassantCapture (s : ChessEngine)
    (piece fromRow fromCol toRow toCol : Int) : ChessEngine :=
  if (piece = 1 ∨ piece = 7) ∧ fromCol ≠ toCol ∧ s.at toRow toCol = 0 then
    s.put fromRow toCol 0
  else s

/-- The statement "Check for castling". -/
def ChessEngine.stepCastling (s : ChessEngine) (piece fromRow fromCol toCol : Int) :
    ChessEngine :=
  if piece = 6 ∧ fromRow = 0 ∧ fromCol = 4 then
    let s1 :=
      if toCol = 6 then (s.put 0 5 4).put 0 7 0
      else if toCol = 2 then (s.put 0 3 4).put 0 0 0
      else s
    { s1 with whiteKingMoved := true }
  else if piece = 12 ∧ fromRow = 7 ∧ fromCol = 4 then
    let s1 :=
      if toCol = 6 then (s.put 7 5 10).put 7 7 0
      else if toCol = 2 then (s.put 7 3 10).put 7 0 0
      else s
    { s1 with blackKingMoved := true }
  else s

/-- The statement "Update castling rights for rooks". -/
def ChessEngine.stepRookFlags (s : ChessEngine) (piece fromRow fromCol : Int) : ChessEngine :=
  if piece = 4 then
    let s1 := if fromRow = 0 ∧ fromCol = 0 then { s with whiteQueensideRookMoved := true } else s
    if fromRow = 0 ∧ fromCol = 7 then { s1 with whiteKingsideRookMoved := true } else s1
  else if piece = 10 then
    let s1 := if fromRow = 7 ∧ fromCol = 0 then { s with blackQueensideRookMoved := true } else s
    if fromRow = 7 ∧ fromCol = 7 then { s1 with blackKingsideRookMoved := true } else s1
  else s

/-- The statement "Update king moved flag". -/
def ChessEngine.stepKingFlags (s : ChessEngine) (piece : Int) : ChessEngine :=
  let s1 := if piece = 6 then { s with whiteKingMoved := true } else s
  if piece = 12 then { s1 with blackKingMoved := true } else s1

/-- The statement "Move the piece". -/
def ChessEngine.stepRelocate (s : ChessEngine) (fromRow fromCol toRow toCol : Int) :
    ChessEngine :=
  (s.put toRow toCol (s.at fromRow fromCol)).put fromRow fromCol 0

/-- The statement "Check for pawn promotion". -/
def ChessEngine.stepPromotion (s : ChessEngine) (piece toRow toCol : Int) : ChessEngine :=
  if piece = 1 ∧ toRow = 7 then s.put toRow toCol 5
  else if piece = 7 ∧ toRow = 0 then s.put toRow toCol 11
  else s

/-- The state after `makeMove(move)` (the pair-of-pairs overload); `applyMove` is the
same function. -/
def ChessEngine.makeMove (s : ChessEngine) (move : Move) : ChessEngine :=
  let fromRow := move.1.1
  let fromCol := move.1.2
  let toRow := move.2.1
  let toCol := move.2.2
  let piece := s.at fromRow fromCol
  let s1 := s.stepEnPassantCol piece fromRow fromCol toRow
  let s2 := s1.stepEnPassantCapture piece fromRow fromCol toRow toCol
  let s3 := s2.stepCastling piece fromRow fromCol toCol
  let s4 := s3.stepRookFlags piece fromRow fromCol
  let s5 := s4.stepKingFlags piece
  let s6 := s5.stepRelocate fromRow fromCol toRow toCol
  let s7 := s6.stepPromotion piece toRow toCol
  { s7 with whiteToMove := !s7.whiteToMove }

/-- The byte `static_cast<char>(base + x)`. -/
def charAdd (base : Nat) (x : Int) : Char :=
  Char.ofNat (((base : Int) + x) % 256).toNat

/-- The string `coordToAlgebraic(row, col)`. -/
def coordToAlgebraic (row col : Int) : String :=
  String.mk [charAdd 97 col, charAdd 49 row]

/-- The state after `makeMove(moveStr)` (the string overload). -/
def ChessEngine.makeMoveStr (s : ChessEngine) (moveStr : String) : ChessEngine :=
  let cs := moveStr.data
  if cs.length < 4 then s
  else
    let fromCol : Int := ((cs.getD 0 'a').toNat : Int) - 97
    let fromRow : Int := ((cs.getD 1 'a').toNat : Int) - 49
    let toCol : Int := ((cs.getD 2 'a').toNat : Int) - 97
    let toRow : Int := ((cs.getD 3 'a').toNat : Int) - 49
    s.makeMove ((fromRow, fromCol), (toRow, toCol))

/-- One `switch (piece)` of `evaluateBoard`, applied to the running `score`. -/
def scoreStep (score piece : Int) : Int :=
  if piece = 1 then score + 100
  else if piece = 2 then score + 320
  else if piece = 3 then score + 330
  else if piece = 4 then score + 500
  else if piece = 5 then score + 900
  else if piece = 6 then score + 20000
  else if piece = 7 then score - 100
  else if piece = 8 then score - 320
  else if piece = 9 then score - 330
  else if piece = 10 then score - 500
  else if piece = 11 then score - 900
  else if piece = 12 then score - 20000
  else score

/-- The value `evaluateBoard()` returns. -/
def ChessEngine.evaluateBoard (s : ChessEngine) : Int :=
  idx8.foldl (fun score row => idx8.foldl (fun score col => scoreStep score (s.at row col)) score) 0

/-- The value `negamax(depth)` returns, for `depth ≥ 0`. -/
def ChessEngine.negamax (s : ChessEngine) : Nat → Int
  | 0 =>
    let eval := s.evaluateBoard
    if s.whiteToMove then eval else -eval
  | depth + 1 =>
    let moves := s.getAllLegalMoves
    if moves.isEmpty then -100000
    else
      moves.foldl
        (fun bestScore move =>
          let score := -(ChessEngine.negamax (s.makeMove move) depth)
          if score > bestScore then score else bestScore)
        (-1000000)

/-- The constant `SEARCH_DEPTH`. -/
def SEARCH_DEPTH : Nat := 3

/-- The score `getBestMove` gives a root move. -/
def ChessEngine.rootScore (s : ChessEngine) (move : Move) : Int :=
  -((s.makeMove move).negamax (SEARCH_DEPTH - 1))

/-- The loop of `getBestMove`: the pair `(bestScore, bestMove)` after the moves. -/
def ChessEngine.bestLoop (s : ChessEngine) (moves : List Move) (init : Int × Move) :
    Int × Move :=
  moves.foldl
    (fun best move =>
      let score := s.rootScore move
      if score > best.1 then (score, move) else best)
    init

/-- The string `getBestMove()` returns. -/
def ChessEngine.getBestMove (s : ChessEngine) : String :=
  let legalMoves := s.getAllLegalMoves
  match legalMoves with
  | [] => "0000"
  | first :: _ =>
    let bestMove := (s.bestLoop legalMoves (-1000000, first)).2
    coordToAlgebraic bestMove.1.1 bestMove.1.2 ++ coordToAlgebraic bestMove.2.1 bestMove.2.2

/-- The parts `std::getline(iss, part, ' ')` yields: the pieces between spaces, with
no part for an empty remainder at the end of the input. -/
def fenPartsAux : List Char → List Char → List (List Char)
  | [], cur => if cur.isEmpty then [] else [cur.reverse]
  | c :: cs, cur =>
    if c = ' ' then cur.reverse :: fenPartsAux cs [] else fenPartsAux cs (c :: cur)

/-- The vector `fenParts` of `setPosition`. -/
def fenParts (fen : String) : List (List Char) := fenPartsAux fen.data []

/-- The `switch (c)` of `setPosition`. -/
def pieceOfChar (c : Char) : Int :=
  if c = 'P' then 1 else if c = 'N' then 2 else if c = 'B' then 3
  else if c = 'R' then 4 else if c = 'Q' then 5 else if c = 'K' then 6
  else if c = 'p' then 7 else if c = 'n' then 8 else if c = 'b' then 9
  else if c = 'r' then 10 else if c = 'q' then 11 else if c = 'k' then 12
  else 0

/-- The variables the placement loop of `setPosition` carries. -/
structure Cursor where
  state : ChessEngine
  row : Int
  col : Int

/-- One iteration of `for (char c : fenParts[0])`. -/
def placeChar (k : Cursor) (c : Char) : Cursor :=
  if c = '/' then { k with row := k.row - 1, col := 0 }
  else if '1' ≤ c ∧ c ≤ '8' then { k with col := k.col + ((c.toNat : Int) - 48) }
  else
    let piece := pieceOfChar c
    let st :=
      if piece ≠ 0 ∧ k.row ≥ 0 ∧ k.row < 8 ∧ k.col ≥ 0 ∧ k.col < 8 then
        k.state.put k.row k.col piece
      else k.state
    { k with state := st, col := k.col + 1 }

/-- The state after `setPosition(fen)`. -/
def setPosition (fen : String) : ChessEngine :=
  let s0 := initializeBoard
  match fenParts fen with
  | [] => s0
  | placement :: rest =>
    let k := placement.foldl placeChar { state := s0, row := 7, col := 0 }
    match rest with
    | [] => k.state
    | side :: _ => { k.state with whiteToMove := decide (side = ['w']) }


/-! ## Move generation with checked grid accesses

The same generator, where every `board[row][col]` is a checked access: the result is
`none` as soon as one access falls outside the vectors.  The conditions keep the
left-to-right short-circuit evaluation of `&&`. -/

/-- The expression `board[row][col]` as a checked access into a grid. -/
def readChecked (b : List (List Int)) (row col : Int) : Option Int :=
  if 0 ≤ row ∧ 0 ≤ col then (b.get? row.toNat).bind fun line => line.get? col.toNat
  else none

/-- The expression `board[row][col]` as a checked access in a state. -/
def ChessEngine.atChecked (s : ChessEngine) (row col : Int) : Option Int :=
  readChecked s.board row col

/-- The test `board[row][col] == v` with a checked access. -/
def ChessEngine.cellIs (s : ChessEngine) (row col v : Int) : Option Bool :=
  (s.atChecked row col).map fun x => decide (x = v)

/-- The operator `&&`: the right operand is evaluated only when the left one is true. -/
def scAnd (a b : Option Bool) : Option Bool :=
  a.bind fun x => if x then b else some false

/-- A loop that appends the moves of each iteration to `moves`. -/
def collect {α : Type} (f : α → Option (List Move)) : List α → Option (List Move)
  | [] => some []
  | i :: rest => (f i).bind fun a => (collect f rest).map fun b => a ++ b

/-- One iteration of the capture loop of `getPawnMoves`, with checked accesses. -/
def ChessEngine.pawnCaptureChecked (s : ChessEngine) (row col dc : Int) :
    Option (List Move) :=
  let direction : Int := if s.whiteToMove then 1 else -1
  if decide (col + dc ≥ 0) && decide (col + dc < 8) && decide (row + direction ≥ 0)
      && decide (row + direction < 8) then
    (s.atChecked (row + direction) (col + dc)).map fun target =>
      (if decide (target ≠ 0) && s.isEnemyPiece target then
        [((row, col), (row + direction, col + dc))] else [])
      ++
      (if s.enPassantCol = col + dc then
        let epRow : Int := if s.whiteToMove then 5 else 2
        if row = epRow - direction then [((row, col), (epRow, col + dc))] else []
      else [])
  else some []

/-- The moves of `getPawnMoves(row, col, moves)`, with checked accesses. -/
def ChessEngine.getPawnMovesChecked (s : ChessEngine) (row col : Int) : Option (List Move) :=
  let direction : Int := if s.whiteToMove then 1 else -1
  let startRow : Int := if s.whiteToMove then 1 else 6
  let forward : Option (List Move) :=
    (scAnd (some (decide (row + direction ≥ 0) && decide (row + direction < 8)))
        (s.cellIs (row + direction) col 0)).bind fun one =>
      if one then
        (scAnd (some (decide (row = startRow))) (s.cellIs (row + 2 * direction) col 0)).map
          fun two =>
            ((row, col), (row + direction, col)) ::
              (if two then [((row, col), (row + 2 * direction, col))] else [])
      else some []
  forward.bind fun f =>
    (s.pawnCaptureChecked row col (-1)).bind fun a =>
      (s.pawnCaptureChecked row col 1).map fun b => f ++ a ++ b

/-- One iteration of the offset loop of `getKnightMoves` / `getKingMoves`, with checked
accesses. -/
def ChessEngine.stepMoveChecked (s : ChessEngine) (row col : Int) (d : Int × Int) :
    Option (List Move) :=
  let newRow := row + d.1
  let newCol := col + d.2
  if onBoard newRow newCol then
    (s.atChecked newRow newCol).map fun target =>
      if decide (target = 0) || s.isEnemyPiece target then [((row, col), (newRow, newCol))]
      else []
  else some []

/-- The moves of `getKnightMoves(row, col, moves)`, with checked accesses. -/
def ChessEngine.getKnightMovesChecked (s : ChessEngine) (row col : Int) : Option (List Move) :=
  collect (s.stepMoveChecked row col) knight_moves

/-- The inner slide loop of `getBishopMoves` / `getRookMoves`, with checked accesses. -/
def ChessEngine.slideChecked (s : ChessEngine) (row col dr dc : Int) :
    List Int → Option (List Move)
  | [] => some []
  | distance :: rest =>
    let newRow := row + dr * distance
    let newCol := col + dc * distance
    if decide (newRow < 0) || decide (newRow ≥ 8) || decide (newCol < 0)
        || decide (newCol ≥ 8) then some []
    else
      (s.atChecked newRow newCol).bind fun target =>
        if target = 0 then
          (s.slideChecked row col dr dc rest).map fun more =>
            ((row, col), (newRow, newCol)) :: more
        else if s.isEnemyPiece target then some [((row, col), (newRow, newCol))]
        else some []

/-- The moves of `getBishopMoves(row, col, moves)`, with checked accesses. -/
def ChessEngine.getBishopMovesChecked (s : ChessEngine) (row col : Int) : Option (List Move) :=
  collect (fun d : Int × Int => s.slideChecked row col d.1 d.2 distances) bishopDirections

/-- The moves of `getRookMoves(row, col, moves)`, with checked accesses. -/
def ChessEngine.getRookMovesChecked (s : ChessEngine) (row col : Int) : Option (List Move) :=
  collect (fun d : Int × Int => s.slideChecked row col d.1 d.2 distances) rookDirections

/-- One castling test of `getKingMoves`, `!rookMoved && board[r][c1] == 0 && ... &&
board[r][c] == rook`, with checked accesses: the squares that must be empty, in the
order they are tested, then the rook square. -/
def ChessEngine.castlingTest (s : ChessEngine) (rookMoved : Bool) (r : Int)
    (empties : List Int) (rookCol rook : Int) : Option Bool :=
  scAnd (some (!rookMoved))
    (empties.foldr (fun c rest => scAnd (s.cellIs r c 0) rest) (s.cellIs r rookCol rook))

/-- The castling block of `getKingMoves`, with checked accesses. -/
def ChessEngine.castlingMovesChecked (s : ChessEngine) (row col : Int) : Option (List Move) :=
  if s.whiteToMove then
    if !s.whiteKingMoved && decide (row = 0) && decide (col = 4) then
      (s.castlingTest s.whiteKingsideRookMoved 0 [5, 6] 7 4).bind fun k =>
        (s.castlingTest s.whiteQueensideRookMoved 0 [3, 2, 1] 0 4).map fun q =>
          (if k then [((row, col), (0, 6))] else []) ++ (if q then [((row, col), (0, 2))] else [])
    else some []
  else
    if !s.blackKingMoved && decide (row = 7) && decide (col = 4) then
      (s.castlingTest s.blackKingsideRookMoved 7 [5, 6] 7 10).bind fun k =>
        (s.castlingTest s.blackQueensideRookMoved 7 [3, 2, 1] 0 10).map fun q =>
          (if k then [((row, col), (7, 6))] else []) ++ (if q then [((row, col), (7, 2))] else [])
    else some []

/-- The moves of `getKingMoves(row, col, moves)`, with checked accesses. -/
def ChessEngine.getKingMovesChecked (s : ChessEngine) (row col : Int) : Option (List Move) :=
  (collect (s.stepMoveChecked row col) kingDirections).bind fun a =>
    (s.castlingMovesChecked row col).map fun b => a ++ b

/-- The body of the double loop of `getAllLegalMoves` for one square, with checked
accesses. -/
def ChessEngine.movesFromChecked (s : ChessEngine) (row col : Int) : Option (List Move) :=
  (s.atChecked row col).bind fun piece =>
    if decide (piece = 0) || !s.isOwnPiece piece then some []
    else
      let normalizedPiece := if piece > 6 then piece - 6 else piece
      if normalizedPiece = 1 then s.getPawnMovesChecked row col
      else if normalizedPiece = 2 then s.getKnightMovesChecked row col
      else if normalizedPiece = 3 then s.getBishopMovesChecked row col
      else if normalizedPiece = 4 then s.getRookMovesChecked row col
      else if normalizedPiece = 5 then
        (s.getBishopMovesChecked row col).bind fun a =>
          (s.getRookMovesChecked row col).map fun b => a ++ b
      else if normalizedPiece = 6 then s.getKingMovesChecked row col
      else some []

/-- The list `getAllLegalMoves(moves)` leaves in `moves`, with checked accesses. -/
def ChessEngine.getAllLegalMovesChecked (s : ChessEngine) : Option (List Move) :=
  collect (fun row => collect (fun col => s.movesFromChecked row col) idx8) idx8


/-! ## Definitions used to state the properties -/

/-- A move whose four coordinates all lie in `0..7`: the precondition of `makeMove`. -/
def inRange (m : Move) : Prop :=
  (0 ≤ m.1.1 ∧ m.1.1 < 8) ∧ (0 ≤ m.1.2 ∧ m.1.2 < 8) ∧
    (0 ≤ m.2.1 ∧ m.2.1 < 8) ∧ (0 ≤ m.2.2 ∧ m.2.2 < 8)

instance (m : Move) : Decidable (inRange m) := by
  unfold inRange; infer_instance

/-- The state after applying a finite sequence of moves with `makeMove`, in order. -/
def ChessEngine.makeMoves (s : ChessEngine) (ms : List Move) : ChessEngine :=
  ms.foldl ChessEngine.makeMove s

/-- Every moved flag set in `s` is set in `t`. -/
def flagsKept (s t : ChessEngine) : Prop :=
  (s.whiteKingMoved = true → t.whiteKingMoved = true) ∧
  (s.blackKingMoved = true → t.blackKingMoved = true) ∧
  (s.whiteKingsideRookMoved = true → t.whiteKingsideRookMoved = true) ∧
  (s.whiteQueensideRookMoved = true → t.whiteQueensideRookMoved = true) ∧
  (s.blackKingsideRookMoved = true → t.blackKingsideRookMoved = true) ∧
  (s.blackQueensideRookMoved = true → t.blackQueensideRookMoved = true)

/-- The material value of a piece kind `1..6` (pawn, knight, bishop, rook, queen, king),
as the specification lists them. -/
def valueOfKind (kind : Int) : Int :=
  if kind = 1 then 100
  else if kind = 2 then 320
  else if kind = 3 then 330
  else if kind = 4 then 500
  else if kind = 5 then 900
  else if kind = 6 then 20000
  else 0

/-- The contribution of one cell as the specification words it: the piece value, counted
positively for the White codes `1..6`, negatively for the Black codes `7..12`, and `0`
for an empty cell. -/
def signedValue (code : Int) : Int :=
  if 1 ≤ code ∧ code ≤ 6 then valueOfKind code
  else if 7 ≤ code ∧ code ≤ 12 then -valueOfKind (code - 6)
  else 0

/-- The material balance as the specification words it: the sum of the signed piece
values over the 64 squares of a grid. -/
def materialSum (b : List (List Int)) : Int :=
  (idx8.map fun row => (idx8.map fun col => signedValue (readGrid b row col)).sum).sum

/-- Every cell of the 8x8 grid holds a code in `0..12`. -/
def cellsValid (b : List (List Int)) : Prop :=
  ∀ row ∈ idx8, ∀ col ∈ idx8, 0 ≤ readGrid b row col ∧ readGrid b row col ≤ 12

instance (b : List (List Int)) : Decidable (cellsValid b) := by
  unfold cellsValid; infer_instance

/-- The file letters `a..h` by column. -/
def fileLetters : List Char := ['a', 'b', 'c', 'd', 'e', 'f', 'g', 'h']

/-- The rank digits `1..8` by row. -/
def rankDigits : List Char := ['1', '2', '3', '4', '5', '6', '7', '8']

/-- The four-character move string of the protocol: origin file letter, origin rank
digit, destination file letter, destination rank digit. -/
def moveString (m : Move) : String :=
  String.mk [fileLetters.getD m.1.2.toNat '?', rankDigits.getD m.1.1.toNat '?',
    fileLetters.getD m.2.2.toNat '?', rankDigits.getD m.2.1.toNat '?']

/-- A rank filled with Black kings. -/
def blackKingRank : List Int := [12, 12, 12, 12, 12, 12, 12, 12]

/-- A position the placement parser accepts: a White pawn on a2 and a Black king on
each of the other 63 squares, White to move. -/
def crowdedPosition : ChessEngine :=
  { initializeBoard with
    board := [blackKingRank, [1, 12, 12, 12, 12, 12, 12, 12], blackKingRank, blackKingRank,
      blackKingRank, blackKingRank, blackKingRank, blackKingRank] }

/-- A position with a White pawn on e2 and a Black pawn on d4, White to move. -/
def enPassantSetup : ChessEngine :=
  { initializeBoard with
    board :=
      [ [4, 2, 3, 5, 6, 3, 2, 4],
        [1, 1, 1, 1, 1, 1, 1, 1],
        [0, 0, 0, 0, 0, 0, 0, 0],
        [0, 0, 0, 7, 0, 0, 0, 0],
        [0, 0, 0, 0, 0, 0, 0, 0],
        [0, 0, 0, 0, 0, 0, 0, 0],
        [7, 7, 7, 0, 7, 7, 7, 7],
        [10, 8, 9, 11, 12, 9, 8, 10] ] }

/-- A position in which both sides have king and rooks on their home squares with
nothing between them, White to move. -/
def castleReady : ChessEngine :=
  { initializeBoard with
    board :=
      [ [4, 0, 0, 0, 6, 0, 0, 4],
        [1, 1, 1, 1, 1, 1, 1, 1],
        [0, 0, 0, 0, 0, 0, 0, 0],
        [0, 0, 0, 0, 0, 0, 0, 0],
        [0, 0, 0, 0, 0, 0, 0, 0],
        [0, 0, 0, 0, 0, 0, 0, 0],
        [7, 7, 7, 7, 7, 7, 7, 7],
        [10, 0, 0, 0, 12, 0, 0, 10] ] }

/-- The position `castleReady` with the White kingside rook recorded as having moved. -/
def kingsideRookMoved : ChessEngine :=
  { castleReady with whiteKingsideRookMoved := true }

/-- A position in which White, to move, has no piece at all: a lone Black king on e8. -/
def loneBlackKing : ChessEngine :=
  { initializeBoard with
    board :=
      [ [0, 0, 0, 0, 0, 0, 0, 0],
        [0, 0, 0, 0, 0, 0, 0, 0],
        [0, 0, 0, 0, 0, 0, 0, 0],
        [0, 0, 0, 0, 0, 0, 0, 0],
        [0, 0, 0, 0, 0, 0, 0, 0],
        [0, 0, 0, 0, 0, 0, 0, 0],
        [0, 0, 0, 0, 0, 0, 0, 0],
        [0, 0, 0, 0, 12, 0, 0, 0] ] }

/-- The state after the protocol moves b1c3 b7b5 a2a3 b5b4 c2c4 from the initial position
(the last one lets the c-pawn jump over the knight on c3): Black to move, en-passant
file c, a White knight on the en-passant target square c3, a Black pawn on b4. -/
def knightOnSkippedSquare : ChessEngine :=
  { initializeBoard with
    board :=
      [ [4, 0, 3, 5, 6, 3, 2, 4],
        [0, 1, 0, 1, 1, 1, 1, 1],
        [1, 0, 2, 0, 0, 0, 0, 0],
        [0, 7, 1, 0, 0, 0, 0, 0],
        [0, 0, 0, 0, 0, 0, 0, 0],
        [0, 0, 0, 0, 0, 0, 0, 0],
        [7, 0, 7, 7, 7, 7, 7, 7],
        [10, 8, 9, 11, 12, 9, 8, 10] ],
    whiteToMove := false,
    enPassantCol := 2 }

/-- The list `j, j + 1, ..., j + n - 1`. -/
def upFrom (j : Int) : Nat → List Int
  | 0 => []
  | n + 1 => j :: upFrom (j + 1) n

/-- Every square strictly between `(r, c)` and `(r', c')`, going from the first towards
the second along their common row, column or diagonal, is empty. -/
def pathClear (s : ChessEngine) (r c r' c' : Int) : Prop :=
  ∀ k ∈ distances, k.toNat < max (r' - r).natAbs (c' - c).natAbs →
    s.at (r + (r' - r).sign * k) (c + (c' - c).sign * k) = 0

instance (s : ChessEngine) (r c r' c' : Int) : Decidable (pathClear s r c r' c') := by
  unfold pathClear; infer_instance

/-- The states reachable from the standard initial position by applying only moves taken
from `getAllLegalMoves`. -/
inductive Reachable : ChessEngine → Prop
  | start : Reachable initializeBoard
  | move (s : ChessEngine) (m : Move) :
      Reachable s → m ∈ s.getAllLegalMoves → Reachable (s.makeMove m)

/-- The en-passant file is either unset or a board column on which the side that is not
to move has a pawn on its double-push landing row (row 3 if Black is to move, row 4 if
White is to move), the square that pawn skipped (row 2, resp. row 5) being empty. -/
def enPassantSound (s : ChessEngine) : Prop :=
  (s.enPassantCol = -1 ∨ (0 ≤ s.enPassantCol ∧ s.enPassantCol < 8)) ∧
  (s.enPassantCol ≠ -1 →
    (s.whiteToMove = false → s.at 3 s.enPassantCol = 1 ∧ s.at 2 s.enPassantCol = 0) ∧
    (s.whiteToMove = true → s.at 4 s.enPassantCol = 7 ∧ s.at 5 s.enPassantCol = 0))

/-- The move pushed by the en-passant branch of `getPawnMoves`: a pawn goes from the rank
next to the en-passant row (row 4 to row 5 for White, row 3 to row 2 for Black)
diagonally onto the stored en-passant file. -/
def isEnPassantMove (s : ChessEngine) (x : Move) : Prop :=
  (s.at x.1.1 x.1.2 = 1 ∨ s.at x.1.1 x.1.2 = 7) ∧ x.2.2 ≠ x.1.2 ∧
  x.2.2 = s.enPassantCol ∧
  x.2.1 = (if s.whiteToMove = true then 5 else 2) ∧
  x.1.1 = (if s.whiteToMove = true then 4 else 3)

instance (s : ChessEngine) (x : Move) : Decidable (isEnPassantMove s x) := by
  unfold isEnPassantMove; infer_instance

/-- The position after e2e4 a7a6 e4e5 d7d5 from the initial position: White to move,
en-passant file d, a White pawn on e5 beside the Black pawn on d5. -/
def enPassantReady : ChessEngine :=
  (((initializeBoard.makeMove ((1, 4), (3, 4))).makeMove ((6, 0), (5, 0))).makeMove
    ((3, 4), (4, 4))).makeMove ((6, 3), (4, 3))
/-- One square's contribution to a count: 1 when its code satisfies `p`. -/
def tally (p : Int → Bool) (code : Int) : Nat := if p code then 1 else 0

/-- The number of squares of the 8x8 grid whose code satisfies `p`. -/
def countCells (p : Int → Bool) (b : List (List Int)) : Nat :=
  (idx8.map fun row => (idx8.map fun col => tally p (readGrid b row col)).sum).sum

/-- The number of White pieces on the board. -/
def ChessEngine.whitePieces (s : ChessEngine) : Nat := countCells isWhitePiece s.board

/-- The number of Black pieces on the board. -/
def ChessEngine.blackPieces (s : ChessEngine) : Nat := countCells isBlackPiece s.board

/-! ## Move generation: where moves start and end -/

theorem mem_idx8 (r : Int) : r ∈ idx8 ↔ 0 ≤ r ∧ r < 8 := by
  simp only [idx8, List.mem_cons, List.mem_singleton, List.not_mem_nil, or_false]
  omega

theorem mem_getAllLegalMoves (s : ChessEngine) (m : Move) :
    m ∈ s.getAllLegalMoves ↔ ∃ row ∈ idx8, ∃ col ∈ idx8, m ∈ s.movesFrom row col := by
  simp only [ChessEngine.getAllLegalMoves, List.mem_flatMap]

theorem pawnCapture_spec (s : ChessEngine) (row col dc : Int) (m : Move)
    (h : m ∈ s.pawnCapture row col dc) :
    m.1 = (row, col) ∧ 0 ≤ m.2.1 ∧ m.2.1 < 8 ∧ m.2.2 = col + dc ∧ 0 ≤ col + dc ∧ col + dc < 8 := by
  cases hw : s.whiteToMove <;> simp [ChessEngine.pawnCapture, hw] at h <;>
    rcases h with ⟨hb, (⟨_, rfl⟩ | ⟨_, _, rfl⟩)⟩ <;> simp <;> omega

theorem getPawnMoves_spec (s : ChessEngine) (row col : Int) (m : Move)
    (hc : 0 ≤ col ∧ col < 8)
    (h : m ∈ s.getPawnMoves row col) :
    m.1 = (row, col) ∧ 0 ≤ m.2.1 ∧ m.2.1 < 8 ∧ 0 ≤ m.2.2 ∧ m.2.2 < 8 := by
  unfold ChessEngine.getPawnMoves at h
  simp only [List.append_assoc, List.mem_append] at h
  rcases h with h | h | h
  · cases hw : s.whiteToMove <;> simp [hw] at h <;>
      rcases h with ⟨hb, (rfl | ⟨_, rfl⟩)⟩ <;> simp <;> omega
  · obtain ⟨h1, h2, h3, h4, h5, h6⟩ := pawnCapture_spec s row col _ m h
    refine ⟨h1, h2, h3, ?_, ?_⟩ <;> omega
  · obtain ⟨h1, h2, h3, h4, h5, h6⟩ := pawnCapture_spec s row col _ m h
    refine ⟨h1, h2, h3, ?_, ?_⟩ <;> omega

theorem stepMove_spec (s : ChessEngine) (row col : Int) (d : Int × Int) (m : Move)
    (h : m ∈ s.stepMove row col d) :
    m = ((row, col), (row + d.1, col + d.2)) ∧ 0 ≤ m.2.1 ∧ m.2.1 < 8 ∧ 0 ≤ m.2.2 ∧ m.2.2 < 8 := by
  unfold ChessEngine.stepMove at h
  simp only [] at h
  split at h
  · rename_i hb
    simp only [onBoard, Bool.and_eq_true, decide_eq_true_eq] at hb
    split at h
    · simp only [List.mem_singleton] at h
      subst h; simp; omega
    · simp at h
  · simp at h

theorem slide_spec (s : ChessEngine) (row col dr dc : Int) (ds : List Int) (m : Move)
    (h : m ∈ s.slide row col dr dc ds) :
    m.1 = (row, col) ∧ 0 ≤ m.2.1 ∧ m.2.1 < 8 ∧ 0 ≤ m.2.2 ∧ m.2.2 < 8 ∧
      ∃ d ∈ ds, m.2 = (row + dr * d, col + dc * d) := by
  induction ds with
  | nil => simp [ChessEngine.slide] at h
  | cons d rest ih =>
    unfold ChessEngine.slide at h
    simp only [] at h
    split at h
    · simp at h
    · rename_i hb
      simp only [Bool.or_eq_true, decide_eq_true_eq, not_or, not_lt, not_le] at hb
      split at h
      · rw [List.mem_cons] at h
        rcases h with h | h
        · subst h; simp; omega
        · obtain ⟨h1, h2, h3, h4, h5, d', hd', h6⟩ := ih h
          exact ⟨h1, h2, h3, h4, h5, d', List.mem_cons_of_mem _ hd', h6⟩
      · split at h
        · simp only [List.mem_singleton] at h
          subst h; simp; omega
        · simp at h

theorem castlingMoves_spec (s : ChessEngine) (row col : Int) (m : Move)
    (h : m ∈ s.castlingMoves row col) :
    m.1 = (row, col) ∧ 0 ≤ m.2.1 ∧ m.2.1 < 8 ∧ 0 ≤ m.2.2 ∧ m.2.2 < 8 := by
  unfold ChessEngine.castlingMoves at h
  split at h <;> split at h <;> simp only [List.mem_append, List.not_mem_nil] at h
  all_goals
    rcases h with h | h <;> split at h <;> simp only [List.mem_singleton, List.not_mem_nil] at h
    all_goals subst h; simp

theorem getKnightMoves_spec (s : ChessEngine) (row col : Int) (m : Move)
    (h : m ∈ s.getKnightMoves row col) :
    m.1 = (row, col) ∧ 0 ≤ m.2.1 ∧ m.2.1 < 8 ∧ 0 ≤ m.2.2 ∧ m.2.2 < 8 := by
  simp only [ChessEngine.getKnightMoves, List.mem_flatMap] at h
  obtain ⟨d, _, hd⟩ := h
  obtain ⟨h1, h2⟩ := stepMove_spec s row col d m hd
  exact ⟨by rw [h1], h2⟩

theorem getKingMoves_spec (s : ChessEngine) (row col : Int) (m : Move)
    (h : m ∈ s.getKingMoves row col) :
    m.1 = (row, col) ∧ 0 ≤ m.2.1 ∧ m.2.1 < 8 ∧ 0 ≤ m.2.2 ∧ m.2.2 < 8 := by
  simp only [ChessEngine.getKingMoves, List.mem_append, List.mem_flatMap] at h
  rcases h with ⟨d, _, hd⟩ | h
  · obtain ⟨h1, h2⟩ := stepMove_spec s row col d m hd
    exact ⟨by rw [h1], h2⟩
  · exact castlingMoves_spec s row col m h

theorem getBishopMoves_spec (s : ChessEngine) (row col : Int) (m : Move)
    (h : m ∈ s.getBishopMoves row col) :
    m.1 = (row, col) ∧ 0 ≤ m.2.1 ∧ m.2.1 < 8 ∧ 0 ≤ m.2.2 ∧ m.2.2 < 8 := by
  simp only [ChessEngine.getBishopMoves, List.mem_flatMap] at h
  obtain ⟨d, _, hd⟩ := h
  obtain ⟨h1, h2, h3, h4, h5, _⟩ := slide_spec s row col d.1 d.2 _ m hd
  exact ⟨h1, h2, h3, h4, h5⟩

theorem getRookMoves_spec (s : ChessEngine) (row col : Int) (m : Move)
    (h : m ∈ s.getRookMoves row col) :
    m.1 = (row, col) ∧ 0 ≤ m.2.1 ∧ m.2.1 < 8 ∧ 0 ≤ m.2.2 ∧ m.2.2 < 8 := by
  simp only [ChessEngine.getRookMoves, List.mem_flatMap] at h
  obtain ⟨d, _, hd⟩ := h
  obtain ⟨h1, h2, h3, h4, h5, _⟩ := slide_spec s row col d.1 d.2 _ m hd
  exact ⟨h1, h2, h3, h4, h5⟩

theorem movesFrom_spec (s : ChessEngine) (row col : Int) (m : Move)
    (hc : 0 ≤ col ∧ col < 8) (h : m ∈ s.movesFrom row col) :
    m.1 = (row, col) ∧ 0 ≤ m.2.1 ∧ m.2.1 < 8 ∧ 0 ≤ m.2.2 ∧ m.2.2 < 8 := by
  unfold ChessEngine.movesFrom at h
  simp only [] at h
  repeat' split at h
  all_goals first
    | exact getPawnMoves_spec s row col m hc h
    | exact getKnightMoves_spec s row col m h
    | exact getBishopMoves_spec s row col m h
    | exact getRookMoves_spec s row col m h
    | exact getKingMoves_spec s row col m h
    | exact getKingMoves_spec s row col m h.2
    | exact (List.mem_append.mp h).elim (getBishopMoves_spec s row col m)
        (getRookMoves_spec s row col m)
    | exact absurd h (List.not_mem_nil m)

/-- Every generated move starts on a board square and ends on a board square. -/
theorem getAllLegalMoves_inRange (s : ChessEngine) (m : Move) (h : m ∈ s.getAllLegalMoves) :
    (0 ≤ m.1.1 ∧ m.1.1 < 8) ∧ (0 ≤ m.1.2 ∧ m.1.2 < 8) ∧
      (0 ≤ m.2.1 ∧ m.2.1 < 8) ∧ (0 ≤ m.2.2 ∧ m.2.2 < 8) := by
  rw [mem_getAllLegalMoves] at h
  obtain ⟨row, hrow, col, hcol, hm⟩ := h
  rw [mem_idx8] at hrow hcol
  obtain ⟨h1, h2, h3, h4, h5⟩ := movesFrom_spec s row col m hcol hm
  rw [h1]
  exact ⟨hrow, hcol, ⟨h2, h3⟩, ⟨h4, h5⟩⟩

theorem foldl_best_spec {α : Type} (g : α → Int) (l : List α) (init : Int) :
    init ≤ l.foldl (fun b m => if g m > b then g m else b) init ∧
    (∀ m ∈ l, g m ≤ l.foldl (fun b m => if g m > b then g m else b) init) ∧
    (l.foldl (fun b m => if g m > b then g m else b) init = init ∨
      ∃ m ∈ l, l.foldl (fun b m => if g m > b then g m else b) init = g m) := by
  induction l generalizing init with
  | nil => simp
  | cons a t ih =>
    simp only [List.foldl_cons, List.mem_cons]
    by_cases hg : g a > init
    · rw [if_pos hg]
      obtain ⟨h1, h2, h3⟩ := ih (g a)
      refine ⟨by omega, ?_, ?_⟩
      · rintro m (rfl | hm)
        · exact h1
        · exact h2 m hm
      · rcases h3 with h3 | ⟨m, hm, h3⟩
        · exact Or.inr ⟨a, Or.inl rfl, h3⟩
        · exact Or.inr ⟨m, Or.inr hm, h3⟩
    · rw [if_neg hg]
      obtain ⟨h1, h2, h3⟩ := ih init
      refine ⟨h1, ?_, ?_⟩
      · rintro m (rfl | hm)
        · omega
        · exact h2 m hm
      · rcases h3 with h3 | ⟨m, hm, h3⟩
        · exact Or.inl h3
        · exact Or.inr ⟨m, Or.inr hm, h3⟩

theorem negamax_succ (s : ChessEngine) (depth : Nat) :
    s.negamax (depth + 1) =
      if s.getAllLegalMoves.isEmpty then -100000
      else s.getAllLegalMoves.foldl
        (fun b m => if -((s.makeMove m).negamax depth) > b then -((s.makeMove m).negamax depth) else b)
        (-1000000) := by
  rw [ChessEngine.negamax]

theorem negamax_succ_ge (s : ChessEngine) (depth : Nat) : -1000000 ≤ s.negamax (depth + 1) := by
  rw [negamax_succ]
  split
  · omega
  · exact (foldl_best_spec (fun m => -((s.makeMove m).negamax depth)) _ _).1

theorem negamax_succ_succ_le (s : ChessEngine) (depth : Nat) :
    s.negamax (depth + 2) ≤ 1000000 := by
  rw [negamax_succ]
  split
  · omega
  · rcases (foldl_best_spec (fun m => -((s.makeMove m).negamax (depth + 1))) s.getAllLegalMoves
      (-1000000)).2.2 with h | ⟨m, _, h⟩
    · omega
    · replace h : _ = -((s.makeMove m).negamax (depth + 1)) := h
      have := negamax_succ_ge (s.makeMove m) depth
      omega


/-! ## Castling moves in the generated list -/

theorem mem_getAllLegalMoves_iff (s : ChessEngine) (m : Move) :
    m ∈ s.getAllLegalMoves ↔
      (0 ≤ m.1.1 ∧ m.1.1 < 8) ∧ (0 ≤ m.1.2 ∧ m.1.2 < 8) ∧ m ∈ s.movesFrom m.1.1 m.1.2 := by
  rw [mem_getAllLegalMoves]
  constructor
  · rintro ⟨row, hrow, col, hcol, hm⟩
    rw [mem_idx8] at hrow hcol
    have h1 := (movesFrom_spec s row col m hcol hm).1
    rw [h1]
    exact ⟨hrow, hcol, hm⟩
  · rintro ⟨hr, hc, hm⟩
    exact ⟨m.1.1, (mem_idx8 _).mpr hr, m.1.2, (mem_idx8 _).mpr hc, hm⟩

theorem movesFrom_whiteKing (s : ChessEngine) (row col : Int) (hw : s.whiteToMove = true)
    (hk : s.at row col = 6) : s.movesFrom row col = s.getKingMoves row col := by
  simp [ChessEngine.movesFrom, hk, ChessEngine.isOwnPiece, hw, isWhitePiece]

theorem movesFrom_blackKing (s : ChessEngine) (row col : Int) (hw : s.whiteToMove = false)
    (hk : s.at row col = 12) : s.movesFrom row col = s.getKingMoves row col := by
  simp [ChessEngine.movesFrom, hk, ChessEngine.isOwnPiece, hw, isBlackPiece]

theorem whiteKingside_mem_iff (s : ChessEngine) (hw : s.whiteToMove = true) (hk : s.at 0 4 = 6) :
    ((0, 4), (0, 6)) ∈ s.getAllLegalMoves ↔
      s.whiteKingMoved = false ∧ s.whiteKingsideRookMoved = false ∧
        s.at 0 5 = 0 ∧ s.at 0 6 = 0 ∧ s.at 0 7 = 4 := by
  rw [mem_getAllLegalMoves_iff, movesFrom_whiteKing s _ _ hw hk]
  simp [ChessEngine.getKingMoves, kingDirections, ChessEngine.stepMove, ChessEngine.castlingMoves, hw]
  tauto

theorem whiteQueenside_mem_iff (s : ChessEngine) (hw : s.whiteToMove = true) (hk : s.at 0 4 = 6) :
    ((0, 4), (0, 2)) ∈ s.getAllLegalMoves ↔
      s.whiteKingMoved = false ∧ s.whiteQueensideRookMoved = false ∧
        s.at 0 3 = 0 ∧ s.at 0 2 = 0 ∧ s.at 0 1 = 0 ∧ s.at 0 0 = 4 := by
  rw [mem_getAllLegalMoves_iff, movesFrom_whiteKing s _ _ hw hk]
  simp [ChessEngine.getKingMoves, kingDirections, ChessEngine.stepMove, ChessEngine.castlingMoves, hw]
  tauto

theorem blackKingside_mem_iff (s : ChessEngine) (hw : s.whiteToMove = false) (hk : s.at 7 4 = 12) :
    ((7, 4), (7, 6)) ∈ s.getAllLegalMoves ↔
      s.blackKingMoved = false ∧ s.blackKingsideRookMoved = false ∧
        s.at 7 5 = 0 ∧ s.at 7 6 = 0 ∧ s.at 7 7 = 10 := by
  rw [mem_getAllLegalMoves_iff, movesFrom_blackKing s _ _ hw hk]
  simp [ChessEngine.getKingMoves, kingDirections, ChessEngine.stepMove, ChessEngine.castlingMoves, hw]
  tauto

theorem blackQueenside_mem_iff (s : ChessEngine) (hw : s.whiteToMove = false) (hk : s.at 7 4 = 12) :
    ((7, 4), (7, 2)) ∈ s.getAllLegalMoves ↔
      s.blackKingMoved = false ∧ s.blackQueensideRookMoved = false ∧
        s.at 7 3 = 0 ∧ s.at 7 2 = 0 ∧ s.at 7 1 = 0 ∧ s.at 7 0 = 10 := by
  rw [mem_getAllLegalMoves_iff, movesFrom_blackKing s _ _ hw hk]
  simp [ChessEngine.getKingMoves, kingDirections, ChessEngine.stepMove, ChessEngine.castlingMoves, hw]
  tauto

/-! ## The moved flags are never reset -/

theorem flagsKept_refl (s : ChessEngine) : flagsKept s s :=
  ⟨id, id, id, id, id, id⟩

theorem flagsKept_trans {s t u : ChessEngine} (h1 : flagsKept s t) (h2 : flagsKept t u) :
    flagsKept s u := by
  obtain ⟨a1, a2, a3, a4, a5, a6⟩ := h1
  obtain ⟨b1, b2, b3, b4, b5, b6⟩ := h2
  exact ⟨b1 ∘ a1, b2 ∘ a2, b3 ∘ a3, b4 ∘ a4, b5 ∘ a5, b6 ∘ a6⟩

theorem flagsKept_put (s : ChessEngine) (r c v : Int) : flagsKept s (s.put r c v) :=
  ⟨id, id, id, id, id, id⟩

theorem flagsKept_stepEnPassantCol (s : ChessEngine) (p fr fc tr : Int) :
    flagsKept s (s.stepEnPassantCol p fr fc tr) := by
  unfold ChessEngine.stepEnPassantCol
  split <;> exact ⟨id, id, id, id, id, id⟩

theorem flagsKept_stepEnPassantCapture (s : ChessEngine) (p fr fc tr tc : Int) :
    flagsKept s (s.stepEnPassantCapture p fr fc tr tc) := by
  unfold ChessEngine.stepEnPassantCapture
  split <;> exact ⟨id, id, id, id, id, id⟩

theorem flagsKept_stepCastling (s : ChessEngine) (p fr fc tc : Int) :
    flagsKept s (s.stepCastling p fr fc tc) := by
  unfold ChessEngine.stepCastling
  repeat' split
  all_goals exact ⟨by simp [ChessEngine.put], by simp [ChessEngine.put], id, id, id, id⟩

theorem flagsKept_stepRookFlags (s : ChessEngine) (p fr fc : Int) :
    flagsKept s (s.stepRookFlags p fr fc) := by
  unfold ChessEngine.stepRookFlags
  repeat' split
  all_goals exact ⟨id, id, by simp, by simp, by simp, by simp⟩

theorem flagsKept_stepKingFlags (s : ChessEngine) (p : Int) :
    flagsKept s (s.stepKingFlags p) := by
  unfold ChessEngine.stepKingFlags
  repeat' split
  all_goals exact ⟨by simp, by simp, id, id, id, id⟩

theorem flagsKept_stepPromotion (s : ChessEngine) (p tr tc : Int) :
    flagsKept s (s.stepPromotion p tr tc) := by
  unfold ChessEngine.stepPromotion
  repeat' split
  all_goals exact ⟨id, id, id, id, id, id⟩

theorem flagsKept_stepRelocate (s : ChessEngine) (fr fc tr tc : Int) :
    flagsKept s (s.stepRelocate fr fc tr tc) :=
  ⟨id, id, id, id, id, id⟩

theorem flagsKept_makeMove (s : ChessEngine) (m : Move) : flagsKept s (s.makeMove m) := by
  have h1 := flagsKept_stepEnPassantCol s (s.at m.1.1 m.1.2) m.1.1 m.1.2 m.2.1
  have h2 := flagsKept_trans h1
    (flagsKept_stepEnPassantCapture _ (s.at m.1.1 m.1.2) m.1.1 m.1.2 m.2.1 m.2.2)
  have h3 := flagsKept_trans h2 (flagsKept_stepCastling _ (s.at m.1.1 m.1.2) m.1.1 m.1.2 m.2.2)
  have h4 := flagsKept_trans h3 (flagsKept_stepRookFlags _ (s.at m.1.1 m.1.2) m.1.1 m.1.2)
  have h5 := flagsKept_trans h4 (flagsKept_stepKingFlags _ (s.at m.1.1 m.1.2))
  have h7 := flagsKept_trans h5 (flagsKept_stepRelocate _ m.1.1 m.1.2 m.2.1 m.2.2)
  have h8 := flagsKept_trans h7 (flagsKept_stepPromotion _ (s.at m.1.1 m.1.2) m.2.1 m.2.2)
  exact h8

theorem flagsKept_makeMoves (s : ChessEngine) (ms : List Move) :
    flagsKept s (s.makeMoves ms) := by
  induction ms generalizing s with
  | nil => exact flagsKept_refl s
  | cons m t ih => exact flagsKept_trans (flagsKept_makeMove s m) (ih (s.makeMove m))

/-! ## Grid reads after writes, and counting generated moves -/

theorem readGrid_writeGrid_ne (b : List (List Int)) (r c v r' c' : Int)
    (h : r ≠ r' ∨ c ≠ c') : readGrid (writeGrid b r c v) r' c' = readGrid b r' c' := by
  unfold readGrid writeGrid
  by_cases h1 : 0 ≤ r' ∧ 0 ≤ c'
  · by_cases h2 : 0 ≤ r ∧ 0 ≤ c
    · rw [if_pos h1, if_pos h1, if_pos h2]
      by_cases hr : r = r'
      · subst hr
        have hc : c.toNat ≠ c'.toNat := by
          rcases h with h | h
          · exact absurd rfl h
          · omega
        simp only [List.getD_eq_getElem?_getD, List.getElem?_set]
        by_cases hlen : r.toNat < b.length
        · simp [hlen, List.getElem?_set, hc]
        · have hnone : b[r.toNat]? = none := List.getElem?_eq_none (by omega)
          simp [hlen, hnone]
      · have hr' : r.toNat ≠ r'.toNat := by omega
        simp only [List.getD_eq_getElem?_getD, List.getElem?_set, hr', if_false]
    · rw [if_neg h2]
  · rw [if_neg h1, if_neg h1]

theorem at_put_ne (s : ChessEngine) (r c v r' c' : Int) (h : r ≠ r' ∨ c ≠ c') :
    (s.put r c v).at r' c' = s.at r' c' :=
  readGrid_writeGrid_ne s.board r c v r' c' h

theorem count_flatMap_key {κ : Type} [DecidableEq κ] (key : Move → κ) (f : κ → List Move)
    (l : List κ) (hl : l.Nodup) (hf : ∀ k ∈ l, ∀ x ∈ f k, key x = k) (m : Move)
    (hm : key m ∈ l) : (l.flatMap f).count m = (f (key m)).count m := by
  induction l with
  | nil => simp at hm
  | cons a t ih =>
    rw [List.flatMap_cons, List.count_append]
    rw [List.nodup_cons] at hl
    by_cases ha : key m = a
    · have h0 : (t.flatMap f).count m = 0 := by
        rw [List.count_eq_zero]
        intro hmem
        obtain ⟨k, hk, hx⟩ := List.mem_flatMap.mp hmem
        have := hf k (List.mem_cons_of_mem _ hk) m hx
        rw [ha] at this
        rw [this] at hl
        exact hl.1 hk
      rw [h0, ha, Nat.add_zero]
    · have h0 : (f a).count m = 0 := by
        rw [List.count_eq_zero]
        intro hmem
        exact ha (hf a (List.mem_cons_self _ _) m hmem)
      have hm' : key m ∈ t := by
        rcases List.mem_cons.mp hm with h | h
        · exact absurd h ha
        · exact h
      rw [h0, Nat.zero_add]
      exact ih hl.2 (fun k hk => hf k (List.mem_cons_of_mem _ hk)) hm'

theorem idx8_nodup : idx8.Nodup := by decide

theorem count_getAllLegalMoves (s : ChessEngine) (m : Move)
    (hr : 0 ≤ m.1.1 ∧ m.1.1 < 8) (hc : 0 ≤ m.1.2 ∧ m.1.2 < 8) :
    s.getAllLegalMoves.count m = (s.movesFrom m.1.1 m.1.2).count m := by
  unfold ChessEngine.getAllLegalMoves
  rw [count_flatMap_key (fun x : Move => x.1.1)
    (fun row => idx8.flatMap fun col => s.movesFrom row col) idx8 idx8_nodup ?_ m
    ((mem_idx8 _).mpr hr)]
  · exact count_flatMap_key (fun x : Move => x.1.2) (fun col => s.movesFrom m.1.1 col) idx8
      idx8_nodup (fun col hcol x hx => by
        show x.1.2 = col
        rw [(movesFrom_spec s m.1.1 col x ((mem_idx8 _).mp hcol) hx).1]) m ((mem_idx8 _).mpr hc)
  · intro row _ x hx
    obtain ⟨col, hcol, hx⟩ := List.mem_flatMap.mp hx
    show x.1.1 = row
    rw [(movesFrom_spec s row col x ((mem_idx8 _).mp hcol) hx).1]

/-! ## Effects of `makeMove`, and pawn moves -/

theorem stepEnPassantCapture_enPassantCol (s : ChessEngine) (p fr fc tr tc : Int) :
    (s.stepEnPassantCapture p fr fc tr tc).enPassantCol = s.enPassantCol := by
  unfold ChessEngine.stepEnPassantCapture; split <;> rfl

theorem stepCastling_enPassantCol (s : ChessEngine) (p fr fc tc : Int) :
    (s.stepCastling p fr fc tc).enPassantCol = s.enPassantCol := by
  unfold ChessEngine.stepCastling; repeat' split
  all_goals rfl

theorem stepRookFlags_enPassantCol (s : ChessEngine) (p fr fc : Int) :
    (s.stepRookFlags p fr fc).enPassantCol = s.enPassantCol := by
  unfold ChessEngine.stepRookFlags; repeat' split
  all_goals rfl

theorem stepKingFlags_enPassantCol (s : ChessEngine) (p : Int) :
    (s.stepKingFlags p).enPassantCol = s.enPassantCol := by
  unfold ChessEngine.stepKingFlags; repeat' split
  all_goals rfl

theorem stepPromotion_enPassantCol (s : ChessEngine) (p tr tc : Int) :
    (s.stepPromotion p tr tc).enPassantCol = s.enPassantCol := by
  unfold ChessEngine.stepPromotion; repeat' split
  all_goals rfl

theorem stepEnPassantCol_whiteToMove (s : ChessEngine) (p fr fc tr : Int) :
    (s.stepEnPassantCol p fr fc tr).whiteToMove = s.whiteToMove := by
  unfold ChessEngine.stepEnPassantCol; split <;> rfl

theorem stepEnPassantCapture_whiteToMove (s : ChessEngine) (p fr fc tr tc : Int) :
    (s.stepEnPassantCapture p fr fc tr tc).whiteToMove = s.whiteToMove := by
  unfold ChessEngine.stepEnPassantCapture; split <;> rfl

theorem stepCastling_whiteToMove (s : ChessEngine) (p fr fc tc : Int) :
    (s.stepCastling p fr fc tc).whiteToMove = s.whiteToMove := by
  unfold ChessEngine.stepCastling; repeat' split
  all_goals rfl

theorem stepRookFlags_whiteToMove (s : ChessEngine) (p fr fc : Int) :
    (s.stepRookFlags p fr fc).whiteToMove = s.whiteToMove := by
  unfold ChessEngine.stepRookFlags; repeat' split
  all_goals rfl

theorem stepKingFlags_whiteToMove (s : ChessEngine) (p : Int) :
    (s.stepKingFlags p).whiteToMove = s.whiteToMove := by
  unfold ChessEngine.stepKingFlags; repeat' split
  all_goals rfl

theorem stepPromotion_whiteToMove (s : ChessEngine) (p tr tc : Int) :
    (s.stepPromotion p tr tc).whiteToMove = s.whiteToMove := by
  unfold ChessEngine.stepPromotion; repeat' split
  all_goals rfl

/-- The en-passant file after `makeMove`. -/
theorem makeMove_enPassantCol (s : ChessEngine) (m : Move) :
    (s.makeMove m).enPassantCol =
      if (s.at m.1.1 m.1.2 = 1 ∨ s.at m.1.1 m.1.2 = 7) ∧ (m.1.1 - m.2.1).natAbs = 2
      then m.1.2 else -1 := by
  have e : (s.makeMove m).enPassantCol =
      (s.stepEnPassantCol (s.at m.1.1 m.1.2) m.1.1 m.1.2 m.2.1).enPassantCol := by
    unfold ChessEngine.makeMove
    simp only [stepPromotion_enPassantCol, ChessEngine.stepRelocate, ChessEngine.put,
      stepKingFlags_enPassantCol, stepRookFlags_enPassantCol, stepCastling_enPassantCol,
      stepEnPassantCapture_enPassantCol]
  rw [e]
  unfold ChessEngine.stepEnPassantCol
  split <;> rfl

/-- The side to move after `makeMove`. -/
theorem makeMove_whiteToMove (s : ChessEngine) (m : Move) :
    (s.makeMove m).whiteToMove = !s.whiteToMove := by
  unfold ChessEngine.makeMove
  simp only [stepPromotion_whiteToMove, ChessEngine.stepRelocate, ChessEngine.put,
    stepKingFlags_whiteToMove, stepRookFlags_whiteToMove, stepCastling_whiteToMove,
    stepEnPassantCapture_whiteToMove, stepEnPassantCol_whiteToMove]

theorem stepEnPassantCol_board (s : ChessEngine) (p fr fc tr : Int) :
    (s.stepEnPassantCol p fr fc tr).board = s.board := by
  unfold ChessEngine.stepEnPassantCol; split <;> rfl

theorem stepRookFlags_board (s : ChessEngine) (p fr fc : Int) :
    (s.stepRookFlags p fr fc).board = s.board := by
  unfold ChessEngine.stepRookFlags; repeat' split
  all_goals rfl

theorem stepKingFlags_board (s : ChessEngine) (p : Int) :
    (s.stepKingFlags p).board = s.board := by
  unfold ChessEngine.stepKingFlags; repeat' split
  all_goals rfl

theorem stepEnPassantCapture_same_col (s : ChessEngine) (p fr fc tr : Int) :
    s.stepEnPassantCapture p fr fc tr fc = s := by
  unfold ChessEngine.stepEnPassantCapture
  rw [if_neg (fun h => h.2.1 rfl)]

theorem stepCastling_of_not_king (s : ChessEngine) (p fr fc tc : Int) (h6 : p ≠ 6)
    (h12 : p ≠ 12) : s.stepCastling p fr fc tc = s := by
  unfold ChessEngine.stepCastling
  rw [if_neg (fun h => h6 h.1), if_neg (fun h => h12 h.1)]

theorem stepPromotion_of_not (s : ChessEngine) (p tr tc : Int) (h1 : ¬(p = 1 ∧ tr = 7))
    (h2 : ¬(p = 7 ∧ tr = 0)) : s.stepPromotion p tr tc = s := by
  unfold ChessEngine.stepPromotion
  rw [if_neg h1, if_neg h2]

/-- The grid after a pawn moved straight ahead to a row that is not a promotion row. -/
theorem makeMove_board_pawn_straight (s : ChessEngine) (r c r2 : Int)
    (hp : s.at r c = 1 ∨ s.at r c = 7) (h7 : r2 ≠ 7) (h0 : r2 ≠ 0) :
    (s.makeMove ((r, c), (r2, c))).board =
      writeGrid (writeGrid s.board r2 c (s.at r c)) r c 0 := by
  have h6 : s.at r c ≠ 6 := by omega
  have h12 : s.at r c ≠ 12 := by omega
  unfold ChessEngine.makeMove
  simp only []
  rw [stepPromotion_of_not _ _ _ _ (fun h => h7 h.2) (fun h => h0 h.2),
    stepEnPassantCapture_same_col, stepCastling_of_not_king _ _ _ _ _ h6 h12]
  simp only [ChessEngine.stepRelocate, ChessEngine.put, ChessEngine.at, stepKingFlags_board,
    stepRookFlags_board, stepEnPassantCol_board]

theorem movesFrom_pawn (s : ChessEngine) (r c : Int) (hp : s.at r c = 1 ∨ s.at r c = 7) :
    s.movesFrom r c = if s.isOwnPiece (s.at r c) then s.getPawnMoves r c else [] := by
  rcases hp with hp | hp <;> cases hw : s.whiteToMove <;>
    simp [ChessEngine.movesFrom, hp, ChessEngine.isOwnPiece, hw, isWhitePiece, isBlackPiece]

theorem pawn_double_spec (s : ChessEngine) (r c : Int) (m : Move)
    (hm : m ∈ s.getPawnMoves r c) (hcol : m.2.2 = c) (hrow : (r - m.2.1).natAbs = 2) :
    (s.whiteToMove = true ∧ r = 1 ∧ m = ((1, c), (3, c)) ∧ s.at 2 c = 0 ∧ s.at 3 c = 0) ∨
    (s.whiteToMove = false ∧ r = 6 ∧ m = ((6, c), (4, c)) ∧ s.at 5 c = 0 ∧ s.at 4 c = 0) := by
  unfold ChessEngine.getPawnMoves at hm
  simp only [List.append_assoc, List.mem_append] at hm
  rcases hm with h | h | h
  · cases hw : s.whiteToMove <;> simp [hw] at h <;>
      rcases h with ⟨hb, (rfl | ⟨⟨rfl, h2⟩, rfl⟩)⟩
    · simp at hrow
    · right; simp at hb h2 ⊢; exact ⟨hb, h2⟩
    · simp at hrow
    · left; simp at hb h2 ⊢; exact ⟨hb, h2⟩
  · have := pawnCapture_spec s r c _ m h
    omega
  · have := pawnCapture_spec s r c _ m h
    omega

theorem count_enPassant_black (t : ChessEngine) (c c' : Int) (hw : t.whiteToMove = false)
    (hep : t.enPassantCol = c) (hc : 0 ≤ c ∧ c < 8) (hc' : c' = c - 1 ∨ c' = c + 1)
    (hempty : t.at 2 c = 0) :
    (t.getPawnMoves 3 c').count ((3, c'), (2, c)) = 1 := by
  rcases hc' with rfl | rfl <;>
    simp [ChessEngine.getPawnMoves, ChessEngine.pawnCapture, hw, hep, hempty, List.count_cons,
      List.count_append] <;>
    split_ifs <;> simp [List.count_cons] <;> omega

theorem count_enPassant_white (t : ChessEngine) (c c' : Int) (hw : t.whiteToMove = true)
    (hep : t.enPassantCol = c) (hc : 0 ≤ c ∧ c < 8) (hc' : c' = c - 1 ∨ c' = c + 1)
    (hempty : t.at 5 c = 0) :
    (t.getPawnMoves 4 c').count ((4, c'), (5, c)) = 1 := by
  rcases hc' with rfl | rfl <;>
    simp [ChessEngine.getPawnMoves, ChessEngine.pawnCapture, hw, hep, hempty, List.count_cons,
      List.count_append] <;>
    split_ifs <;> simp [List.count_cons] <;> omega

theorem pawnCapture_target (u : ChessEngine) (hep : u.enPassantCol = -1) (r c dc : Int)
    (x : Move) (h : x ∈ u.pawnCapture r c dc) : u.at x.2.1 x.2.2 ≠ 0 := by
  cases hw : u.whiteToMove <;> simp [ChessEngine.pawnCapture, hw, hep] at h <;>
    rcases h with ⟨hb, (⟨hne, rfl⟩ | ⟨h1, _⟩)⟩
  · exact hne.1
  · omega
  · exact hne.1
  · omega

theorem diagonal_pawn_moves_capture (u : ChessEngine) (hep : u.enPassantCol = -1) (x : Move)
    (hx : x ∈ u.getAllLegalMoves) (hp : u.at x.1.1 x.1.2 = 1 ∨ u.at x.1.1 x.1.2 = 7)
    (hd : x.2.2 ≠ x.1.2) : u.at x.2.1 x.2.2 ≠ 0 := by
  obtain ⟨_, _, hmf⟩ := (mem_getAllLegalMoves_iff u x).mp hx
  rw [movesFrom_pawn u _ _ hp] at hmf
  split at hmf
  · unfold ChessEngine.getPawnMoves at hmf
    simp only [List.append_assoc, List.mem_append] at hmf
    rcases hmf with h | h | h
    · exfalso
      apply hd
      cases hw : u.whiteToMove <;> simp [hw] at h <;>
        rcases h with ⟨_, (h | ⟨_, h⟩)⟩ <;> rw [h]
    · exact pawnCapture_target u hep _ _ _ x h
    · exact pawnCapture_target u hep _ _ _ x h
  · exact absurd hmf (List.not_mem_nil x)


/-! ## The grid through `makeMove` -/

theorem isGrid8_writeGrid (b : List (List Int)) (r c v : Int) (h : isGrid8 b) :
    isGrid8 (writeGrid b r c v) := by
  unfold writeGrid
  split
  · obtain ⟨h1, h2⟩ := h
    refine ⟨by rw [List.length_set]; exact h1, ?_⟩
    intro row hrow
    by_cases hlen : r.toNat < b.length
    · rcases List.mem_or_eq_of_mem_set hrow with hm | rfl
      · exact h2 row hm
      · rw [List.length_set, List.getD_eq_getElem?_getD, List.getElem?_eq_getElem hlen]
        exact h2 _ (List.getElem_mem hlen)
    · rw [List.set_eq_of_length_le (by omega)] at hrow
      exact h2 _ hrow
  · exact h

theorem readGrid_writeGrid_same (b : List (List Int)) (r c v : Int) (h : isGrid8 b)
    (hr : 0 ≤ r ∧ r < 8) (hc : 0 ≤ c ∧ c < 8) : readGrid (writeGrid b r c v) r c = v := by
  obtain ⟨h1, h2⟩ := h
  have hlen : r.toNat < b.length := by omega
  have hrow : (b[r.toNat]).length = 8 := h2 _ (List.getElem_mem hlen)
  unfold readGrid writeGrid
  rw [if_pos ⟨hr.1, hc.1⟩, if_pos ⟨hr.1, hc.1⟩]
  simp only [List.getD_eq_getElem?_getD, List.getElem?_set]
  have hc8 : c.toNat < (b[r.toNat]).length := by omega
  simp [hlen, hc8]

theorem readGrid_writeGrid_cases (b : List (List Int)) (r c v r' c' : Int) :
    readGrid (writeGrid b r c v) r' c' = v ∨
      readGrid (writeGrid b r c v) r' c' = readGrid b r' c' := by
  by_cases h : r ≠ r' ∨ c ≠ c'
  · exact Or.inr (readGrid_writeGrid_ne b r c v r' c' h)
  · have hr : r = r' := by_contra fun hne => h (Or.inl hne)
    have hc : c = c' := by_contra fun hne => h (Or.inr hne)
    subst hr hc
    unfold readGrid writeGrid
    by_cases h2 : 0 ≤ r ∧ 0 ≤ c
    · rw [if_pos h2, if_pos h2, if_pos h2]
      simp only [List.getD_eq_getElem?_getD, List.getElem?_set]
      by_cases hlen : r.toNat < b.length
      · by_cases hc8 : c.toNat < (b[r.toNat]).length
        · left; simp [hlen, hc8]
        · right
          have : (b[r.toNat])[c.toNat]? = none := List.getElem?_eq_none (by omega)
          simp [hlen, List.getElem?_set, hc8, this]
      · right
        have hnone : b[r.toNat]? = none := List.getElem?_eq_none (by omega)
        simp [hlen, hnone]
    · right; simp [h2]

theorem at_put_same (s : ChessEngine) (r c v : Int) (h : isGrid8 s.board)
    (hr : 0 ≤ r ∧ r < 8) (hc : 0 ≤ c ∧ c < 8) : (s.put r c v).at r c = v :=
  readGrid_writeGrid_same s.board r c v h hr hc

theorem isGrid8_put (s : ChessEngine) (r c v : Int) (h : isGrid8 s.board) :
    isGrid8 (s.put r c v).board :=
  isGrid8_writeGrid s.board r c v h

theorem stepEnPassantCol_at (s : ChessEngine) (p fr fc tr r c : Int) :
    (s.stepEnPassantCol p fr fc tr).at r c = s.at r c := by
  unfold ChessEngine.at; rw [stepEnPassantCol_board]

theorem stepRookFlags_at (s : ChessEngine) (p fr fc r c : Int) :
    (s.stepRookFlags p fr fc).at r c = s.at r c := by
  unfold ChessEngine.at; rw [stepRookFlags_board]

theorem stepKingFlags_at (s : ChessEngine) (p r c : Int) :
    (s.stepKingFlags p).at r c = s.at r c := by
  unfold ChessEngine.at; rw [stepKingFlags_board]

theorem stepEnPassantCapture_at_ne (s : ChessEngine) (p fr fc tr tc r c : Int)
    (h : fr ≠ r ∨ tc ≠ c) : (s.stepEnPassantCapture p fr fc tr tc).at r c = s.at r c := by
  unfold ChessEngine.stepEnPassantCapture
  split
  · exact at_put_ne s fr tc 0 r c h
  · rfl

theorem stepEnPassantCapture_at_origin (s : ChessEngine) (p fr fc tr tc : Int) :
    (s.stepEnPassantCapture p fr fc tr tc).at fr fc = s.at fr fc := by
  unfold ChessEngine.stepEnPassantCapture
  split
  · rename_i h
    exact at_put_ne s fr tc 0 fr fc (Or.inr (fun e => h.2.1 e.symm))
  · rfl

theorem at_put_put_col (s : ChessEngine) (r1 c1 v1 r2 c2 v2 r c : Int) (h1 : c1 ≠ c)
    (h2 : c2 ≠ c) : readGrid ((s.put r1 c1 v1).put r2 c2 v2).board r c = readGrid s.board r c :=
  (at_put_ne _ r2 c2 v2 r c (Or.inr h2)).trans (at_put_ne s r1 c1 v1 r c (Or.inr h1))

theorem stepCastling_at_col (s : ChessEngine) (p fr fc tc r c : Int)
    (h0 : c ≠ 0) (h3 : c ≠ 3) (h5 : c ≠ 5) (h7 : c ≠ 7) :
    (s.stepCastling p fr fc tc).at r c = s.at r c := by
  unfold ChessEngine.stepCastling ChessEngine.at
  repeat' split
  all_goals first
    | rfl
    | exact at_put_put_col s 0 5 4 0 7 0 r c (by omega) (by omega)
    | exact at_put_put_col s 0 3 4 0 0 0 r c (by omega) (by omega)
    | exact at_put_put_col s 7 5 10 7 7 0 r c (by omega) (by omega)
    | exact at_put_put_col s 7 3 10 7 0 0 r c (by omega) (by omega)

theorem stepCastling_at_origin (s : ChessEngine) (p fr fc tc : Int) :
    (s.stepCastling p fr fc tc).at fr fc = s.at fr fc := by
  by_cases h : fc = 4
  · exact stepCastling_at_col s p fr fc tc fr fc (by omega) (by omega) (by omega) (by omega)
  · unfold ChessEngine.stepCastling
    rw [if_neg (fun e => h e.2.2), if_neg (fun e => h e.2.2)]

theorem stepRelocate_at_origin (s : ChessEngine) (fr fc tr tc : Int) (hg : isGrid8 s.board)
    (hr : 0 ≤ fr ∧ fr < 8) (hc : 0 ≤ fc ∧ fc < 8) :
    (s.stepRelocate fr fc tr tc).at fr fc = 0 :=
  at_put_same _ fr fc 0 (isGrid8_put s tr tc _ hg) hr hc

theorem stepRelocate_at_dest (s : ChessEngine) (fr fc tr tc : Int) (hg : isGrid8 s.board)
    (hr : 0 ≤ tr ∧ tr < 8) (hc : 0 ≤ tc ∧ tc < 8) (hne : fr ≠ tr ∨ fc ≠ tc) :
    (s.stepRelocate fr fc tr tc).at tr tc = s.at fr fc :=
  (at_put_ne _ fr fc 0 tr tc hne).trans (at_put_same s tr tc _ hg hr hc)

theorem stepRelocate_at_ne (s : ChessEngine) (fr fc tr tc r c : Int)
    (h1 : fr ≠ r ∨ fc ≠ c) (h2 : tr ≠ r ∨ tc ≠ c) :
    (s.stepRelocate fr fc tr tc).at r c = s.at r c :=
  (at_put_ne _ fr fc 0 r c h1).trans (at_put_ne s tr tc _ r c h2)

theorem stepPromotion_at_ne (s : ChessEngine) (p tr tc r c : Int) (h : tr ≠ r ∨ tc ≠ c) :
    (s.stepPromotion p tr tc).at r c = s.at r c := by
  unfold ChessEngine.stepPromotion
  repeat' split
  all_goals first
    | rfl
    | exact at_put_ne _ _ _ _ r c h

theorem isGrid8_stepEnPassantCol (s : ChessEngine) (p fr fc tr : Int) (h : isGrid8 s.board) :
    isGrid8 (s.stepEnPassantCol p fr fc tr).board := by
  rw [stepEnPassantCol_board]; exact h

theorem isGrid8_stepEnPassantCapture (s : ChessEngine) (p fr fc tr tc : Int)
    (h : isGrid8 s.board) : isGrid8 (s.stepEnPassantCapture p fr fc tr tc).board := by
  unfold ChessEngine.stepEnPassantCapture
  split
  · exact isGrid8_put s _ _ _ h
  · exact h

theorem stepCastling_board (s : ChessEngine) (p fr fc tc : Int) :
    (s.stepCastling p fr fc tc).board =
      if p = 6 ∧ fr = 0 ∧ fc = 4 then
        (if tc = 6 then writeGrid (writeGrid s.board 0 5 4) 0 7 0
         else if tc = 2 then writeGrid (writeGrid s.board 0 3 4) 0 0 0
         else s.board)
      else if p = 12 ∧ fr = 7 ∧ fc = 4 then
        (if tc = 6 then writeGrid (writeGrid s.board 7 5 10) 7 7 0
         else if tc = 2 then writeGrid (writeGrid s.board 7 3 10) 7 0 0
         else s.board)
      else s.board := by
  unfold ChessEngine.stepCastling
  repeat' split
  all_goals rfl

theorem isGrid8_stepCastling (s : ChessEngine) (p fr fc tc : Int) (h : isGrid8 s.board) :
    isGrid8 (s.stepCastling p fr fc tc).board := by
  rw [stepCastling_board]
  repeat' split
  all_goals first
    | exact h
    | exact isGrid8_writeGrid _ _ _ _ (isGrid8_writeGrid _ _ _ _ h)

theorem isGrid8_stepRookFlags (s : ChessEngine) (p fr fc : Int) (h : isGrid8 s.board) :
    isGrid8 (s.stepRookFlags p fr fc).board := by
  rw [stepRookFlags_board]; exact h

theorem isGrid8_stepKingFlags (s : ChessEngine) (p : Int) (h : isGrid8 s.board) :
    isGrid8 (s.stepKingFlags p).board := by
  rw [stepKingFlags_board]; exact h

theorem isGrid8_stepRelocate (s : ChessEngine) (fr fc tr tc : Int) (h : isGrid8 s.board) :
    isGrid8 (s.stepRelocate fr fc tr tc).board :=
  isGrid8_put _ _ _ _ (isGrid8_put s _ _ _ h)

theorem isGrid8_stepPromotion (s : ChessEngine) (p tr tc : Int) (h : isGrid8 s.board) :
    isGrid8 (s.stepPromotion p tr tc).board := by
  unfold ChessEngine.stepPromotion
  repeat' split
  all_goals first
    | exact h
    | exact isGrid8_put s _ _ _ h

/-- `makeMove` keeps the grid at eight rows of eight cells. -/
theorem isGrid8_makeMove (s : ChessEngine) (m : Move) (h : isGrid8 s.board) :
    isGrid8 (s.makeMove m).board :=
  isGrid8_stepPromotion _ _ _ _ (isGrid8_stepRelocate _ _ _ _ _ (isGrid8_stepKingFlags _ _
    (isGrid8_stepRookFlags _ _ _ _ (isGrid8_stepCastling _ _ _ _ _
      (isGrid8_stepEnPassantCapture _ _ _ _ _ _ (isGrid8_stepEnPassantCol s _ _ _ _ h))))))

/-- The cell read at the origin by "Move the piece" is the moved piece. -/
theorem beforeRelocate_at_origin (s : ChessEngine) (p fr fc tr tc : Int) :
    (((((s.stepEnPassantCol p fr fc tr).stepEnPassantCapture p fr fc tr tc).stepCastling
      p fr fc tc).stepRookFlags p fr fc).stepKingFlags p).at fr fc = s.at fr fc := by
  rw [stepKingFlags_at, stepRookFlags_at, stepCastling_at_origin,
    stepEnPassantCapture_at_origin, stepEnPassantCol_at]

theorem isGrid8_beforeRelocate (s : ChessEngine) (p fr fc tr tc : Int) (h : isGrid8 s.board) :
    isGrid8 (((((s.stepEnPassantCol p fr fc tr).stepEnPassantCapture p fr fc tr tc).stepCastling
      p fr fc tc).stepRookFlags p fr fc).stepKingFlags p).board :=
  isGrid8_stepKingFlags _ _ (isGrid8_stepRookFlags _ _ _ _ (isGrid8_stepCastling _ _ _ _ _
    (isGrid8_stepEnPassantCapture _ _ _ _ _ _ (isGrid8_stepEnPassantCol s _ _ _ _ h))))

/-- The origin square after `makeMove`. -/
theorem makeMove_at_origin (s : ChessEngine) (m : Move) (hg : isGrid8 s.board)
    (hin : inRange m) (hne : m.1 ≠ m.2) : (s.makeMove m).at m.1.1 m.1.2 = 0 := by
  obtain ⟨⟨fr, fc⟩, ⟨tr, tc⟩⟩ := m
  obtain ⟨h1, h2, h3, h4⟩ := hin
  have hne' : tr ≠ fr ∨ tc ≠ fc := by
    by_contra hcon
    push_neg at hcon
    exact hne (by rw [hcon.1, hcon.2])
  show (ChessEngine.stepPromotion _ _ _ _).at fr fc = 0
  rw [stepPromotion_at_ne _ _ _ _ _ _ hne']
  exact stepRelocate_at_origin _ fr fc tr tc (isGrid8_beforeRelocate s _ _ _ _ _ hg) h1 h2

/-- The destination square after `makeMove`. -/
theorem makeMove_at_dest (s : ChessEngine) (m : Move) (hg : isGrid8 s.board)
    (hin : inRange m) :
    (s.makeMove m).at m.2.1 m.2.2 =
      if s.at m.1.1 m.1.2 = 1 ∧ m.2.1 = 7 then 5
      else if s.at m.1.1 m.1.2 = 7 ∧ m.2.1 = 0 then 11
      else if m.1 = m.2 then 0
      else s.at m.1.1 m.1.2 := by
  obtain ⟨⟨fr, fc⟩, ⟨tr, tc⟩⟩ := m
  obtain ⟨h1, h2, h3, h4⟩ := hin
  have hg5 := isGrid8_beforeRelocate s (s.at fr fc) fr fc tr tc hg
  have hg6 := isGrid8_stepRelocate _ fr fc tr tc hg5
  show (ChessEngine.stepPromotion _ _ _ _).at tr tc = _
  unfold ChessEngine.stepPromotion
  simp only []
  split
  · exact at_put_same _ _ _ _ hg6 h3 h4
  · split
    · exact at_put_same _ _ _ _ hg6 h3 h4
    · split
      · rename_i heq
        obtain ⟨rfl, rfl⟩ : fr = tr ∧ fc = tc := by simpa using heq
        exact stepRelocate_at_origin _ fr fc fr fc hg5 h1 h2
      · rename_i hneq
        have hne' : fr ≠ tr ∨ fc ≠ tc := by
          by_contra hcon
          push_neg at hcon
          exact hneq (by rw [hcon.1, hcon.2])
        rw [stepRelocate_at_dest _ fr fc tr tc hg5 h3 h4 hne', beforeRelocate_at_origin]

/-! ## Cell codes through `makeMove` and `setPosition` -/

theorem cellsValid_writeGrid (b : List (List Int)) (r c v : Int) (h : cellsValid b)
    (hv : 0 ≤ v ∧ v ≤ 12) : cellsValid (writeGrid b r c v) := by
  intro row hrow col hcol
  rcases readGrid_writeGrid_cases b r c v row col with e | e
  · rw [e]; exact hv
  · rw [e]; exact h row hrow col hcol

theorem cellsValid_at (s : ChessEngine) (h : cellsValid s.board) (r c : Int)
    (hr : 0 ≤ r ∧ r < 8) (hc : 0 ≤ c ∧ c < 8) : 0 ≤ s.at r c ∧ s.at r c ≤ 12 :=
  h r ((mem_idx8 r).mpr hr) c ((mem_idx8 c).mpr hc)

theorem cellsValid_put (s : ChessEngine) (r c v : Int) (h : cellsValid s.board)
    (hv : 0 ≤ v ∧ v ≤ 12) : cellsValid (s.put r c v).board :=
  cellsValid_writeGrid s.board r c v h hv

theorem cellsValid_stepEnPassantCapture (s : ChessEngine) (p fr fc tr tc : Int)
    (h : cellsValid s.board) : cellsValid (s.stepEnPassantCapture p fr fc tr tc).board := by
  unfold ChessEngine.stepEnPassantCapture
  split
  · exact cellsValid_put s _ _ _ h (by decide)
  · exact h

theorem cellsValid_stepCastling (s : ChessEngine) (p fr fc tc : Int) (h : cellsValid s.board) :
    cellsValid (s.stepCastling p fr fc tc).board := by
  rw [stepCastling_board]
  repeat' split
  all_goals first
    | exact h
    | exact cellsValid_writeGrid _ _ _ _ (cellsValid_writeGrid _ _ _ _ h (by decide)) (by decide)

theorem cellsValid_stepRelocate (s : ChessEngine) (fr fc tr tc : Int) (h : cellsValid s.board)
    (hr : 0 ≤ fr ∧ fr < 8) (hc : 0 ≤ fc ∧ fc < 8) :
    cellsValid (s.stepRelocate fr fc tr tc).board :=
  cellsValid_put _ _ _ _ (cellsValid_put s _ _ _ h (cellsValid_at s h fr fc hr hc)) (by decide)

theorem cellsValid_stepPromotion (s : ChessEngine) (p tr tc : Int) (h : cellsValid s.board) :
    cellsValid (s.stepPromotion p tr tc).board := by
  unfold ChessEngine.stepPromotion
  repeat' split
  all_goals first
    | exact h
    | exact cellsValid_put s _ _ _ h (by decide)

theorem cellsValid_stepEnPassantCol (s : ChessEngine) (p fr fc tr : Int)
    (h : cellsValid s.board) : cellsValid (s.stepEnPassantCol p fr fc tr).board := by
  rw [stepEnPassantCol_board]; exact h

theorem cellsValid_stepRookFlags (s : ChessEngine) (p fr fc : Int) (h : cellsValid s.board) :
    cellsValid (s.stepRookFlags p fr fc).board := by
  rw [stepRookFlags_board]; exact h

theorem cellsValid_stepKingFlags (s : ChessEngine) (p : Int) (h : cellsValid s.board) :
    cellsValid (s.stepKingFlags p).board := by
  rw [stepKingFlags_board]; exact h

/-- `makeMove` keeps every cell in `0..12`. -/
theorem cellsValid_makeMove (s : ChessEngine) (m : Move) (h : cellsValid s.board)
    (hin : inRange m) : cellsValid (s.makeMove m).board :=
  cellsValid_stepPromotion _ _ _ _ (cellsValid_stepRelocate _ _ _ _ _ (cellsValid_stepKingFlags _ _
    (cellsValid_stepRookFlags _ _ _ _ (cellsValid_stepCastling _ _ _ _ _
      (cellsValid_stepEnPassantCapture _ _ _ _ _ _ (cellsValid_stepEnPassantCol s _ _ _ _ h)))))
    hin.1 hin.2.1)

theorem ite_code_range (p : Prop) [Decidable p] (a b : Int) (ha : 0 ≤ a ∧ a ≤ 12)
    (hb : 0 ≤ b ∧ b ≤ 12) : 0 ≤ (if p then a else b) ∧ (if p then a else b) ≤ 12 := by
  split <;> assumption

theorem pieceOfChar_range (c : Char) : 0 ≤ pieceOfChar c ∧ pieceOfChar c ≤ 12 := by
  unfold pieceOfChar
  repeat' apply ite_code_range
  all_goals exact ⟨by norm_num, by norm_num⟩

theorem placeChar_valid (k : Cursor) (c : Char)
    (h : isGrid8 k.state.board ∧ cellsValid k.state.board) :
    isGrid8 (placeChar k c).state.board ∧ cellsValid (placeChar k c).state.board := by
  unfold placeChar
  split
  · exact h
  · split
    · exact h
    · simp only []
      split
      · exact ⟨isGrid8_put _ _ _ _ h.1, cellsValid_put _ _ _ _ h.2 (pieceOfChar_range c)⟩
      · exact h

theorem foldl_placeChar_valid (cs : List Char) (k : Cursor)
    (h : isGrid8 k.state.board ∧ cellsValid k.state.board) :
    isGrid8 (cs.foldl placeChar k).state.board ∧
      cellsValid (cs.foldl placeChar k).state.board := by
  induction cs generalizing k with
  | nil => exact h
  | cons c t ih => exact ih _ (placeChar_valid k c h)

theorem setPosition_valid (fen : String) :
    isGrid8 (setPosition fen).board ∧ cellsValid (setPosition fen).board := by
  have h0 : isGrid8 initializeBoard.board ∧ cellsValid initializeBoard.board := by decide
  unfold setPosition
  simp only []
  split
  · exact h0
  · split
    · exact foldl_placeChar_valid _ _ h0
    · exact foldl_placeChar_valid _ _ h0

theorem placeChar_off_board (k : Cursor) (c : Char)
    (h : ¬(0 ≤ k.row ∧ k.row < 8 ∧ 0 ≤ k.col ∧ k.col < 8)) :
    (placeChar k c).state = k.state := by
  unfold placeChar
  split
  · rfl
  · split
    · rfl
    · simp only []
      rw [if_neg (fun hc => h ⟨hc.2.1, hc.2.2.1, hc.2.2.2.1, hc.2.2.2.2⟩)]

theorem stepEnPassantCapture_of_not_pawn (s : ChessEngine) (p fr fc tr tc : Int)
    (h1 : p ≠ 1) (h7 : p ≠ 7) : s.stepEnPassantCapture p fr fc tr tc = s := by
  unfold ChessEngine.stepEnPassantCapture
  rw [if_neg (fun h => h.1.elim h1 h7)]

theorem stepPromotion_kingFlags (s : ChessEngine) (p tr tc : Int) :
    (s.stepPromotion p tr tc).whiteKingMoved = s.whiteKingMoved ∧
      (s.stepPromotion p tr tc).blackKingMoved = s.blackKingMoved := by
  unfold ChessEngine.stepPromotion
  repeat' split
  all_goals exact ⟨rfl, rfl⟩

theorem stepRelocate_kingFlags {s : ChessEngine} {fr fc tr tc : Int} :
    (s.stepRelocate fr fc tr tc).whiteKingMoved = s.whiteKingMoved ∧
      (s.stepRelocate fr fc tr tc).blackKingMoved = s.blackKingMoved :=
  ⟨rfl, rfl⟩

theorem stepKingFlags_white (s : ChessEngine) : (s.stepKingFlags 6).whiteKingMoved = true := by
  simp [ChessEngine.stepKingFlags]

theorem stepKingFlags_black (s : ChessEngine) : (s.stepKingFlags 12).blackKingMoved = true := by
  simp [ChessEngine.stepKingFlags]

/-- Moving the White king sets its moved flag. -/
theorem makeMove_whiteKingMoved (s : ChessEngine) (m : Move) (hk : s.at m.1.1 m.1.2 = 6) :
    (s.makeMove m).whiteKingMoved = true := by
  show (ChessEngine.stepPromotion _ _ _ _).whiteKingMoved = true
  rw [(stepPromotion_kingFlags _ _ _ _).1, hk]
  rw [stepRelocate_kingFlags.1]
  exact stepKingFlags_white _

/-- Moving the Black king sets its moved flag. -/
theorem makeMove_blackKingMoved (s : ChessEngine) (m : Move) (hk : s.at m.1.1 m.1.2 = 12) :
    (s.makeMove m).blackKingMoved = true := by
  show (ChessEngine.stepPromotion _ _ _ _).blackKingMoved = true
  rw [(stepPromotion_kingFlags _ _ _ _).2, hk]
  rw [stepRelocate_kingFlags.2]
  exact stepKingFlags_black _

/-- The grid after a king move: the castling block, then the relocation. -/
theorem makeMove_board_king (s : ChessEngine) (fr fc tr tc : Int)
    (hk : s.at fr fc = 6 ∨ s.at fr fc = 12) :
    (s.makeMove ((fr, fc), (tr, tc))).board =
      writeGrid (writeGrid (s.stepCastling (s.at fr fc) fr fc tc).board tr tc (s.at fr fc))
        fr fc 0 := by
  have h1 : s.at fr fc ≠ 1 := by omega
  have h7 : s.at fr fc ≠ 7 := by omega
  have hb : ∀ u : ChessEngine, u.board = s.board →
      (u.stepCastling (s.at fr fc) fr fc tc).board
        = (s.stepCastling (s.at fr fc) fr fc tc).board := by
    intro u hu
    rw [stepCastling_board, stepCastling_board, hu]
  have hb1 := hb _ (stepEnPassantCol_board s (s.at fr fc) fr fc tr)
  have ho := beforeRelocate_at_origin s (s.at fr fc) fr fc tr tc
  rw [stepEnPassantCapture_of_not_pawn _ _ _ _ _ _ h1 h7] at ho
  unfold ChessEngine.makeMove
  simp only []
  rw [stepPromotion_of_not _ _ _ _ (fun h => h1 h.1) (fun h => h7 h.1),
    stepEnPassantCapture_of_not_pawn _ _ _ _ _ _ h1 h7]
  unfold ChessEngine.stepRelocate ChessEngine.put
  simp only []
  rw [ho, stepKingFlags_board, stepRookFlags_board, hb1]

theorem castle_reads (b : List (List Int)) (hg : isGrid8 b) (row rookFrom rookTo kingTo : Int)
    (rook king : Int)
    (hrow : 0 ≤ row ∧ row < 8) (h1 : 0 ≤ rookFrom ∧ rookFrom < 8)
    (h2 : 0 ≤ rookTo ∧ rookTo < 8) (h3 : 0 ≤ kingTo ∧ kingTo < 8)
    (d1 : rookTo ≠ rookFrom) (d2 : kingTo ≠ rookFrom) (d3 : kingTo ≠ rookTo)
    (d4 : 4 ≠ rookFrom) (d5 : 4 ≠ rookTo) (d6 : 4 ≠ kingTo) :
    readGrid (writeGrid (writeGrid (writeGrid (writeGrid b row rookTo rook) row rookFrom 0)
        row kingTo king) row 4 0) row kingTo = king ∧
    readGrid (writeGrid (writeGrid (writeGrid (writeGrid b row rookTo rook) row rookFrom 0)
        row kingTo king) row 4 0) row rookTo = rook ∧
    readGrid (writeGrid (writeGrid (writeGrid (writeGrid b row rookTo rook) row rookFrom 0)
        row kingTo king) row 4 0) row 4 = 0 ∧
    readGrid (writeGrid (writeGrid (writeGrid (writeGrid b row rookTo rook) row rookFrom 0)
        row kingTo king) row 4 0) row rookFrom = 0 := by
  have g1 := isGrid8_writeGrid b row rookTo rook hg
  have g2 := isGrid8_writeGrid _ row rookFrom 0 g1
  have g3 := isGrid8_writeGrid _ row kingTo king g2
  refine ⟨?_, ?_, ?_, ?_⟩
  · rw [readGrid_writeGrid_ne _ _ _ _ _ _ (Or.inr d6), readGrid_writeGrid_same _ _ _ _ g2 hrow h3]
  · rw [readGrid_writeGrid_ne _ _ _ _ _ _ (Or.inr d5), readGrid_writeGrid_ne _ _ _ _ _ _ (Or.inr d3),
      readGrid_writeGrid_ne _ _ _ _ _ _ (Or.inr (Ne.symm d1)),
      readGrid_writeGrid_same _ _ _ _ hg hrow h2]
  · exact readGrid_writeGrid_same _ _ _ _ g3 hrow (by decide)
  · rw [readGrid_writeGrid_ne _ _ _ _ _ _ (Or.inr d4), readGrid_writeGrid_ne _ _ _ _ _ _ (Or.inr d2),
      readGrid_writeGrid_same _ _ _ _ g1 hrow h1]

/-! ## Pawn moves are generated once -/

/-- The position `knightOnSkippedSquare` is what the protocol moves named in its
description produce. -/
theorem knightOnSkippedSquare_from_moves :
    ((((initializeBoard.makeMoveStr "b1c3").makeMoveStr "b7b5").makeMoveStr "a2a3").makeMoveStr
      "b5b4").makeMoveStr "c2c4" = knightOnSkippedSquare := by
  decide

theorem count_eq_one_of_nodup {α : Type} [BEq α] [LawfulBEq α] {a : α} {l : List α}
    (hl : l.Nodup) (h : a ∈ l) : l.count a = 1 := by
  induction l with
  | nil => exact absurd h (List.not_mem_nil a)
  | cons b t ih =>
    rw [List.nodup_cons] at hl
    rw [List.count_cons]
    by_cases hab : b = a
    · subst hab
      have h0 : t.count b = 0 := List.count_eq_zero.mpr hl.1
      simp [h0]
    · have hmem : a ∈ t := by
        rcases List.mem_cons.mp h with e | e
        · exact absurd e.symm hab
        · exact e
      simp [ih hl.2 hmem, hab]

theorem pawnForward_nodup (s : ChessEngine) (row col : Int) :
    (if decide (row + (if s.whiteToMove then 1 else -1) ≥ 0)
        && decide (row + (if s.whiteToMove then 1 else -1) < 8)
        && decide (s.at (row + (if s.whiteToMove then 1 else -1)) col = 0) then
      ((row, col), (row + (if s.whiteToMove then 1 else -1), col)) ::
        (if decide (row = (if s.whiteToMove then 1 else 6))
            && decide (s.at (row + 2 * (if s.whiteToMove then 1 else -1)) col = 0) then
          [((row, col), (row + 2 * (if s.whiteToMove then 1 else -1), col))] else [])
    else ([] : List Move)).Nodup := by
  cases hw : s.whiteToMove <;> simp <;> split_ifs <;> simp

theorem pawnCapture_nodup (s : ChessEngine) (row col dc : Int)
    (hep : (0 ≤ s.enPassantCol ∧ s.enPassantCol < 8) →
      s.at (if s.whiteToMove = true then 5 else 2) s.enPassantCol = 0) :
    (s.pawnCapture row col dc).Nodup := by
  cases hw : s.whiteToMove <;> simp only [hw] at hep <;>
    simp [ChessEngine.pawnCapture, hw] <;> split_ifs <;> simp
  all_goals
    rename_i h1 h2 h3 h4
    subst h4
    exfalso
    have h5 := hep (by omega)
    simp only [h3, Bool.false_eq_true, if_false, if_true] at h5
    norm_num at h2
    exact h2.1 h5

theorem getPawnMoves_nodup (s : ChessEngine) (row col : Int)
    (hep : (0 ≤ s.enPassantCol ∧ s.enPassantCol < 8) →
      s.at (if s.whiteToMove = true then 5 else 2) s.enPassantCol = 0) :
    (s.getPawnMoves row col).Nodup := by
  unfold ChessEngine.getPawnMoves
  simp only []
  rw [List.append_assoc, List.nodup_append, List.nodup_append]
  refine ⟨pawnForward_nodup s row col, ⟨pawnCapture_nodup s row col (-1) hep,
    pawnCapture_nodup s row col 1 hep, ?_⟩, ?_⟩
  · intro x h1 h2
    have e1 := (pawnCapture_spec s row col (-1) x h1).2.2.2.1
    have e2 := (pawnCapture_spec s row col 1 x h2).2.2.2.1
    omega
  · intro x h1 h2
    have hcol : x.2.2 = col := by
      cases hw : s.whiteToMove <;> simp [hw] at h1 <;>
        rcases h1 with ⟨_, (h | ⟨_, h⟩)⟩ <;> rw [h]
    rcases List.mem_append.mp h2 with h | h
    · have e := (pawnCapture_spec s row col (-1) x h).2.2.2.1
      omega
    · have e := (pawnCapture_spec s row col 1 x h).2.2.2.1
      omega

theorem pawnCapture_landing (s : ChessEngine) (row col dc : Int)
    (hep : (0 ≤ s.enPassantCol ∧ s.enPassantCol < 8) →
      s.at (if s.whiteToMove = true then 5 else 2) s.enPassantCol = 0)
    (x : Move) (h : x ∈ s.pawnCapture row col dc) :
    (s.at x.2.1 x.2.2 ≠ 0 ∧ s.isEnemyPiece (s.at x.2.1 x.2.2) = true) ∨
    (s.at x.2.1 x.2.2 = 0 ∧ x.2.2 = s.enPassantCol ∧
      x.2.1 = (if s.whiteToMove = true then 5 else 2) ∧
      x.1.1 = (if s.whiteToMove = true then 4 else 3)) := by
  cases hw : s.whiteToMove <;> simp only [hw] at hep <;>
    simp [ChessEngine.pawnCapture, hw] at h <;>
    rcases h with ⟨hb, (⟨hne, rfl⟩ | ⟨h1, h2, rfl⟩)⟩
  · left; exact hne
  · right
    have h5 := hep (by omega)
    simp only [h1, Bool.false_eq_true, if_false] at h5
    simp [h1, h2, h5]
  · left; exact hne
  · right
    have h5 := hep (by omega)
    simp only [h1, if_true] at h5
    simp [h1, h2, h5]

theorem enemy_not_own (s : ChessEngine) (p : Int) (h : s.isEnemyPiece p = true) :
    s.isOwnPiece p = false := by
  cases hw : s.whiteToMove <;>
    simp [ChessEngine.isEnemyPiece, ChessEngine.isOwnPiece, hw, isWhitePiece, isBlackPiece]
      at h ⊢ <;> omega

theorem empty_not_own (s : ChessEngine) : s.isOwnPiece 0 = false := by
  cases hw : s.whiteToMove <;>
    simp [ChessEngine.isOwnPiece, hw, isWhitePiece, isBlackPiece]

/-! ## Sliding pieces -/

theorem distances_eq_upFrom : distances = upFrom 1 7 := rfl

theorem slide_upFrom (s : ChessEngine) (row col dr dc : Int) (n : Nat) (j : Int) (m : Move) :
    m ∈ s.slide row col dr dc (upFrom j n) ↔
      ∃ d : Int, j ≤ d ∧ d < j + n ∧ m = ((row, col), (row + dr * d, col + dc * d)) ∧
        (∀ k : Int, j ≤ k → k < d →
          onBoard (row + dr * k) (col + dc * k) = true ∧ s.at (row + dr * k) (col + dc * k) = 0) ∧
        onBoard (row + dr * d) (col + dc * d) = true ∧
        (s.at (row + dr * d) (col + dc * d) = 0 ∨
          s.isEnemyPiece (s.at (row + dr * d) (col + dc * d)) = true) := by
  induction n generalizing j with
  | zero =>
    simp only [upFrom, ChessEngine.slide, List.not_mem_nil, false_iff]
    rintro ⟨d, h1, h2, _⟩
    simp at h2
    omega
  | succ n ih =>
    have hon : onBoard (row + dr * j) (col + dc * j) = true ↔
        ¬((decide (row + dr * j < 0) || decide (row + dr * j ≥ 8) || decide (col + dc * j < 0)
          || decide (col + dc * j ≥ 8)) = true) := by
      simp only [onBoard, Bool.and_eq_true, Bool.or_eq_true, decide_eq_true_eq]
      omega
    unfold upFrom ChessEngine.slide
    simp only []
    split
    · rename_i hoff
      simp only [List.not_mem_nil, false_iff]
      rintro ⟨d, h1, _, _, hk, hd, _⟩
      by_cases hdj : d = j
      · subst hdj; exact (hon.mp hd) hoff
      · exact (hon.mp (hk j (le_refl j) (by omega)).1) hoff
    · rename_i hoff
      have honj : onBoard (row + dr * j) (col + dc * j) = true := hon.mpr hoff
      split
      · rename_i h0
        rw [List.mem_cons, ih (j + 1)]
        constructor
        · rintro (rfl | ⟨d, h1, h2, rfl, hk, hd, ht⟩)
          · exact ⟨j, le_refl j, by push_cast; omega, rfl, fun k hk1 hk2 => absurd hk2 (by omega),
              honj, Or.inl h0⟩
          · refine ⟨d, by omega, by push_cast at h2 ⊢; omega, rfl, ?_, hd, ht⟩
            intro k hk1 hk2
            by_cases hkj : k = j
            · subst hkj; exact ⟨honj, h0⟩
            · exact hk k (by omega) hk2
        · rintro ⟨d, h1, h2, rfl, hk, hd, ht⟩
          by_cases hdj : d = j
          · subst hdj; exact Or.inl rfl
          · exact Or.inr ⟨d, by omega, by push_cast at h2 ⊢; omega, rfl,
              fun k hk1 hk2 => hk k (by omega) hk2, hd, ht⟩
      · rename_i h0
        split
        · rename_i hen
          rw [List.mem_singleton]
          constructor
          · rintro rfl
            exact ⟨j, le_refl j, by push_cast; omega, rfl, fun k hk1 hk2 => absurd hk2 (by omega),
              honj, Or.inr hen⟩
          · rintro ⟨d, h1, h2, rfl, hk, hd, ht⟩
            by_cases hdj : d = j
            · subst hdj; rfl
            · exact absurd (hk j (le_refl j) (by omega)).2 h0
        · rename_i hen
          simp only [List.not_mem_nil, false_iff]
          rintro ⟨d, h1, h2, rfl, hk, hd, ht⟩
          by_cases hdj : d = j
          · subst hdj
            rcases ht with ht | ht
            · exact h0 ht
            · exact hen ht
          · exact absurd (hk j (le_refl j) (by omega)).2 h0

theorem mem_distances (k : Int) : k ∈ distances ↔ 1 ≤ k ∧ k ≤ 7 := by
  simp only [distances, List.mem_cons, List.mem_singleton, List.not_mem_nil, or_false]
  omega

theorem sign_cases (x dr : Int) (h : x.sign = dr) :
    (dr = -1 ∧ x < 0) ∨ (dr = 0 ∧ x = 0) ∨ (dr = 1 ∧ 0 < x) := by
  rcases lt_trichotomy x 0 with hx | hx | hx
  · left; exact ⟨by rw [← h, Int.sign_eq_neg_one_of_neg hx], hx⟩
  · right; left; exact ⟨by rw [← h, hx]; rfl, hx⟩
  · right; right; exact ⟨by rw [← h, Int.sign_eq_one_of_pos hx], hx⟩

theorem sign_of_cases (x dr : Int)
    (h : (dr = -1 ∧ x < 0) ∨ (dr = 0 ∧ x = 0) ∨ (dr = 1 ∧ 0 < x)) : x.sign = dr := by
  rcases h with ⟨rfl, hx⟩ | ⟨rfl, hx⟩ | ⟨rfl, hx⟩
  · exact Int.sign_eq_neg_one_of_neg hx
  · rw [hx]; rfl
  · exact Int.sign_eq_one_of_pos hx

theorem onBoard_iff (r c : Int) : onBoard r c = true ↔ (0 ≤ r ∧ r < 8) ∧ (0 ≤ c ∧ c < 8) := by
  simp only [onBoard, Bool.and_eq_true, decide_eq_true_eq]
  omega

/-- The moves one ray of a sliding piece contributes. -/
theorem slide_ray (s : ChessEngine) (row col dr dc : Int) (hr : 0 ≤ row ∧ row < 8)
    (hc : 0 ≤ col ∧ col < 8) (hdr : dr = -1 ∨ dr = 0 ∨ dr = 1)
    (hdc : dc = -1 ∨ dc = 0 ∨ dc = 1) (hnz : dr ≠ 0 ∨ dc ≠ 0) (m : Move) :
    m ∈ s.slide row col dr dc distances ↔
      m.1 = (row, col) ∧ onBoard m.2.1 m.2.2 = true ∧
      (m.2.1 - row).sign = dr ∧ (m.2.2 - col).sign = dc ∧
      (dr ≠ 0 → dc ≠ 0 → (m.2.1 - row).natAbs = (m.2.2 - col).natAbs) ∧
      pathClear s row col m.2.1 m.2.2 ∧
      (s.at m.2.1 m.2.2 = 0 ∨ s.isEnemyPiece (s.at m.2.1 m.2.2) = true) := by
  rw [distances_eq_upFrom, slide_upFrom]
  constructor
  · rintro ⟨d, h1, h2, rfl, hk, hd, ht⟩
    have hsr : (row + dr * d - row).sign = dr := by
      apply sign_of_cases
      rcases hdr with rfl | rfl | rfl
      · left; exact ⟨rfl, by omega⟩
      · right; left; exact ⟨rfl, by omega⟩
      · right; right; exact ⟨rfl, by omega⟩
    have hsc : (col + dc * d - col).sign = dc := by
      apply sign_of_cases
      rcases hdc with rfl | rfl | rfl
      · left; exact ⟨rfl, by omega⟩
      · right; left; exact ⟨rfl, by omega⟩
      · right; right; exact ⟨rfl, by omega⟩
    refine ⟨rfl, hd, hsr, hsc, ?_, ?_, ht⟩
    · intro _ _
      show (row + dr * d - row).natAbs = (col + dc * d - col).natAbs
      rcases hdr with rfl | rfl | rfl <;> rcases hdc with rfl | rfl | rfl <;> omega
    · intro k hkm hlt
      rw [mem_distances] at hkm
      simp only [] at hlt ⊢
      rw [hsr, hsc]
      refine (hk k hkm.1 ?_).2
      rcases hdr with rfl | rfl | rfl <;> rcases hdc with rfl | rfl | rfl <;> omega
  · obtain ⟨⟨r0, c0⟩, ⟨r1, c1⟩⟩ := m
    rintro ⟨horig, hon, hsr, hsc, hdiag, hpath, ht⟩
    simp only [] at hon hsr hsc hdiag hpath ht
    obtain ⟨rfl, rfl⟩ : r0 = row ∧ c0 = col := by simpa using horig
    rw [onBoard_iff] at hon
    have hpath' : ∀ k : Int, 1 ≤ k → k ≤ 7 →
        k.toNat < max (r1 - r0).natAbs (c1 - c0).natAbs →
        s.at (r0 + dr * k) (c0 + dc * k) = 0 := by
      intro k hk1 hk7 hlt
      have := hpath k ((mem_distances k).mpr ⟨hk1, hk7⟩) hlt
      rw [hsr, hsc] at this
      exact this
    have e1 : r0 + dr * (max (r1 - r0).natAbs (c1 - c0).natAbs : Nat) = r1 := by
      rcases sign_cases _ _ hsr with ⟨rfl, hx⟩ | ⟨rfl, hx⟩ | ⟨rfl, hx⟩ <;>
        rcases sign_cases _ _ hsc with ⟨rfl, hy⟩ | ⟨rfl, hy⟩ | ⟨rfl, hy⟩ <;> omega
    have e2 : c0 + dc * (max (r1 - r0).natAbs (c1 - c0).natAbs : Nat) = c1 := by
      rcases sign_cases _ _ hsr with ⟨rfl, hx⟩ | ⟨rfl, hx⟩ | ⟨rfl, hx⟩ <;>
        rcases sign_cases _ _ hsc with ⟨rfl, hy⟩ | ⟨rfl, hy⟩ | ⟨rfl, hy⟩ <;> omega
    refine ⟨(max (r1 - r0).natAbs (c1 - c0).natAbs : Nat), ?_, ?_, ?_, ?_, ?_, ?_⟩
    · rcases sign_cases _ _ hsr with ⟨rfl, hx⟩ | ⟨rfl, hx⟩ | ⟨rfl, hx⟩ <;>
        rcases sign_cases _ _ hsc with ⟨rfl, hy⟩ | ⟨rfl, hy⟩ | ⟨rfl, hy⟩ <;> omega
    · omega
    · rw [e1, e2]
    · intro k hk1 hk2
      have hk7 : k ≤ 7 := by omega
      refine ⟨?_, hpath' k hk1 hk7 (by omega)⟩
      rw [onBoard_iff]
      rcases sign_cases _ _ hsr with ⟨rfl, hx⟩ | ⟨rfl, hx⟩ | ⟨rfl, hx⟩ <;>
        rcases sign_cases _ _ hsc with ⟨rfl, hy⟩ | ⟨rfl, hy⟩ | ⟨rfl, hy⟩ <;> omega
    · rw [e1, e2, onBoard_iff]
      exact hon
    · rw [e1, e2]
      exact ht

theorem square_ne_iff (p : Square) (a b : Int) : p ≠ (a, b) ↔ p.1 ≠ a ∨ p.2 ≠ b := by
  rw [Ne, Prod.ext_iff, not_and_or]

theorem getRookMoves_iff (s : ChessEngine) (row col : Int) (hr : 0 ≤ row ∧ row < 8)
    (hc : 0 ≤ col ∧ col < 8) (m : Move) :
    m ∈ s.getRookMoves row col ↔
      m.1 = (row, col) ∧ onBoard m.2.1 m.2.2 = true ∧ m.2 ≠ (row, col) ∧
      (m.2.1 = row ∨ m.2.2 = col) ∧ pathClear s row col m.2.1 m.2.2 ∧
      (s.at m.2.1 m.2.2 = 0 ∨ s.isEnemyPiece (s.at m.2.1 m.2.2) = true) := by
  have h1 := slide_ray s row col (-1) 0 hr hc (by decide) (by decide) (by decide) m
  have h2 := slide_ray s row col 1 0 hr hc (by decide) (by decide) (by decide) m
  have h3 := slide_ray s row col 0 (-1) hr hc (by decide) (by decide) (by decide) m
  have h4 := slide_ray s row col 0 1 hr hc (by decide) (by decide) (by decide) m
  simp only [ChessEngine.getRookMoves, rookDirections, List.mem_flatMap, List.mem_cons,
    List.mem_singleton, List.not_mem_nil, or_false, exists_eq_or_imp, exists_eq_left]
  rw [h1, h2, h3, h4, square_ne_iff]
  constructor
  · rintro (⟨ho, hon, hsr, hsc, _, hp, ht⟩ | ⟨ho, hon, hsr, hsc, _, hp, ht⟩ |
      ⟨ho, hon, hsr, hsc, _, hp, ht⟩ | ⟨ho, hon, hsr, hsc, _, hp, ht⟩) <;>
      refine ⟨ho, hon, ?_, ?_, hp, ht⟩ <;>
      rcases sign_cases _ _ hsr with ⟨h, hx⟩ | ⟨h, hx⟩ | ⟨h, hx⟩ <;>
      rcases sign_cases _ _ hsc with ⟨h', hy⟩ | ⟨h', hy⟩ | ⟨h', hy⟩ <;> omega
  · rintro ⟨ho, hon, hne, hline, hp, ht⟩
    rcases lt_trichotomy (m.2.1 - row) 0 with hx | hx | hx <;>
      rcases lt_trichotomy (m.2.2 - col) 0 with hy | hy | hy
    all_goals first
      | (exfalso; omega)
      | (left; exact ⟨ho, hon, sign_of_cases _ _ (by omega), sign_of_cases _ _ (by omega),
          by omega, hp, ht⟩)
      | (right; left; exact ⟨ho, hon, sign_of_cases _ _ (by omega), sign_of_cases _ _ (by omega),
          by omega, hp, ht⟩)
      | (right; right; left; exact ⟨ho, hon, sign_of_cases _ _ (by omega),
          sign_of_cases _ _ (by omega), by omega, hp, ht⟩)
      | (right; right; right; exact ⟨ho, hon, sign_of_cases _ _ (by omega),
          sign_of_cases _ _ (by omega), by omega, hp, ht⟩)

theorem getBishopMoves_iff (s : ChessEngine) (row col : Int) (hr : 0 ≤ row ∧ row < 8)
    (hc : 0 ≤ col ∧ col < 8) (m : Move) :
    m ∈ s.getBishopMoves row col ↔
      m.1 = (row, col) ∧ onBoard m.2.1 m.2.2 = true ∧ m.2 ≠ (row, col) ∧
      (m.2.1 - row).natAbs = (m.2.2 - col).natAbs ∧ pathClear s row col m.2.1 m.2.2 ∧
      (s.at m.2.1 m.2.2 = 0 ∨ s.isEnemyPiece (s.at m.2.1 m.2.2) = true) := by
  have h1 := slide_ray s row col (-1) (-1) hr hc (by decide) (by decide) (by decide) m
  have h2 := slide_ray s row col (-1) 1 hr hc (by decide) (by decide) (by decide) m
  have h3 := slide_ray s row col 1 (-1) hr hc (by decide) (by decide) (by decide) m
  have h4 := slide_ray s row col 1 1 hr hc (by decide) (by decide) (by decide) m
  simp only [ChessEngine.getBishopMoves, bishopDirections, List.mem_flatMap, List.mem_cons,
    List.mem_singleton, List.not_mem_nil, or_false, exists_eq_or_imp, exists_eq_left]
  rw [h1, h2, h3, h4, square_ne_iff]
  constructor
  · rintro (⟨ho, hon, hsr, hsc, hd, hp, ht⟩ | ⟨ho, hon, hsr, hsc, hd, hp, ht⟩ |
      ⟨ho, hon, hsr, hsc, hd, hp, ht⟩ | ⟨ho, hon, hsr, hsc, hd, hp, ht⟩) <;>
      refine ⟨ho, hon, ?_, hd (by decide) (by decide), hp, ht⟩ <;>
      rcases sign_cases _ _ hsr with ⟨h, hx⟩ | ⟨h, hx⟩ | ⟨h, hx⟩ <;>
      rcases sign_cases _ _ hsc with ⟨h', hy⟩ | ⟨h', hy⟩ | ⟨h', hy⟩ <;> omega
  · rintro ⟨ho, hon, hne, hline, hp, ht⟩
    rcases lt_trichotomy (m.2.1 - row) 0 with hx | hx | hx <;>
      rcases lt_trichotomy (m.2.2 - col) 0 with hy | hy | hy
    all_goals first
      | (exfalso; omega)
      | (left; exact ⟨ho, hon, sign_of_cases _ _ (by omega), sign_of_cases _ _ (by omega),
          fun _ _ => hline, hp, ht⟩)
      | (right; left; exact ⟨ho, hon, sign_of_cases _ _ (by omega), sign_of_cases _ _ (by omega),
          fun _ _ => hline, hp, ht⟩)
      | (right; right; left; exact ⟨ho, hon, sign_of_cases _ _ (by omega),
          sign_of_cases _ _ (by omega), fun _ _ => hline, hp, ht⟩)
      | (right; right; right; exact ⟨ho, hon, sign_of_cases _ _ (by omega),
          sign_of_cases _ _ (by omega), fun _ _ => hline, hp, ht⟩)

theorem movesFrom_rook (s : ChessEngine) (r c : Int) (hown : s.isOwnPiece (s.at r c) = true)
    (hp : s.at r c = 4 ∨ s.at r c = 10) : s.movesFrom r c = s.getRookMoves r c := by
  rcases hp with hp | hp <;> rw [hp] at hown <;>
    simp [ChessEngine.movesFrom, hp, hown]

theorem movesFrom_bishop (s : ChessEngine) (r c : Int) (hown : s.isOwnPiece (s.at r c) = true)
    (hp : s.at r c = 3 ∨ s.at r c = 9) : s.movesFrom r c = s.getBishopMoves r c := by
  rcases hp with hp | hp <;> rw [hp] at hown <;>
    simp [ChessEngine.movesFrom, hp, hown]

theorem movesFrom_queen (s : ChessEngine) (r c : Int) (hown : s.isOwnPiece (s.at r c) = true)
    (hp : s.at r c = 5 ∨ s.at r c = 11) :
    s.movesFrom r c = s.getBishopMoves r c ++ s.getRookMoves r c := by
  rcases hp with hp | hp <;> rw [hp] at hown <;>
    simp [ChessEngine.movesFrom, hp, hown]

/-! ## The generator never reads outside an 8x8 grid -/

theorem readChecked_eq (b : List (List Int)) (r c : Int) (h : isGrid8 b)
    (hr : 0 ≤ r ∧ r < 8) (hc : 0 ≤ c ∧ c < 8) : readChecked b r c = some (readGrid b r c) := by
  obtain ⟨h1, h2⟩ := h
  have hlen : r.toNat < b.length := by omega
  have hrow : (b[r.toNat]).length = 8 := h2 _ (List.getElem_mem hlen)
  have hc8 : c.toNat < (b[r.toNat]).length := by omega
  unfold readChecked readGrid
  rw [if_pos ⟨hr.1, hc.1⟩, if_pos ⟨hr.1, hc.1⟩]
  simp [List.get?_eq_getElem?, List.getD_eq_getElem?_getD, hlen, hc8]

theorem atChecked_eq (s : ChessEngine) (r c : Int) (h : isGrid8 s.board)
    (hr : 0 ≤ r ∧ r < 8) (hc : 0 ≤ c ∧ c < 8) : s.atChecked r c = some (s.at r c) :=
  readChecked_eq s.board r c h hr hc

theorem cellIs_eq (s : ChessEngine) (r c v : Int) (h : isGrid8 s.board)
    (hr : 0 ≤ r ∧ r < 8) (hc : 0 ≤ c ∧ c < 8) :
    s.cellIs r c v = some (decide (s.at r c = v)) := by
  unfold ChessEngine.cellIs
  rw [atChecked_eq s r c h hr hc]
  rfl

theorem collect_eq {α : Type} (f : α → Option (List Move)) (g : α → List Move) (l : List α)
    (h : ∀ i ∈ l, f i = some (g i)) : collect f l = some (l.flatMap g) := by
  induction l with
  | nil => rfl
  | cons a t ih =>
    unfold collect
    rw [h a (List.mem_cons_self _ _), ih (fun i hi => h i (List.mem_cons_of_mem _ hi))]
    rfl

theorem pawnCaptureChecked_eq (s : ChessEngine) (row col dc : Int) (h : isGrid8 s.board) :
    s.pawnCaptureChecked row col dc = some (s.pawnCapture row col dc) := by
  cases hw : s.whiteToMove <;>
    simp only [ChessEngine.pawnCaptureChecked, ChessEngine.pawnCapture, hw, Bool.false_eq_true,
      if_false, if_true] <;>
    split
  all_goals first
    | rfl
    | (rename_i hb
       simp only [Bool.and_eq_true, decide_eq_true_eq] at hb
       rw [atChecked_eq s _ _ h ⟨hb.1.2, hb.2⟩ ⟨hb.1.1.1, hb.1.1.2⟩]
       rfl)

theorem scAnd_some (a : Bool) (b : Option Bool) :
    scAnd (some a) b = if a = true then b else some false := rfl

theorem getPawnMovesChecked_eq (s : ChessEngine) (row col : Int) (h : isGrid8 s.board)
    (hc : 0 ≤ col ∧ col < 8) :
    s.getPawnMovesChecked row col = some (s.getPawnMoves row col) := by
  cases hw : s.whiteToMove <;>
    simp only [ChessEngine.getPawnMovesChecked, ChessEngine.getPawnMoves,
      pawnCaptureChecked_eq s row col _ h, hw, Bool.false_eq_true, if_false, if_true,
      scAnd_some]
  · by_cases hb : 0 ≤ row + -1 ∧ row + -1 < 8
    · rw [cellIs_eq s _ col 0 h hb hc]
      by_cases hs : row = 6
      · subst hs
        rw [cellIs_eq s _ col 0 h (by decide) hc]
        by_cases h0 : s.at 5 col = 0 <;> by_cases h4 : s.at 4 col = 0 <;> simp [h0, h4]
      · have hb' : 1 ≤ row ∧ row < 9 := by omega
        by_cases h0 : s.at (row + -1) col = 0 <;> simp [h0, hs, hb']
    · have hb' : ¬(1 ≤ row ∧ row < 9) := by omega
      simp [hb']
  · by_cases hb : 0 ≤ row + 1 ∧ row + 1 < 8
    · rw [cellIs_eq s _ col 0 h hb hc]
      by_cases hs : row = 1
      · subst hs
        rw [cellIs_eq s _ col 0 h (by decide) hc]
        by_cases h0 : s.at 2 col = 0 <;> by_cases h4 : s.at 3 col = 0 <;> simp [h0, h4]
      · by_cases h0 : s.at (row + 1) col = 0 <;> simp [h0, hs, hb]
    · simp [hb]

theorem stepMoveChecked_eq (s : ChessEngine) (row col : Int) (d : Int × Int)
    (h : isGrid8 s.board) : s.stepMoveChecked row col d = some (s.stepMove row col d) := by
  unfold ChessEngine.stepMoveChecked ChessEngine.stepMove
  simp only []
  split
  · rename_i hb
    rw [onBoard_iff] at hb
    rw [atChecked_eq s _ _ h hb.1 hb.2]
    rfl
  · rfl

theorem slideChecked_eq (s : ChessEngine) (row col dr dc : Int) (ds : List Int)
    (h : isGrid8 s.board) : s.slideChecked row col dr dc ds = some (s.slide row col dr dc ds) := by
  induction ds with
  | nil => rfl
  | cons d rest ih =>
    unfold ChessEngine.slideChecked ChessEngine.slide
    simp only []
    split
    · rfl
    · rename_i hb
      simp only [Bool.or_eq_true, decide_eq_true_eq, not_or, not_lt, not_le] at hb
      rw [atChecked_eq s _ _ h ⟨hb.1.1.1, by omega⟩ ⟨hb.1.2, by omega⟩, ih]
      simp only [Option.some_bind, Option.map_some']
      split
      · rfl
      · split <;> rfl

theorem castlingTest_eq2 (s : ChessEngine) (moved : Bool) (r c1 c2 rookCol rook : Int)
    (h : isGrid8 s.board) (hr : 0 ≤ r ∧ r < 8) (h1 : 0 ≤ c1 ∧ c1 < 8) (h2 : 0 ≤ c2 ∧ c2 < 8)
    (h3 : 0 ≤ rookCol ∧ rookCol < 8) :
    s.castlingTest moved r [c1, c2] rookCol rook =
      some (!moved && decide (s.at r c1 = 0) && decide (s.at r c2 = 0)
        && decide (s.at r rookCol = rook)) := by
  unfold ChessEngine.castlingTest
  simp only [List.foldr_cons, List.foldr_nil]
  rw [cellIs_eq s r c1 0 h hr h1, cellIs_eq s r c2 0 h hr h2, cellIs_eq s r rookCol rook h hr h3]
  cases moved <;> by_cases e1 : s.at r c1 = 0 <;> by_cases e2 : s.at r c2 = 0 <;>
    simp [scAnd, e1, e2]

theorem castlingTest_eq3 (s : ChessEngine) (moved : Bool) (r c1 c2 c3 rookCol rook : Int)
    (h : isGrid8 s.board) (hr : 0 ≤ r ∧ r < 8) (h1 : 0 ≤ c1 ∧ c1 < 8) (h2 : 0 ≤ c2 ∧ c2 < 8)
    (h3 : 0 ≤ c3 ∧ c3 < 8) (h4 : 0 ≤ rookCol ∧ rookCol < 8) :
    s.castlingTest moved r [c1, c2, c3] rookCol rook =
      some (!moved && decide (s.at r c1 = 0) && decide (s.at r c2 = 0)
        && decide (s.at r c3 = 0) && decide (s.at r rookCol = rook)) := by
  unfold ChessEngine.castlingTest
  simp only [List.foldr_cons, List.foldr_nil]
  rw [cellIs_eq s r c1 0 h hr h1, cellIs_eq s r c2 0 h hr h2, cellIs_eq s r c3 0 h hr h3,
    cellIs_eq s r rookCol rook h hr h4]
  cases moved <;> by_cases e1 : s.at r c1 = 0 <;> by_cases e2 : s.at r c2 = 0 <;>
    by_cases e3 : s.at r c3 = 0 <;> simp [scAnd, e1, e2, e3]

theorem castlingMovesChecked_eq (s : ChessEngine) (row col : Int) (h : isGrid8 s.board) :
    s.castlingMovesChecked row col = some (s.castlingMoves row col) := by
  unfold ChessEngine.castlingMovesChecked ChessEngine.castlingMoves
  rw [castlingTest_eq2 s _ 0 5 6 7 4 h (by decide) (by decide) (by decide) (by decide),
    castlingTest_eq3 s _ 0 3 2 1 0 4 h (by decide) (by decide) (by decide) (by decide)
      (by decide),
    castlingTest_eq2 s _ 7 5 6 7 10 h (by decide) (by decide) (by decide) (by decide),
    castlingTest_eq3 s _ 7 3 2 1 0 10 h (by decide) (by decide) (by decide) (by decide)
      (by decide)]
  split <;> split <;> rfl

theorem getKnightMovesChecked_eq (s : ChessEngine) (row col : Int) (h : isGrid8 s.board) :
    s.getKnightMovesChecked row col = some (s.getKnightMoves row col) :=
  collect_eq _ _ _ (fun d _ => stepMoveChecked_eq s row col d h)

theorem getBishopMovesChecked_eq (s : ChessEngine) (row col : Int) (h : isGrid8 s.board) :
    s.getBishopMovesChecked row col = some (s.getBishopMoves row col) :=
  collect_eq _ _ _ (fun d _ => slideChecked_eq s row col d.1 d.2 distances h)

theorem getRookMovesChecked_eq (s : ChessEngine) (row col : Int) (h : isGrid8 s.board) :
    s.getRookMovesChecked row col = some (s.getRookMoves row col) :=
  collect_eq _ _ _ (fun d _ => slideChecked_eq s row col d.1 d.2 distances h)

theorem getKingMovesChecked_eq (s : ChessEngine) (row col : Int) (h : isGrid8 s.board) :
    s.getKingMovesChecked row col = some (s.getKingMoves row col) := by
  unfold ChessEngine.getKingMovesChecked ChessEngine.getKingMoves
  rw [collect_eq _ _ _ (fun d _ => stepMoveChecked_eq s row col d h),
    castlingMovesChecked_eq s row col h]
  rfl

theorem movesFromChecked_eq (s : ChessEngine) (row col : Int) (h : isGrid8 s.board)
    (hr : 0 ≤ row ∧ row < 8) (hc : 0 ≤ col ∧ col < 8) :
    s.movesFromChecked row col = some (s.movesFrom row col) := by
  unfold ChessEngine.movesFromChecked ChessEngine.movesFrom
  rw [atChecked_eq s row col h hr hc, getPawnMovesChecked_eq s row col h hc,
    getKnightMovesChecked_eq s row col h, getBishopMovesChecked_eq s row col h,
    getRookMovesChecked_eq s row col h, getKingMovesChecked_eq s row col h]
  simp only [Option.some_bind, Option.map_some']
  repeat' split
  all_goals rfl

/-- On an 8x8 grid no access of the generator falls outside the grid. -/
theorem getAllLegalMovesChecked_eq (s : ChessEngine) (h : isGrid8 s.board) :
    s.getAllLegalMovesChecked = some s.getAllLegalMoves := by
  unfold ChessEngine.getAllLegalMovesChecked ChessEngine.getAllLegalMoves
  exact collect_eq _ _ _ (fun row hrow =>
    collect_eq _ _ _ (fun col hcol =>
      movesFromChecked_eq s row col h ((mem_idx8 row).mp hrow) ((mem_idx8 col).mp hcol)))

theorem movesFrom_own (s : ChessEngine) (row col : Int) (m : Move)
    (h : m ∈ s.movesFrom row col) : s.isOwnPiece (s.at row col) = true := by
  unfold ChessEngine.movesFrom at h
  simp only [] at h
  split at h
  · exact absurd h (List.not_mem_nil m)
  · rename_i hc
    simp only [Bool.or_eq_true, decide_eq_true_eq, Bool.not_eq_true', not_or,
      Bool.not_eq_false] at hc
    exact hc.2

theorem getPawnMoves_dest_ne (s : ChessEngine) (row col : Int) (m : Move)
    (h : m ∈ s.getPawnMoves row col) : m.2.1 ≠ row ∨ m.2.2 ≠ col := by
  unfold ChessEngine.getPawnMoves at h
  simp only [List.append_assoc, List.mem_append] at h
  rcases h with h | h | h
  · left
    cases hw : s.whiteToMove <;> simp [hw] at h <;>
      rcases h with ⟨_, (rfl | ⟨_, rfl⟩)⟩ <;> simp
  · right
    have := (pawnCapture_spec s row col (-1) m h).2.2.2.1
    omega
  · right
    have := (pawnCapture_spec s row col 1 m h).2.2.2.1
    omega

theorem stepMove_dest_ne (s : ChessEngine) (row col : Int) (d : Int × Int) (m : Move)
    (hd : d.1 ≠ 0 ∨ d.2 ≠ 0) (h : m ∈ s.stepMove row col d) : m.2.1 ≠ row ∨ m.2.2 ≠ col := by
  have e := (stepMove_spec s row col d m h).1
  rw [e]
  simp only []
  omega

theorem slide_dest_ne (s : ChessEngine) (row col dr dc : Int) (m : Move)
    (hdr : dr = -1 ∨ dr = 0 ∨ dr = 1) (hdc : dc = -1 ∨ dc = 0 ∨ dc = 1)
    (hnz : dr ≠ 0 ∨ dc ≠ 0) (h : m ∈ s.slide row col dr dc distances) :
    m.2.1 ≠ row ∨ m.2.2 ≠ col := by
  obtain ⟨_, _, _, _, _, d, hd, e⟩ := slide_spec s row col dr dc distances m h
  rw [mem_distances] at hd
  rw [e]
  simp only []
  rcases hdr with rfl | rfl | rfl <;> rcases hdc with rfl | rfl | rfl <;> omega

theorem castlingMoves_dest_ne (s : ChessEngine) (row col : Int) (m : Move)
    (h : m ∈ s.castlingMoves row col) : m.2.1 ≠ row ∨ m.2.2 ≠ col := by
  unfold ChessEngine.castlingMoves at h
  split at h <;> split at h <;> simp only [List.mem_append, List.not_mem_nil] at h
  all_goals
    rename_i hcond
    simp only [Bool.and_eq_true, decide_eq_true_eq] at hcond
    rcases h with h | h <;> split at h <;> simp only [List.mem_singleton, List.not_mem_nil] at h
    all_goals
      subst h
      right
      simp only []
      omega

theorem movesFrom_dest_ne (s : ChessEngine) (row col : Int) (m : Move)
    (h : m ∈ s.movesFrom row col) : m.2.1 ≠ row ∨ m.2.2 ≠ col := by
  have hrook : ∀ x ∈ s.getRookMoves row col, x.2.1 ≠ row ∨ x.2.2 ≠ col := by
    intro x hx
    simp only [ChessEngine.getRookMoves, rookDirections, List.mem_flatMap, List.mem_cons,
      List.mem_singleton, List.not_mem_nil, or_false, exists_eq_or_imp, exists_eq_left] at hx
    rcases hx with hx | hx | hx | hx <;>
      exact slide_dest_ne s row col _ _ x (by decide) (by decide) (by decide) hx
  have hbishop : ∀ x ∈ s.getBishopMoves row col, x.2.1 ≠ row ∨ x.2.2 ≠ col := by
    intro x hx
    simp only [ChessEngine.getBishopMoves, bishopDirections, List.mem_flatMap, List.mem_cons,
      List.mem_singleton, List.not_mem_nil, or_false, exists_eq_or_imp, exists_eq_left] at hx
    rcases hx with hx | hx | hx | hx <;>
      exact slide_dest_ne s row col _ _ x (by decide) (by decide) (by decide) hx
  have hknight : ∀ x ∈ s.getKnightMoves row col, x.2.1 ≠ row ∨ x.2.2 ≠ col := by
    intro x hx
    simp only [ChessEngine.getKnightMoves, knight_moves, List.mem_flatMap, List.mem_cons,
      List.mem_singleton, List.not_mem_nil, or_false, exists_eq_or_imp, exists_eq_left] at hx
    rcases hx with hx | hx | hx | hx | hx | hx | hx | hx <;>
      exact stepMove_dest_ne s row col _ x (by decide) hx
  have hking : ∀ x ∈ s.getKingMoves row col, x.2.1 ≠ row ∨ x.2.2 ≠ col := by
    intro x hx
    simp only [ChessEngine.getKingMoves, kingDirections, List.mem_append, List.mem_flatMap,
      List.mem_cons, List.mem_singleton, List.not_mem_nil, or_false, exists_eq_or_imp,
      exists_eq_left] at hx
    rcases hx with (hx | hx | hx | hx | hx | hx | hx | hx) | hx
    all_goals first
      | exact stepMove_dest_ne s row col _ x (by decide) hx
      | exact castlingMoves_dest_ne s row col x hx
  unfold ChessEngine.movesFrom at h
  simp only [] at h
  repeat' split at h
  all_goals first
    | exact getPawnMoves_dest_ne s row col m h
    | exact hknight m h
    | exact hbishop m h
    | exact hrook m h
    | exact hking m h
    | exact hking m h.2
    | exact (List.mem_append.mp h).elim (hbishop m) (hrook m)
    | exact absurd h (List.not_mem_nil m)

/-! ## Reachable states and the en-passant file -/

theorem pawn_two_rows_straight (s : ChessEngine) (r c : Int) (m : Move)
    (hm : m ∈ s.getPawnMoves r c) (hrow : (r - m.2.1).natAbs = 2) : m.2.2 = c := by
  unfold ChessEngine.getPawnMoves at hm
  simp only [List.append_assoc, List.mem_append] at hm
  rcases hm with h | h | h
  · cases hw : s.whiteToMove <;> simp [hw] at h <;>
      rcases h with ⟨_, (h | ⟨_, h⟩)⟩ <;> rw [h]
  · exfalso
    cases hw : s.whiteToMove <;> simp [ChessEngine.pawnCapture, hw] at h <;>
      rcases h with ⟨hb, (⟨_, rfl⟩ | ⟨_, h2, rfl⟩)⟩ <;> simp at hrow <;> omega
  · exfalso
    cases hw : s.whiteToMove <;> simp [ChessEngine.pawnCapture, hw] at h <;>
      rcases h with ⟨hb, (⟨_, rfl⟩ | ⟨_, h2, rfl⟩)⟩ <;> simp at hrow <;> omega

theorem own_pawn_code (s : ChessEngine) (p : Int) (hp : p = 1 ∨ p = 7)
    (hown : s.isOwnPiece p = true) : p = (if s.whiteToMove = true then 1 else 7) := by
  cases hw : s.whiteToMove <;> rcases hp with rfl | rfl <;>
    simp [ChessEngine.isOwnPiece, hw, isWhitePiece, isBlackPiece] at hown ⊢

/-- A generated move leaves the en-passant file sound. -/
theorem enPassantSound_makeMove (s : ChessEngine) (m : Move) (hg : isGrid8 s.board)
    (hm : m ∈ s.getAllLegalMoves) : enPassantSound (s.makeMove m) := by
  obtain ⟨hr, hc, hmf⟩ := (mem_getAllLegalMoves_iff s m).mp hm
  by_cases hd : (s.at m.1.1 m.1.2 = 1 ∨ s.at m.1.1 m.1.2 = 7) ∧ (m.1.1 - m.2.1).natAbs = 2
  · have hep : (s.makeMove m).enPassantCol = m.1.2 := by
      rw [makeMove_enPassantCol, if_pos hd]
    obtain ⟨hp, hrow⟩ := hd
    have hown := movesFrom_own s _ _ m hmf
    have hcode := own_pawn_code s _ hp hown
    rw [movesFrom_pawn s _ _ hp, if_pos hown] at hmf
    have hcol := pawn_two_rows_straight s _ _ m hmf hrow
    obtain ⟨⟨r, c⟩, ⟨r2, c2⟩⟩ := m
    simp only [] at hr hc hmf hp hrow hown hcode hcol hep ⊢
    subst hcol
    refine ⟨Or.inr (by rw [hep]; exact hc), fun _ => ?_⟩
    rw [hep, makeMove_whiteToMove]
    rcases pawn_double_spec s r c2 _ hmf rfl hrow with ⟨hw, rfl, he, h2, _⟩ | ⟨hw, rfl, he, h5, _⟩
    · obtain ⟨-, rfl⟩ : (1 : Int) = 1 ∧ r2 = 3 := by simpa using he
      rw [hw] at hcode ⊢
      simp only [if_true] at hcode
      refine ⟨fun _ => ?_, fun h => absurd h (by decide)⟩
      unfold ChessEngine.at
      rw [makeMove_board_pawn_straight s 1 c2 3 hp (by decide) (by decide)]
      constructor
      · rw [readGrid_writeGrid_ne _ _ _ _ _ _ (Or.inl (by decide)),
          readGrid_writeGrid_same _ _ _ _ hg (by decide) hc]
        exact hcode
      · rw [readGrid_writeGrid_ne _ _ _ _ _ _ (Or.inl (by decide)),
          readGrid_writeGrid_ne _ _ _ _ _ _ (Or.inl (by decide))]
        exact h2
    · obtain ⟨-, rfl⟩ : (6 : Int) = 6 ∧ r2 = 4 := by simpa using he
      rw [hw] at hcode ⊢
      simp only [Bool.false_eq_true, if_false] at hcode
      refine ⟨fun h => absurd h (by decide), fun _ => ?_⟩
      unfold ChessEngine.at
      rw [makeMove_board_pawn_straight s 6 c2 4 hp (by decide) (by decide)]
      constructor
      · rw [readGrid_writeGrid_ne _ _ _ _ _ _ (Or.inl (by decide)),
          readGrid_writeGrid_same _ _ _ _ hg (by decide) hc]
        exact hcode
      · rw [readGrid_writeGrid_ne _ _ _ _ _ _ (Or.inl (by decide)),
          readGrid_writeGrid_ne _ _ _ _ _ _ (Or.inl (by decide))]
        exact h5
  · have hep : (s.makeMove m).enPassantCol = -1 := by
      rw [makeMove_enPassantCol, if_neg hd]
    exact ⟨Or.inl hep, fun h => absurd hep h⟩

/-- What holds in every reachable state: an 8x8 grid, cells in `0..12`, a sound
en-passant file. -/
theorem reachable_invariant (s : ChessEngine) (hs : Reachable s) :
    isGrid8 s.board ∧ cellsValid s.board ∧ enPassantSound s := by
  induction hs with
  | start => exact ⟨by decide, by decide, Or.inl rfl, fun h => absurd rfl h⟩
  | move s m _ hm ih =>
    exact ⟨isGrid8_makeMove s m ih.1,
      cellsValid_makeMove s m ih.2.1 (getAllLegalMoves_inRange s m hm),
      enPassantSound_makeMove s m ih.1 hm⟩

/-- A pawn that moves diagonally onto an empty square of another row empties the square
beside its origin, on the destination's column. -/
theorem makeMove_clears_beside (s : ChessEngine) (fr fc tr tc : Int) (hg : isGrid8 s.board)
    (hfr : 0 ≤ fr ∧ fr < 8) (htc : 0 ≤ tc ∧ tc < 8)
    (hp : s.at fr fc = 1 ∨ s.at fr fc = 7) (hcol : tc ≠ fc) (hrow : tr ≠ fr)
    (hempty : s.at tr tc = 0) : (s.makeMove ((fr, fc), (tr, tc))).at fr tc = 0 := by
  have h6 : s.at fr fc ≠ 6 := by omega
  have h12 : s.at fr fc ≠ 12 := by omega
  show (ChessEngine.stepPromotion _ _ _ _).at fr tc = 0
  rw [stepPromotion_at_ne _ _ _ _ _ _ (Or.inl hrow),
    stepRelocate_at_ne _ _ _ _ _ _ _ (Or.inr (Ne.symm hcol)) (Or.inl hrow),
    stepKingFlags_at, stepRookFlags_at, stepCastling_of_not_king _ _ _ _ _ h6 h12]
  unfold ChessEngine.stepEnPassantCapture
  rw [if_pos ⟨hp, Ne.symm hcol, by rw [stepEnPassantCol_at]; exact hempty⟩]
  exact at_put_same _ fr tc 0 (isGrid8_stepEnPassantCol s _ _ _ _ hg) hfr htc

theorem enPassantReady_reachable : Reachable enPassantReady :=
  Reachable.move _ _ (Reachable.move _ _ (Reachable.move _ _
    (Reachable.move _ _ Reachable.start (by decide)) (by decide)) (by decide)) (by decide)

/-! ## Counting pieces through `makeMove` -/

theorem sum_map_update (l : List Int) (hl : l.Nodup) (k : Int) (hk : k ∈ l)
    (f f' : Int → Nat) (a a' : Nat) (hoff : ∀ i ∈ l, i ≠ k → f' i = f i)
    (hat : f' k + a = f k + a') : (l.map f').sum + a = (l.map f).sum + a' := by
  induction l with
  | nil => exact absurd hk (List.not_mem_nil k)
  | cons x t ih =>
    rw [List.nodup_cons] at hl
    simp only [List.map_cons, List.sum_cons]
    by_cases hx : x = k
    · subst hx
      have htail : (t.map f').sum = (t.map f).sum := by
        congr 1
        apply List.map_congr_left
        intro i hi
        exact hoff i (List.mem_cons_of_mem _ hi) (fun e => hl.1 (e ▸ hi))
      rw [htail]
      omega
    · have hk' : k ∈ t := by
        rcases List.mem_cons.mp hk with e | e
        · exact absurd e.symm hx
        · exact e
      have := ih hl.2 hk' (fun i hi => hoff i (List.mem_cons_of_mem _ hi))
      rw [hoff x (List.mem_cons_self _ _) hx]
      omega

/-- Writing one cell changes a count by what leaves and what enters that cell. -/
theorem countCells_writeGrid (p : Int → Bool) (b : List (List Int)) (r c v : Int)
    (hg : isGrid8 b) (hr : 0 ≤ r ∧ r < 8) (hc : 0 ≤ c ∧ c < 8) :
    countCells p (writeGrid b r c v) + tally p (readGrid b r c) =
      countCells p b + tally p v := by
  unfold countCells
  apply sum_map_update idx8 idx8_nodup r ((mem_idx8 r).mpr hr)
  · intro i _ hi
    congr 1
    apply List.map_congr_left
    intro j _
    rw [readGrid_writeGrid_ne _ _ _ _ _ _ (Or.inl (Ne.symm hi))]
  · apply sum_map_update idx8 idx8_nodup c ((mem_idx8 c).mpr hc)
    · intro j _ hj
      rw [readGrid_writeGrid_ne _ _ _ _ _ _ (Or.inr (Ne.symm hj))]
    · rw [readGrid_writeGrid_same _ _ _ _ hg hr hc]
      omega

theorem countCells_put (p : Int → Bool) (s : ChessEngine) (r c v : Int)
    (hg : isGrid8 s.board) (hr : 0 ≤ r ∧ r < 8) (hc : 0 ≤ c ∧ c < 8) :
    countCells p (s.put r c v).board + tally p (s.at r c) =
      countCells p s.board + tally p v :=
  countCells_writeGrid p s.board r c v hg hr hc

theorem tally_zero (p : Int → Bool) (hp0 : p 0 = false) : tally p 0 = 0 := by
  simp [tally, hp0]

theorem tally_le_one (p : Int → Bool) (x : Int) : tally p x ≤ 1 := by
  unfold tally; split <;> omega

/-- Moving a code onto an empty cell of the same row and emptying its old cell keeps
every count. -/
theorem countCells_swap (p : Int → Bool) (hp0 : p 0 = false) (b : List (List Int))
    (hg : isGrid8 b) (r c1 c2 v : Int) (hr : 0 ≤ r ∧ r < 8) (hc1 : 0 ≤ c1 ∧ c1 < 8)
    (hc2 : 0 ≤ c2 ∧ c2 < 8) (hne : c1 ≠ c2) (h1 : readGrid b r c1 = 0)
    (h2 : readGrid b r c2 = v) :
    countCells p (writeGrid (writeGrid b r c1 v) r c2 0) = countCells p b := by
  have hA := countCells_writeGrid p b r c1 v hg hr hc1
  have hB := countCells_writeGrid p (writeGrid b r c1 v) r c2 0
    (isGrid8_writeGrid b r c1 v hg) hr hc2
  rw [readGrid_writeGrid_ne _ _ _ _ _ _ (Or.inr hne), h2] at hB
  rw [h1] at hA
  rw [tally_zero p hp0] at hA hB
  omega

theorem countCells_stepEnPassantCapture (p : Int → Bool) (hp0 : p 0 = false)
    (s : ChessEngine) (q fr fc tr tc : Int) (hg : isGrid8 s.board)
    (hfr : 0 ≤ fr ∧ fr < 8) (htc : 0 ≤ tc ∧ tc < 8) :
    countCells p (s.stepEnPassantCapture q fr fc tr tc).board +
      (if (q = 1 ∨ q = 7) ∧ fc ≠ tc ∧ s.at tr tc = 0 then tally p (s.at fr tc) else 0) =
      countCells p s.board := by
  unfold ChessEngine.stepEnPassantCapture
  by_cases h : (q = 1 ∨ q = 7) ∧ fc ≠ tc ∧ s.at tr tc = 0
  · rw [if_pos h, if_pos h]
    have := countCells_put p s fr tc 0 hg hfr htc
    rw [tally_zero p hp0] at this
    omega
  · rw [if_neg h, if_neg h, Nat.add_zero]

theorem countCells_stepCastling (p : Int → Bool) (hp0 : p 0 = false)
    (s : ChessEngine) (q fr fc tc : Int) (hg : isGrid8 s.board)
    (hw : q = 6 → fr = 0 → fc = 4 →
      (tc = 6 → s.at 0 5 = 0 ∧ s.at 0 7 = 4) ∧ (tc = 2 → s.at 0 3 = 0 ∧ s.at 0 0 = 4))
    (hb : q = 12 → fr = 7 → fc = 4 →
      (tc = 6 → s.at 7 5 = 0 ∧ s.at 7 7 = 10) ∧ (tc = 2 → s.at 7 3 = 0 ∧ s.at 7 0 = 10)) :
    countCells p (s.stepCastling q fr fc tc).board = countCells p s.board := by
  rw [stepCastling_board]
  split
  · rename_i h
    obtain ⟨h6, h2⟩ := hw h.1 h.2.1 h.2.2
    split
    · rename_i e
      exact countCells_swap p hp0 s.board hg 0 5 7 4 (by decide) (by decide) (by decide)
        (by decide) (h6 e).1 (h6 e).2
    · split
      · rename_i e
        exact countCells_swap p hp0 s.board hg 0 3 0 4 (by decide) (by decide) (by decide)
          (by decide) (h2 e).1 (h2 e).2
      · rfl
  · split
    · rename_i h
      obtain ⟨h6, h2⟩ := hb h.1 h.2.1 h.2.2
      split
      · rename_i e
        exact countCells_swap p hp0 s.board hg 7 5 7 10 (by decide) (by decide) (by decide)
          (by decide) (h6 e).1 (h6 e).2
      · split
        · rename_i e
          exact countCells_swap p hp0 s.board hg 7 3 0 10 (by decide) (by decide) (by decide)
            (by decide) (h2 e).1 (h2 e).2
        · rfl
    · rfl

theorem countCells_stepRelocate (p : Int → Bool) (hp0 : p 0 = false)
    (s : ChessEngine) (fr fc tr tc : Int) (hg : isGrid8 s.board)
    (hfr : 0 ≤ fr ∧ fr < 8) (hfc : 0 ≤ fc ∧ fc < 8)
    (htr : 0 ≤ tr ∧ tr < 8) (htc : 0 ≤ tc ∧ tc < 8) (hne : tr ≠ fr ∨ tc ≠ fc) :
    countCells p (s.stepRelocate fr fc tr tc).board + tally p (s.at tr tc) =
      countCells p s.board := by
  unfold ChessEngine.stepRelocate
  have hA := countCells_put p s tr tc (s.at fr fc) hg htr htc
  have hB := countCells_put p (s.put tr tc (s.at fr fc)) fr fc 0
    (isGrid8_put s tr tc _ hg) hfr hfc
  rw [at_put_ne s tr tc _ fr fc hne, tally_zero p hp0] at hB
  omega

theorem countCells_stepPromotion (p : Int → Bool) (hp15 : p 1 = p 5) (hp711 : p 7 = p 11)
    (s : ChessEngine) (q tr tc : Int) (hg : isGrid8 s.board)
    (htr : 0 ≤ tr ∧ tr < 8) (htc : 0 ≤ tc ∧ tc < 8) (hat : s.at tr tc = q) :
    countCells p (s.stepPromotion q tr tc).board = countCells p s.board := by
  unfold ChessEngine.stepPromotion
  split
  · rename_i h
    have hA := countCells_put p s tr tc 5 hg htr htc
    rw [hat, h.1] at hA
    have : tally p 1 = tally p 5 := by unfold tally; rw [hp15]
    omega
  · split
    · rename_i h
      have hA := countCells_put p s tr tc 11 hg htr htc
      rw [hat, h.1] at hA
      have : tally p 7 = tally p 11 := by unfold tally; rw [hp711]
      omega
    · rfl

theorem stepCastling_at_destCol (s : ChessEngine) (q fr fc tc r : Int) :
    (s.stepCastling q fr fc tc).at r tc = s.at r tc := by
  unfold ChessEngine.at
  rw [stepCastling_board]
  repeat' split
  all_goals first
    | rfl
    | (rw [readGrid_writeGrid_ne _ _ _ _ _ _ (Or.inr (by omega)),
        readGrid_writeGrid_ne _ _ _ _ _ _ (Or.inr (by omega))])

/-- How `makeMove` changes a count: what stood on the destination leaves, and so does
what stood beside the origin when the en-passant statement fires. -/
theorem countCells_makeMove (p : Int → Bool) (hp0 : p 0 = false) (hp15 : p 1 = p 5)
    (hp711 : p 7 = p 11) (s : ChessEngine) (fr fc tr tc : Int) (hg : isGrid8 s.board)
    (hfr : 0 ≤ fr ∧ fr < 8) (hfc : 0 ≤ fc ∧ fc < 8)
    (htr : 0 ≤ tr ∧ tr < 8) (htc : 0 ≤ tc ∧ tc < 8) (hne : tr ≠ fr ∨ tc ≠ fc)
    (hside : (s.at fr fc = 1 ∨ s.at fr fc = 7) → tr ≠ fr)
    (hw : s.at fr fc = 6 → fr = 0 → fc = 4 →
      (tc = 6 → s.at 0 5 = 0 ∧ s.at 0 7 = 4) ∧ (tc = 2 → s.at 0 3 = 0 ∧ s.at 0 0 = 4))
    (hb : s.at fr fc = 12 → fr = 7 → fc = 4 →
      (tc = 6 → s.at 7 5 = 0 ∧ s.at 7 7 = 10) ∧ (tc = 2 → s.at 7 3 = 0 ∧ s.at 7 0 = 10)) :
    countCells p (s.makeMove ((fr, fc), (tr, tc))).board +
      (if (s.at fr fc = 1 ∨ s.at fr fc = 7) ∧ fc ≠ tc ∧ s.at tr tc = 0
        then tally p (s.at fr tc) else 0) + tally p (s.at tr tc) =
      countCells p s.board := by
  generalize hq : s.at fr fc = q at hside hw hb
  have hg1 := isGrid8_stepEnPassantCol s q fr fc tr hg
  have hg2 := isGrid8_stepEnPassantCapture _ q fr fc tr tc hg1
  have hg3 := isGrid8_stepCastling _ q fr fc tc hg2
  have hg5 := isGrid8_stepKingFlags _ q (isGrid8_stepRookFlags _ q fr fc hg3)
  have hg6 := isGrid8_stepRelocate _ fr fc tr tc hg5
  -- the en-passant statement
  have h2 := countCells_stepEnPassantCapture p hp0 (s.stepEnPassantCol q fr fc tr)
    q fr fc tr tc hg1 hfr htc
  simp only [stepEnPassantCol_at, stepEnPassantCol_board] at h2
  -- the castling statement
  have hpre : ∀ r c, (q = 6 ∨ q = 12) →
      ((s.stepEnPassantCol q fr fc tr).stepEnPassantCapture q fr fc tr tc).at r c = s.at r c := by
    intro r c hk
    rw [stepEnPassantCapture_of_not_pawn _ _ _ _ _ _ (by omega) (by omega), stepEnPassantCol_at]
  have h3 := countCells_stepCastling p hp0
    ((s.stepEnPassantCol q fr fc tr).stepEnPassantCapture q fr fc tr tc) q fr fc tc hg2
    (by
      intro e1 e2 e3
      simp only [hpre _ _ (Or.inl e1)]
      exact hw e1 e2 e3)
    (by
      intro e1 e2 e3
      simp only [hpre _ _ (Or.inr e1)]
      exact hb e1 e2 e3)
  -- the destination before "Move the piece"
  have hdest : (((((s.stepEnPassantCol q fr fc tr).stepEnPassantCapture q fr fc tr tc).stepCastling
      q fr fc tc).stepRookFlags q fr fc).stepKingFlags q).at tr tc = s.at tr tc := by
    rw [stepKingFlags_at, stepRookFlags_at, stepCastling_at_destCol]
    unfold ChessEngine.stepEnPassantCapture
    split
    · rename_i h
      rw [at_put_ne _ fr tc 0 tr tc (Or.inl (Ne.symm (hside h.1))), stepEnPassantCol_at]
    · rw [stepEnPassantCol_at]
  have h6 := countCells_stepRelocate p hp0
    (((((s.stepEnPassantCol q fr fc tr).stepEnPassantCapture q fr fc tr tc).stepCastling
      q fr fc tc).stepRookFlags q fr fc).stepKingFlags q) fr fc tr tc hg5 hfr hfc htr htc hne
  rw [hdest, stepKingFlags_board, stepRookFlags_board] at h6
  have hq5 : (((((s.stepEnPassantCol q fr fc tr).stepEnPassantCapture q fr fc tr tc).stepCastling
      q fr fc tc).stepRookFlags q fr fc).stepKingFlags q).at fr fc = q := by
    rw [beforeRelocate_at_origin, hq]
  have h7 := countCells_stepPromotion p hp15 hp711
    ((((((s.stepEnPassantCol q fr fc tr).stepEnPassantCapture q fr fc tr tc).stepCastling
      q fr fc tc).stepRookFlags q fr fc).stepKingFlags q).stepRelocate fr fc tr tc) q tr tc
    hg6 htr htc
    (by
      rw [stepRelocate_at_dest _ fr fc tr tc hg5 htr htc
        (by rcases hne with h | h
            · exact Or.inl (Ne.symm h)
            · exact Or.inr (Ne.symm h))]
      exact hq5)
  have hmk : (s.makeMove ((fr, fc), (tr, tc))).board =
      (((((((s.stepEnPassantCol q fr fc tr).stepEnPassantCapture q fr fc tr tc).stepCastling
      q fr fc tc).stepRookFlags q fr fc).stepKingFlags q).stepRelocate fr fc tr tc).stepPromotion
        q tr tc).board := by
    rw [← hq]; rfl
  rw [hmk]
  omega

theorem stepMove_landing (s : ChessEngine) (row col : Int) (d : Int × Int) (m : Move)
    (h : m ∈ s.stepMove row col d) :
    s.at m.2.1 m.2.2 = 0 ∨ s.isEnemyPiece (s.at m.2.1 m.2.2) = true := by
  unfold ChessEngine.stepMove at h
  simp only [] at h
  split at h
  · split at h
    · rename_i hc
      simp only [List.mem_singleton] at h
      subst h
      simpa using hc
    · simp at h
  · simp at h

theorem slide_landing (s : ChessEngine) (row col dr dc : Int) (ds : List Int) (m : Move)
    (h : m ∈ s.slide row col dr dc ds) :
    s.at m.2.1 m.2.2 = 0 ∨ s.isEnemyPiece (s.at m.2.1 m.2.2) = true := by
  induction ds with
  | nil => simp [ChessEngine.slide] at h
  | cons d rest ih =>
    unfold ChessEngine.slide at h
    simp only [] at h
    split at h
    · simp at h
    · split at h
      · rename_i he
        rw [List.mem_cons] at h
        rcases h with h | h
        · subst h; exact Or.inl he
        · exact ih h
      · split at h
        · rename_i he
          simp only [List.mem_singleton] at h
          subst h; exact Or.inr he
        · simp at h

theorem castlingMoves_landing (s : ChessEngine) (row col : Int) (m : Move)
    (h : m ∈ s.castlingMoves row col) :
    (s.whiteToMove = true ∧ row = 0 ∧ col = 4 ∧
      ((m.2 = (0, 6) ∧ s.at 0 5 = 0 ∧ s.at 0 6 = 0 ∧ s.at 0 7 = 4) ∨
       (m.2 = (0, 2) ∧ s.at 0 3 = 0 ∧ s.at 0 2 = 0 ∧ s.at 0 0 = 4))) ∨
    (s.whiteToMove = false ∧ row = 7 ∧ col = 4 ∧
      ((m.2 = (7, 6) ∧ s.at 7 5 = 0 ∧ s.at 7 6 = 0 ∧ s.at 7 7 = 10) ∨
       (m.2 = (7, 2) ∧ s.at 7 3 = 0 ∧ s.at 7 2 = 0 ∧ s.at 7 0 = 10))) := by
  cases hw : s.whiteToMove
  · simp [ChessEngine.castlingMoves, hw] at h ⊢
    obtain ⟨⟨⟨_, hr⟩, hc⟩, h⟩ := h
    refine ⟨hr, hc, ?_⟩
    rcases h with ⟨h1, rfl⟩ | ⟨h1, rfl⟩ <;> simp <;> tauto
  · simp [ChessEngine.castlingMoves, hw] at h ⊢
    obtain ⟨⟨⟨_, hr⟩, hc⟩, h⟩ := h
    refine ⟨hr, hc, ?_⟩
    rcases h with ⟨h1, rfl⟩ | ⟨h1, rfl⟩ <;> simp <;> tauto

theorem kingSteps_col (s : ChessEngine) (row col : Int) (m : Move)
    (h : m ∈ kingDirections.flatMap (s.stepMove row col)) :
    (s.at m.2.1 m.2.2 = 0 ∨ s.isEnemyPiece (s.at m.2.1 m.2.2) = true) ∧
      col - 1 ≤ m.2.2 ∧ m.2.2 ≤ col + 1 := by
  rw [List.mem_flatMap] at h
  obtain ⟨d, hd, hm⟩ := h
  refine ⟨stepMove_landing s row col d m hm, ?_⟩
  have he := (stepMove_spec s row col d m hm).1
  have h2 : m.2.2 = col + d.2 := by rw [he]
  simp only [kingDirections, List.mem_cons, List.mem_singleton, List.not_mem_nil, or_false] at hd
  rcases hd with rfl | rfl | rfl | rfl | rfl | rfl | rfl | rfl <;> simp at h2 <;> omega

/-- A king move lands on an empty or enemy square, and when it goes from e1 or e8 to
column 6 or 2 the rook stands in its corner and the square beside the king is empty. -/
theorem getKingMoves_landing (s : ChessEngine) (row col : Int) (m : Move)
    (h : m ∈ s.getKingMoves row col) :
    (s.at m.2.1 m.2.2 = 0 ∨ s.isEnemyPiece (s.at m.2.1 m.2.2) = true) ∧
    (s.whiteToMove = true → row = 0 → col = 4 →
      (m.2.2 = 6 → s.at 0 5 = 0 ∧ s.at 0 7 = 4) ∧ (m.2.2 = 2 → s.at 0 3 = 0 ∧ s.at 0 0 = 4)) ∧
    (s.whiteToMove = false → row = 7 → col = 4 →
      (m.2.2 = 6 → s.at 7 5 = 0 ∧ s.at 7 7 = 10) ∧
        (m.2.2 = 2 → s.at 7 3 = 0 ∧ s.at 7 0 = 10)) := by
  unfold ChessEngine.getKingMoves at h
  rcases List.mem_append.mp h with h | h
  · obtain ⟨h1, h2, h3⟩ := kingSteps_col s row col m h
    refine ⟨h1, ?_, ?_⟩
    · intro _ _ hc
      constructor <;> intro e <;> omega
    · intro _ _ hc
      constructor <;> intro e <;> omega
  · rcases castlingMoves_landing s row col m h with ⟨hw, _, _, hc⟩ | ⟨hw, _, _, hc⟩
    · refine ⟨?_, ?_, fun e => absurd hw (by rw [e]; decide)⟩
      · rcases hc with ⟨e, _, h6, _⟩ | ⟨e, _, h2, _⟩ <;> rw [e] <;> exact Or.inl (by assumption)
      · intro _ _ _
        rcases hc with ⟨e, h5, _, h7⟩ | ⟨e, h3, _, h0⟩ <;> rw [e] <;> simp <;> tauto
    · refine ⟨?_, fun e => absurd hw (by rw [e]; decide), ?_⟩
      · rcases hc with ⟨e, _, h6, _⟩ | ⟨e, _, h2, _⟩ <;> rw [e] <;> exact Or.inl (by assumption)
      · intro _ _ _
        rcases hc with ⟨e, h5, _, h7⟩ | ⟨e, h3, _, h0⟩ <;> rw [e] <;> simp <;> tauto

theorem enPassantSound_skipped (s : ChessEngine) (hsound : enPassantSound s) :
    (0 ≤ s.enPassantCol ∧ s.enPassantCol < 8) →
      s.at (if s.whiteToMove = true then 5 else 2) s.enPassantCol = 0 := by
  intro hr
  have h := hsound.2 (by omega)
  cases hw : s.whiteToMove
  · simpa using (h.1 hw).2
  · simpa using (h.2 hw).2

/-- A pawn move changes the row; it goes straight onto an empty square, or diagonally onto
an enemy piece, or diagonally onto an empty square with an enemy pawn beside the origin. -/
theorem getPawnMoves_landing (s : ChessEngine) (hsound : enPassantSound s) (r c : Int)
    (m : Move) (h : m ∈ s.getPawnMoves r c) :
    m.2.1 ≠ r ∧
    ((m.2.2 = c ∧ s.at m.2.1 m.2.2 = 0) ∨
     (s.at m.2.1 m.2.2 ≠ 0 ∧ s.isEnemyPiece (s.at m.2.1 m.2.2) = true) ∨
     (s.at m.2.1 m.2.2 = 0 ∧ s.isEnemyPiece (s.at r m.2.2) = true)) := by
  have hcap : ∀ dc, m ∈ s.pawnCapture r c dc →
      m.2.1 ≠ r ∧
      ((m.2.2 = c ∧ s.at m.2.1 m.2.2 = 0) ∨
       (s.at m.2.1 m.2.2 ≠ 0 ∧ s.isEnemyPiece (s.at m.2.1 m.2.2) = true) ∨
       (s.at m.2.1 m.2.2 = 0 ∧ s.isEnemyPiece (s.at r m.2.2) = true)) := by
    intro dc hm
    have ho := (pawnCapture_spec s r c dc m hm).1
    have hr1 : m.1.1 = r := by rw [ho]
    have hrange := (pawnCapture_spec s r c dc m hm).2.2.2
    have hrow : m.2.1 ≠ r := by
      cases hw : s.whiteToMove <;> simp [ChessEngine.pawnCapture, hw] at hm <;>
        rcases hm with ⟨_, (⟨_, rfl⟩ | ⟨_, h2, rfl⟩)⟩ <;> simp <;> omega
    refine ⟨hrow, ?_⟩
    rcases pawnCapture_landing s r c dc (enPassantSound_skipped s hsound) m hm with
      h1 | ⟨h0, hcol, _, hfrom⟩
    · exact Or.inr (Or.inl h1)
    · refine Or.inr (Or.inr ⟨h0, ?_⟩)
      have hset : s.enPassantCol ≠ -1 := by omega
      have hf := hsound.2 hset
      rw [hr1] at hfrom
      cases hw : s.whiteToMove
      · rw [hw] at hfrom
        simp only [Bool.false_eq_true, if_false] at hfrom
        rw [hfrom, hcol, (hf.1 hw).1]
        simp [ChessEngine.isEnemyPiece, hw, isWhitePiece]
      · rw [hw] at hfrom
        simp only [if_true] at hfrom
        rw [hfrom, hcol, (hf.2 hw).1]
        simp [ChessEngine.isEnemyPiece, hw, isBlackPiece]
  unfold ChessEngine.getPawnMoves at h
  simp only [List.append_assoc, List.mem_append] at h
  rcases h with h | h | h
  · cases hw : s.whiteToMove <;> simp [hw] at h <;>
      rcases h with ⟨hb, (rfl | ⟨h2, rfl⟩)⟩ <;> simp <;> tauto
  · exact hcap _ h
  · exact hcap _ h

/-- Every move generated from a square lands on an empty square or on an enemy piece. -/
theorem movesFrom_landing (s : ChessEngine) (hsound : enPassantSound s) (row col : Int)
    (m : Move) (h : m ∈ s.movesFrom row col) :
    s.at m.2.1 m.2.2 = 0 ∨ s.isEnemyPiece (s.at m.2.1 m.2.2) = true := by
  have hpawn : ∀ x ∈ s.getPawnMoves row col,
      s.at x.2.1 x.2.2 = 0 ∨ s.isEnemyPiece (s.at x.2.1 x.2.2) = true := by
    intro x hx
    rcases (getPawnMoves_landing s hsound row col x hx).2 with h | h | h
    · exact Or.inl h.2
    · exact Or.inr h.2
    · exact Or.inl h.1
  have hrook : ∀ x ∈ s.getRookMoves row col,
      s.at x.2.1 x.2.2 = 0 ∨ s.isEnemyPiece (s.at x.2.1 x.2.2) = true := by
    intro x hx
    simp only [ChessEngine.getRookMoves, List.mem_flatMap] at hx
    obtain ⟨d, _, hd⟩ := hx
    exact slide_landing s row col _ _ _ x hd
  have hbishop : ∀ x ∈ s.getBishopMoves row col,
      s.at x.2.1 x.2.2 = 0 ∨ s.isEnemyPiece (s.at x.2.1 x.2.2) = true := by
    intro x hx
    simp only [ChessEngine.getBishopMoves, List.mem_flatMap] at hx
    obtain ⟨d, _, hd⟩ := hx
    exact slide_landing s row col _ _ _ x hd
  have hknight : ∀ x ∈ s.getKnightMoves row col,
      s.at x.2.1 x.2.2 = 0 ∨ s.isEnemyPiece (s.at x.2.1 x.2.2) = true := by
    intro x hx
    simp only [ChessEngine.getKnightMoves, List.mem_flatMap] at hx
    obtain ⟨d, _, hd⟩ := hx
    exact stepMove_landing s row col d x hd
  have hking : ∀ x ∈ s.getKingMoves row col,
      s.at x.2.1 x.2.2 = 0 ∨ s.isEnemyPiece (s.at x.2.1 x.2.2) = true :=
    fun x hx => (getKingMoves_landing s row col x hx).1
  unfold ChessEngine.movesFrom at h
  simp only [] at h
  repeat' split at h
  all_goals first
    | exact hpawn m h
    | exact hknight m h
    | exact hbishop m h
    | exact hrook m h
    | exact hking m h
    | exact hking m h.2
    | exact (List.mem_append.mp h).elim (hbishop m) (hrook m)
    | exact absurd h (List.not_mem_nil m)

theorem movesFrom_king (s : ChessEngine) (row col : Int) (m : Move)
    (h : m ∈ s.movesFrom row col) (hk : s.at row col = 6 ∨ s.at row col = 12) :
    m ∈ s.getKingMoves row col ∧
      (s.at row col = 6 → s.whiteToMove = true) ∧ (s.at row col = 12 → s.whiteToMove = false) := by
  have hown := movesFrom_own s row col m h
  cases hw : s.whiteToMove
  · rcases hk with hk | hk
    · rw [hk] at hown
      simp [ChessEngine.isOwnPiece, hw, isBlackPiece] at hown
    · rw [movesFrom_blackKing s row col hw hk] at h
      exact ⟨h, fun e => by omega, fun _ => rfl⟩
  · rcases hk with hk | hk
    · rw [movesFrom_whiteKing s row col hw hk] at h
      exact ⟨h, fun _ => rfl, fun e => by omega⟩
    · rw [hk] at hown
      simp [ChessEngine.isOwnPiece, hw, isWhitePiece] at hown

/-- The count identity for a generated move in a state with a sound en-passant file,
with what is known about the two cells that leave the count. -/
theorem countCells_generated (p : Int → Bool) (hp0 : p 0 = false) (hp15 : p 1 = p 5)
    (hp711 : p 7 = p 11) (s : ChessEngine) (hg : isGrid8 s.board) (hsound : enPassantSound s)
    (m : Move) (hm : m ∈ s.getAllLegalMoves) :
    ∃ a b : Int, countCells p (s.makeMove m).board + tally p a + tally p b =
        countCells p s.board ∧
      (a = 0 ∨ s.isEnemyPiece a = true) ∧ (b = 0 ∨ s.isEnemyPiece b = true) ∧
      (a = 0 ∨ b = 0) := by
  obtain ⟨hfr, hfc, hmf⟩ := (mem_getAllLegalMoves_iff s m).mp hm
  obtain ⟨_, _, htr, htc⟩ := getAllLegalMoves_inRange s m hm
  have hne := movesFrom_dest_ne s _ _ m hmf
  have hland := movesFrom_landing s hsound _ _ m hmf
  have hown := movesFrom_own s _ _ m hmf
  obtain ⟨⟨fr, fc⟩, ⟨tr, tc⟩⟩ := m
  simp only [] at hfr hfc htr htc hne hland hown hmf
  have hpawn : (s.at fr fc = 1 ∨ s.at fr fc = 7) →
      tr ≠ fr ∧ (fc ≠ tc → s.at tr tc = 0 → s.isEnemyPiece (s.at fr tc) = true) := by
    intro hp
    rw [movesFrom_pawn s _ _ hp, if_pos hown] at hmf
    obtain ⟨h1, h2⟩ := getPawnMoves_landing s hsound fr fc _ hmf
    simp only [] at h1 h2
    refine ⟨h1, fun hc h0 => ?_⟩
    rcases h2 with h | h | h
    · exact absurd h.1.symm hc
    · exact absurd h0 h.1
    · exact h.2
  have hw : s.at fr fc = 6 → fr = 0 → fc = 4 →
      (tc = 6 → s.at 0 5 = 0 ∧ s.at 0 7 = 4) ∧ (tc = 2 → s.at 0 3 = 0 ∧ s.at 0 0 = 4) := by
    intro hk e1 e2
    obtain ⟨hk1, hk2, _⟩ := movesFrom_king s fr fc _ hmf (Or.inl hk)
    exact (getKingMoves_landing s fr fc _ hk1).2.1 (hk2 hk) e1 e2
  have hb : s.at fr fc = 12 → fr = 7 → fc = 4 →
      (tc = 6 → s.at 7 5 = 0 ∧ s.at 7 7 = 10) ∧ (tc = 2 → s.at 7 3 = 0 ∧ s.at 7 0 = 10) := by
    intro hk e1 e2
    obtain ⟨hk1, _, hk2⟩ := movesFrom_king s fr fc _ hmf (Or.inr hk)
    exact (getKingMoves_landing s fr fc _ hk1).2.2 (hk2 hk) e1 e2
  have hid := countCells_makeMove p hp0 hp15 hp711 s fr fc tr tc hg hfr hfc htr htc hne
    (fun h => (hpawn h).1) hw hb
  by_cases hep : (s.at fr fc = 1 ∨ s.at fr fc = 7) ∧ fc ≠ tc ∧ s.at tr tc = 0
  · rw [if_pos hep] at hid
    exact ⟨s.at fr tc, s.at tr tc, hid, Or.inr ((hpawn hep.1).2 hep.2.1 hep.2.2), hland,
      Or.inr hep.2.2⟩
  · rw [if_neg hep] at hid
    refine ⟨0, s.at tr tc, ?_, Or.inl rfl, hland, Or.inl rfl⟩
    rw [tally_zero p hp0]
    exact hid

theorem tally_white_enemy (s : ChessEngine) (hw : s.whiteToMove = true) (a : Int)
    (h : a = 0 ∨ s.isEnemyPiece a = true) : tally isWhitePiece a = 0 := by
  rcases h with rfl | h
  · rfl
  · simp only [ChessEngine.isEnemyPiece, hw, if_true, isBlackPiece, Bool.and_eq_true,
      decide_eq_true_eq] at h
    have : isWhitePiece a = false := by
      simp only [isWhitePiece, Bool.and_eq_false_iff, decide_eq_false_iff_not]
      omega
    simp [tally, this]

theorem tally_black_enemy (s : ChessEngine) (hw : s.whiteToMove = false) (a : Int)
    (h : a = 0 ∨ s.isEnemyPiece a = true) : tally isBlackPiece a = 0 := by
  rcases h with rfl | h
  · rfl
  · simp only [ChessEngine.isEnemyPiece, hw, Bool.false_eq_true, if_false, isWhitePiece,
      Bool.and_eq_true, decide_eq_true_eq] at h
    have : isBlackPiece a = false := by
      simp only [isBlackPiece, Bool.and_eq_false_iff, decide_eq_false_iff_not]
      omega
    simp [tally, this]

/-! ## Search -/

theorem bestLoop_spec (s : ChessEngine) (l : List Move) (init : Int × Move) :
    (s.bestLoop l init = init ∧ ∀ x ∈ l, s.rootScore x ≤ init.1) ∨
    (∃ pre m post, l = pre ++ m :: post ∧ s.bestLoop l init = (s.rootScore m, m) ∧
      init.1 < s.rootScore m ∧ (∀ x ∈ pre, s.rootScore x < s.rootScore m) ∧
      ∀ x ∈ post, s.rootScore x ≤ s.rootScore m) := by
  induction l generalizing init with
  | nil => left; simp [ChessEngine.bestLoop]
  | cons a t ih =>
    have step : s.bestLoop (a :: t) init =
        s.bestLoop t (if s.rootScore a > init.1 then (s.rootScore a, a) else init) := rfl
    rw [step]
    by_cases hg : s.rootScore a > init.1
    · rw [if_pos hg]
      right
      rcases ih (s.rootScore a, a) with ⟨h1, h2⟩ | ⟨pre, m, post, h1, h2, h3, h4, h5⟩
      · exact ⟨[], a, t, rfl, h1, hg, by simp, h2⟩
      · refine ⟨a :: pre, m, post, by rw [h1]; rfl, h2, ?_, ?_, h5⟩
        · simp only [] at h3; omega
        · intro x hx
          rcases List.mem_cons.mp hx with rfl | hx
          · exact h3
          · exact h4 x hx
    · rw [if_neg hg]
      rcases ih init with ⟨h1, h2⟩ | ⟨pre, m, post, h1, h2, h3, h4, h5⟩
      · left
        refine ⟨h1, ?_⟩
        intro x hx
        rcases List.mem_cons.mp hx with rfl | hx
        · omega
        · exact h2 x hx
      · right
        refine ⟨a :: pre, m, post, by rw [h1]; rfl, h2, h3, ?_, h5⟩
        intro x hx
        rcases List.mem_cons.mp hx with rfl | hx
        · omega
        · exact h4 x hx

theorem rootScore_ge (s : ChessEngine) (m : Move) : -1000000 ≤ s.rootScore m := by
  have := negamax_succ_succ_le (s.makeMove m) 0
  have e : s.rootScore m = -((s.makeMove m).negamax (0 + 2)) := rfl
  omega

theorem charAdd_file (col : Int) (h : 0 ≤ col ∧ col < 8) :
    charAdd 97 col = fileLetters.getD col.toNat '?' := by
  obtain ⟨h0, h8⟩ := h
  interval_cases col <;> rfl

theorem charAdd_rank (row : Int) (h : 0 ≤ row ∧ row < 8) :
    charAdd 49 row = rankDigits.getD row.toNat '?' := by
  obtain ⟨h0, h8⟩ := h
  interval_cases row <;> rfl

theorem coordToAlgebraic_pair (m : Move) (h : inRange m) :
    coordToAlgebraic m.1.1 m.1.2 ++ coordToAlgebraic m.2.1 m.2.2 = moveString m := by
  obtain ⟨h1, h2, h3, h4⟩ := h
  unfold coordToAlgebraic moveString
  rw [charAdd_file _ h2, charAdd_rank _ h1, charAdd_file _ h4, charAdd_rank _ h3]
  rfl

/-- The crowded position is one the placement parser produces. -/
theorem crowdedPosition_from_placement :
    setPosition
      "kkkkkkkk/kkkkkkkk/kkkkkkkk/kkkkkkkk/kkkkkkkk/kkkkkkkk/Pkkkkkkk/kkkkkkkk w "
      = crowdedPosition := by
  decide

/-! ## Evaluation -/

theorem scoreStep_eq (score piece : Int) (h : 0 ≤ piece ∧ piece ≤ 12) :
    scoreStep score piece = score + signedValue piece := by
  obtain ⟨h0, h12⟩ := h
  interval_cases piece <;> simp [scoreStep, signedValue, valueOfKind] <;> omega

theorem foldl_scoreStep (f : Int → Int) (l : List Int) (score : Int)
    (h : ∀ col ∈ l, 0 ≤ f col ∧ f col ≤ 12) :
    l.foldl (fun score col => scoreStep score (f col)) score
      = score + (l.map fun col => signedValue (f col)).sum := by
  induction l generalizing score with
  | nil => simp
  | cons a t ih =>
    simp only [List.foldl_cons, List.map_cons, List.sum_cons]
    rw [ih _ (fun col hc => h col (List.mem_cons_of_mem _ hc)),
      scoreStep_eq _ _ (h a (List.mem_cons_self _ _))]
    omega

theorem foldl_rows (b : List (List Int)) (rows : List Int) (score : Int)
    (h : ∀ row ∈ rows, ∀ col ∈ idx8, 0 ≤ readGrid b row col ∧ readGrid b row col ≤ 12) :
    rows.foldl
        (fun score row => idx8.foldl (fun score col => scoreStep score (readGrid b row col)) score)
        score
      = score + (rows.map fun row =>
          (idx8.map fun col => signedValue (readGrid b row col)).sum).sum := by
  induction rows generalizing score with
  | nil => simp
  | cons a t ih =>
    simp only [List.foldl_cons, List.map_cons, List.sum_cons]
    rw [ih _ (fun row hr => h row (List.mem_cons_of_mem _ hr)),
      foldl_scoreStep (fun col => readGrid b a col) idx8 score (h a (List.mem_cons_self _ _))]
    omega

/-! ## The claims -/

/-- C1: from the standard initial position `getAllLegalMoves` yields exactly twenty
moves: the four knight moves b1-a3, b1-c3, g1-f3, g1-h3 and, for each of the eight
files, the pawn's single step from row 1 to row 2 and its double step to row 3. -/
theorem initial_position_has_twenty_moves :
    initializeBoard.whiteToMove = true ∧
    initializeBoard.getAllLegalMoves.length = 20 ∧
    initializeBoard.getAllLegalMoves =
      [((0, 1), (2, 0)), ((0, 1), (2, 2)), ((0, 6), (2, 5)), ((0, 6), (2, 7)),
       ((1, 0), (2, 0)), ((1, 0), (3, 0)), ((1, 1), (2, 1)), ((1, 1), (3, 1)),
       ((1, 2), (2, 2)), ((1, 2), (3, 2)), ((1, 3), (2, 3)), ((1, 3), (3, 3)),
       ((1, 4), (2, 4)), ((1, 4), (3, 4)), ((1, 5), (2, 5)), ((1, 5), (3, 5)),
       ((1, 6), (2, 6)), ((1, 6), (3, 6)), ((1, 7), (2, 7)), ((1, 7), (3, 7))] := by
  decide

/-- C2, as stated, fails: in the crowded position (63 Black kings, one White pawn, the
position `setPosition` builds from the placement text of `crowdedPosition_from_placement`)
the only move scores -1239900 at depth 1, yet `negamax` returns -1000000, which is the
negated child value of no move. -/
theorem negamax_not_max_in_crowdedPosition :
    crowdedPosition.getAllLegalMoves ≠ [] ∧
    crowdedPosition.negamax 1 = -1000000 ∧
    (∀ m ∈ crowdedPosition.getAllLegalMoves,
      -((crowdedPosition.makeMove m).negamax 0) = -1239900) ∧
    ¬ ∃ m ∈ crowdedPosition.getAllLegalMoves,
      crowdedPosition.negamax 1 = -((crowdedPosition.makeMove m).negamax 0) := by
  decide

/-- C2 (amended): with at least one generated move, `negamax` at depth `depth + 1` is the
greatest element of the set made of the initial best score -1000000 and of the negated
child values `-negamax(applyMove(state, m), depth)`; it is the maximum of the negated
child values themselves as soon as one of them is at least -1000000, and always when
`depth + 1 ≥ 3`. -/
theorem negamax_recursive_case (s : ChessEngine) (depth : Nat)
    (h : s.getAllLegalMoves ≠ []) :
    (∀ m ∈ s.getAllLegalMoves, -((s.makeMove m).negamax depth) ≤ s.negamax (depth + 1)) ∧
    -1000000 ≤ s.negamax (depth + 1) ∧
    (s.negamax (depth + 1) = -1000000 ∨
      ∃ m ∈ s.getAllLegalMoves, s.negamax (depth + 1) = -((s.makeMove m).negamax depth)) ∧
    ((2 ≤ depth ∨ ∃ m ∈ s.getAllLegalMoves, -1000000 ≤ -((s.makeMove m).negamax depth)) →
      ∃ m ∈ s.getAllLegalMoves, s.negamax (depth + 1) = -((s.makeMove m).negamax depth)) := by
  have hne : s.getAllLegalMoves.isEmpty = false := by
    cases hm : s.getAllLegalMoves with
    | nil => exact absurd hm h
    | cons a t => rfl
  have e := negamax_succ s depth
  rw [hne] at e
  simp only [Bool.false_eq_true, if_false] at e
  obtain ⟨h1, h2, h3⟩ := foldl_best_spec (fun m => -((s.makeMove m).negamax depth))
    s.getAllLegalMoves (-1000000)
  rw [← e] at h1 h2 h3
  refine ⟨h2, h1, h3, ?_⟩
  intro hc
  have hex : ∃ m ∈ s.getAllLegalMoves, -1000000 ≤ -((s.makeMove m).negamax depth) := by
    rcases hc with hd | hc
    · obtain ⟨d, rfl⟩ : ∃ d, depth = d + 2 := ⟨depth - 2, by omega⟩
      cases hm : s.getAllLegalMoves with
      | nil => exact absurd hm h
      | cons a t =>
        refine ⟨a, List.mem_cons_self _ _, ?_⟩
        have := negamax_succ_succ_le (s.makeMove a) d
        omega
    · exact hc
  obtain ⟨m, hm, hge⟩ := hex
  rcases h3 with h3 | h3
  · refine ⟨m, hm, ?_⟩
    have := h2 m hm
    simp only [] at this
    omega
  · exact h3

/-- C2 (amended), at the standard initial position and depth 1. -/
theorem negamax_recursive_case_witness :
    initializeBoard.getAllLegalMoves ≠ [] ∧
    ∃ m ∈ initializeBoard.getAllLegalMoves,
      initializeBoard.negamax (0 + 1) = -((initializeBoard.makeMove m).negamax 0) :=
  ⟨by decide, (negamax_recursive_case initializeBoard 0 (by decide)).2.2.2 (Or.inr (by decide))⟩

/-- C3: at depth 0 `negamax` returns `evaluateBoard` when White is to move and its
negation when Black is to move. -/
theorem negamax_zero (s : ChessEngine) :
    (s.whiteToMove = true → s.negamax 0 = s.evaluateBoard) ∧
    (s.whiteToMove = false → s.negamax 0 = -s.evaluateBoard) := by
  constructor <;> intro h <;> simp [ChessEngine.negamax, h]

/-- C3, in the crowded position (White to move) and after its only move (Black to
move). -/
theorem negamax_zero_witness :
    crowdedPosition.whiteToMove = true ∧
    crowdedPosition.negamax 0 = crowdedPosition.evaluateBoard ∧
    (crowdedPosition.makeMove ((1, 0), (2, 1))).whiteToMove = false ∧
    (crowdedPosition.makeMove ((1, 0), (2, 1))).negamax 0
      = -(crowdedPosition.makeMove ((1, 0), (2, 1))).evaluateBoard :=
  ⟨by decide, (negamax_zero crowdedPosition).1 (by decide), by decide,
    (negamax_zero (crowdedPosition.makeMove ((1, 0), (2, 1)))).2 (by decide)⟩

/-- C4: with at least one generated move, `getBestMove` returns the four-character
string of a move `m` of the generated list such that every move generated before `m`
scores strictly less than `m` and every move generated after it scores at most as much,
the score of a move being `-negamax(applyMove(state, move), 2)`: the first move of
greatest score. -/
theorem getBestMove_first_greatest (s : ChessEngine) (h : s.getAllLegalMoves ≠ []) :
    ∃ pre m post, s.getAllLegalMoves = pre ++ m :: post ∧
      (∀ x ∈ pre, -((s.makeMove x).negamax 2) < -((s.makeMove m).negamax 2)) ∧
      (∀ x ∈ post, -((s.makeMove x).negamax 2) ≤ -((s.makeMove m).negamax 2)) ∧
      s.getBestMove = moveString m := by
  cases hm : s.getAllLegalMoves with
  | nil => exact absurd hm h
  | cons a t =>
    have hbest : s.getBestMove =
        coordToAlgebraic (s.bestLoop (a :: t) (-1000000, a)).2.1.1
            (s.bestLoop (a :: t) (-1000000, a)).2.1.2 ++
          coordToAlgebraic (s.bestLoop (a :: t) (-1000000, a)).2.2.1
            (s.bestLoop (a :: t) (-1000000, a)).2.2.2 := by
      unfold ChessEngine.getBestMove
      rw [hm]
    have hin : ∀ x ∈ a :: t, inRange x := by
      intro x hx
      rw [← hm] at hx
      exact getAllLegalMoves_inRange s x hx
    rcases bestLoop_spec s (a :: t) (-1000000, a) with ⟨h1, h2⟩ | ⟨pre, m, post, h1, h2, _, h4, h5⟩
    · refine ⟨[], a, t, rfl, by simp, ?_, ?_⟩
      · intro x hx
        have hx1 := h2 x (List.mem_cons_of_mem _ hx)
        have hx2 := rootScore_ge s a
        have e1 : s.rootScore x = -((s.makeMove x).negamax 2) := rfl
        have e2 : s.rootScore a = -((s.makeMove a).negamax 2) := rfl
        simp only [] at hx1
        omega
      · rw [hbest, h1]
        exact coordToAlgebraic_pair a (hin a (List.mem_cons_self _ _))
    · refine ⟨pre, m, post, h1, h4, h5, ?_⟩
      rw [hbest, h2]
      exact coordToAlgebraic_pair m (hin m (by rw [h1]; simp))

/-- C4, at the standard initial position. -/
theorem getBestMove_first_greatest_witness :
    initializeBoard.getAllLegalMoves ≠ [] ∧
    ∃ pre m post, initializeBoard.getAllLegalMoves = pre ++ m :: post ∧
      (∀ x ∈ pre, -((initializeBoard.makeMove x).negamax 2)
        < -((initializeBoard.makeMove m).negamax 2)) ∧
      (∀ x ∈ post, -((initializeBoard.makeMove x).negamax 2)
        ≤ -((initializeBoard.makeMove m).negamax 2)) ∧
      initializeBoard.getBestMove = moveString m :=
  ⟨by decide, getBestMove_first_greatest initializeBoard (by decide)⟩

/-- C5: when every cell holds a code in `0..12`, `evaluateBoard` is the sum over the 64
squares of the signed piece values (pawn 100, knight 320, bishop 330, rook 500, queen
900, king 20000; White positive, Black negative, empty 0), and any state with the same
grid has the same evaluation, whatever its side to move, flags and en-passant file. -/
theorem evaluateBoard_material (s : ChessEngine) (h : cellsValid s.board) :
    s.evaluateBoard = materialSum s.board ∧
    ∀ t : ChessEngine, t.board = s.board → t.evaluateBoard = s.evaluateBoard := by
  have key : ∀ u : ChessEngine, cellsValid u.board → u.evaluateBoard = materialSum u.board := by
    intro u hu
    have e := foldl_rows u.board idx8 0 hu
    unfold ChessEngine.evaluateBoard materialSum
    unfold ChessEngine.at
    rw [e]
    omega
  refine ⟨key s h, ?_⟩
  intro t ht
  rw [key s h, key t (by rw [ht]; exact h), ht]

/-- C5, at the standard initial position, against the same grid with Black to move and
other flags. -/
theorem evaluateBoard_material_witness :
    cellsValid initializeBoard.board ∧
    initializeBoard.evaluateBoard = materialSum initializeBoard.board ∧
    ({ initializeBoard with whiteToMove := false, whiteKingMoved := true, enPassantCol := 3 }
      : ChessEngine).evaluateBoard = initializeBoard.evaluateBoard :=
  ⟨by decide, (evaluateBoard_material initializeBoard (by decide)).1,
    (evaluateBoard_material initializeBoard (by decide)).2 _ rfl⟩

/-- C6 fails on the code: `setPosition` starts from the standard arrangement and digit
runs only advance the column, so the all-empty placement `8/8/8/8/8/8/8/8` leaves the
whole standard arrangement on the grid (for instance the White king on e1), where the
placement describes 64 empty squares. -/
theorem setPosition_empty_placement_keeps_start :
    (setPosition "8/8/8/8/8/8/8/8 w - - 0 1 ").board = initializeBoard.board ∧
    (setPosition "8/8/8/8/8/8/8/8 w - - 0 1 ").at 0 4 = 6 := by
  decide

/-- C7: `makeMove` never resets a moved flag, over any finite sequence of in-range
moves; so if the king-moved flag of a side, or the rook-moved flag of a wing, is set in
a state, then in every state reached from it in which that side is to move with its king
on its home square, `getAllLegalMoves` holds no castling move of that side, resp. of
that wing (e1-g1 and e1-c1 for White, e8-g8 and e8-c8 for Black). -/
theorem castling_never_comes_back (s : ChessEngine) (ms : List Move)
    (_hms : ∀ m ∈ ms, inRange m) :
    flagsKept s (s.makeMoves ms) ∧
    ((s.makeMoves ms).whiteToMove = true → (s.makeMoves ms).at 0 4 = 6 →
      ((s.whiteKingMoved = true ∨ s.whiteKingsideRookMoved = true) →
        ((0, 4), (0, 6)) ∉ (s.makeMoves ms).getAllLegalMoves) ∧
      ((s.whiteKingMoved = true ∨ s.whiteQueensideRookMoved = true) →
        ((0, 4), (0, 2)) ∉ (s.makeMoves ms).getAllLegalMoves)) ∧
    ((s.makeMoves ms).whiteToMove = false → (s.makeMoves ms).at 7 4 = 12 →
      ((s.blackKingMoved = true ∨ s.blackKingsideRookMoved = true) →
        ((7, 4), (7, 6)) ∉ (s.makeMoves ms).getAllLegalMoves) ∧
      ((s.blackKingMoved = true ∨ s.blackQueensideRookMoved = true) →
        ((7, 4), (7, 2)) ∉ (s.makeMoves ms).getAllLegalMoves)) := by
  have hk := flagsKept_makeMoves s ms
  obtain ⟨k1, k2, k3, k4, k5, k6⟩ := hk
  refine ⟨⟨k1, k2, k3, k4, k5, k6⟩, ?_, ?_⟩
  · intro hw hking
    constructor
    · intro hf hmem
      obtain ⟨h1, h2, _⟩ := (whiteKingside_mem_iff _ hw hking).mp hmem
      rcases hf with hf | hf
      · rw [k1 hf] at h1; exact Bool.noConfusion h1
      · rw [k3 hf] at h2; exact Bool.noConfusion h2
    · intro hf hmem
      obtain ⟨h1, h2, _⟩ := (whiteQueenside_mem_iff _ hw hking).mp hmem
      rcases hf with hf | hf
      · rw [k1 hf] at h1; exact Bool.noConfusion h1
      · rw [k4 hf] at h2; exact Bool.noConfusion h2
  · intro hw hking
    constructor
    · intro hf hmem
      obtain ⟨h1, h2, _⟩ := (blackKingside_mem_iff _ hw hking).mp hmem
      rcases hf with hf | hf
      · rw [k2 hf] at h1; exact Bool.noConfusion h1
      · rw [k5 hf] at h2; exact Bool.noConfusion h2
    · intro hf hmem
      obtain ⟨h1, h2, _⟩ := (blackQueenside_mem_iff _ hw hking).mp hmem
      rcases hf with hf | hf
      · rw [k2 hf] at h1; exact Bool.noConfusion h1
      · rw [k6 hf] at h2; exact Bool.noConfusion h2

/-- C7, on `kingsideRookMoved` after the moves a1-b1 and a8-b8: White is to move again,
king on e1, f1 and g1 empty, rook on h1, and e1-g1 is not generated. -/
theorem castling_never_comes_back_witness :
    (∀ m ∈ [(((0, 0), (0, 1)) : Move), ((7, 0), (7, 1))], inRange m) ∧
    kingsideRookMoved.whiteKingsideRookMoved = true ∧
    (kingsideRookMoved.makeMoves [((0, 0), (0, 1)), ((7, 0), (7, 1))]).whiteToMove = true ∧
    (kingsideRookMoved.makeMoves [((0, 0), (0, 1)), ((7, 0), (7, 1))]).at 0 4 = 6 ∧
    ((0, 4), (0, 6)) ∉
      (kingsideRookMoved.makeMoves [((0, 0), (0, 1)), ((7, 0), (7, 1))]).getAllLegalMoves :=
  ⟨by decide, by decide, by decide, by decide,
    ((castling_never_comes_back kingsideRookMoved [((0, 0), (0, 1)), ((7, 0), (7, 1))]
      (by decide)).2.1 (by decide) (by decide)).1 (Or.inr (by decide))⟩

/-- C8, as stated, fails: after "e2e4" from the initial position the en-passant file is
not unset. -/
theorem e2e4_enPassant_not_unset :
    ¬ ((initializeBoard.makeMoveStr "e2e4").at 1 4 = 0 ∧
       (initializeBoard.makeMoveStr "e2e4").at 3 4 = 1 ∧
       (initializeBoard.makeMoveStr "e2e4").enPassantCol = -1 ∧
       (initializeBoard.makeMoveStr "e2e4").whiteToMove = false) := by
  decide

/-- C8 (amended): after "e2e4" from the initial position e2 is empty, e4 holds a White
pawn, the en-passant file is column 4 (the file of the pawn that advanced two squares),
and Black is to move. -/
theorem e2e4_from_initial :
    (initializeBoard.makeMoveStr "e2e4").at 1 4 = 0 ∧
    (initializeBoard.makeMoveStr "e2e4").at 3 4 = 1 ∧
    (initializeBoard.makeMoveStr "e2e4").enPassantCol = 4 ∧
    (initializeBoard.makeMoveStr "e2e4").whiteToMove = false := by
  decide

/-- C9: after a generated two-square pawn advance, each enemy pawn standing beside the
advanced pawn (same rank, neighbouring file) has exactly one generated move to the
square that was skipped; and once any move that is not a pawn move spanning two rows
has been applied after it, no generated pawn move goes diagonally into an empty
square. -/
theorem enPassant_window (s : ChessEngine) (m : Move) (hm : m ∈ s.getAllLegalMoves)
    (hp : s.at m.1.1 m.1.2 = 1 ∨ s.at m.1.1 m.1.2 = 7)
    (hcol : m.2.2 = m.1.2) (hrow : (m.1.1 - m.2.1).natAbs = 2) :
    (∀ c' : Int, (c' = m.2.2 - 1 ∨ c' = m.2.2 + 1) → (0 ≤ c' ∧ c' < 8) →
        (s.makeMove m).at m.2.1 c' = (if s.whiteToMove = true then 7 else 1) →
        (s.makeMove m).getAllLegalMoves.count ((m.2.1, c'), ((m.1.1 + m.2.1) / 2, m.2.2)) = 1) ∧
    (∀ m2 : Move,
        ¬(((s.makeMove m).at m2.1.1 m2.1.2 = 1 ∨ (s.makeMove m).at m2.1.1 m2.1.2 = 7) ∧
            (m2.1.1 - m2.2.1).natAbs = 2) →
        ∀ x ∈ ((s.makeMove m).makeMove m2).getAllLegalMoves,
          (((s.makeMove m).makeMove m2).at x.1.1 x.1.2 = 1 ∨
            ((s.makeMove m).makeMove m2).at x.1.1 x.1.2 = 7) →
          x.2.2 ≠ x.1.2 → ((s.makeMove m).makeMove m2).at x.2.1 x.2.2 ≠ 0) := by
  constructor
  · obtain ⟨⟨r, c⟩, ⟨r2, c2⟩⟩ := m
    simp only [] at hp hcol hrow ⊢
    subst hcol
    obtain ⟨_, hc, hmf⟩ := (mem_getAllLegalMoves_iff s _).mp hm
    simp only [] at hc hmf
    rw [movesFrom_pawn s _ _ hp] at hmf
    split at hmf
    swap
    · exact absurd hmf (List.not_mem_nil _)
    intro c' hc' hc'r hpawn
    rcases pawn_double_spec s r c2 _ hmf rfl hrow with ⟨hw, rfl, he, h2, _⟩ | ⟨hw, rfl, he, h5, _⟩
    · obtain ⟨-, rfl⟩ : (1 : Int) = 1 ∧ r2 = 3 := by simpa using he
      have hw' : (s.makeMove ((1, c2), (3, c2))).whiteToMove = false := by
        rw [makeMove_whiteToMove, hw]; rfl
      have hep : (s.makeMove ((1, c2), (3, c2))).enPassantCol = c2 := by
        rw [makeMove_enPassantCol, if_pos ⟨hp, hrow⟩]
      have hempty : (s.makeMove ((1, c2), (3, c2))).at 2 c2 = 0 := by
        unfold ChessEngine.at
        rw [makeMove_board_pawn_straight s 1 c2 3 hp (by decide) (by decide),
          readGrid_writeGrid_ne _ _ _ _ _ _ (Or.inl (by decide)),
          readGrid_writeGrid_ne _ _ _ _ _ _ (Or.inl (by decide))]
        exact h2
      rw [hw, if_pos rfl] at hpawn
      rw [count_getAllLegalMoves _ _ (by simp) (by simpa using hc'r)]
      simp only []
      rw [movesFrom_pawn _ _ _ (Or.inr hpawn), hpawn]
      have hown : (s.makeMove ((1, c2), (3, c2))).isOwnPiece 7 = true := by
        simp [ChessEngine.isOwnPiece, hw', isBlackPiece]
      rw [if_pos hown]
      exact count_enPassant_black _ c2 c' hw' hep hc hc' hempty
    · obtain ⟨-, rfl⟩ : (6 : Int) = 6 ∧ r2 = 4 := by simpa using he
      have hw' : (s.makeMove ((6, c2), (4, c2))).whiteToMove = true := by
        rw [makeMove_whiteToMove, hw]; rfl
      have hep : (s.makeMove ((6, c2), (4, c2))).enPassantCol = c2 := by
        rw [makeMove_enPassantCol, if_pos ⟨hp, hrow⟩]
      have hempty : (s.makeMove ((6, c2), (4, c2))).at 5 c2 = 0 := by
        unfold ChessEngine.at
        rw [makeMove_board_pawn_straight s 6 c2 4 hp (by decide) (by decide),
          readGrid_writeGrid_ne _ _ _ _ _ _ (Or.inl (by decide)),
          readGrid_writeGrid_ne _ _ _ _ _ _ (Or.inl (by decide))]
        exact h5
      rw [hw] at hpawn
      simp only [Bool.false_eq_true, if_false] at hpawn
      rw [count_getAllLegalMoves _ _ (by simp) (by simpa using hc'r)]
      simp only []
      rw [movesFrom_pawn _ _ _ (Or.inl hpawn), hpawn]
      have hown : (s.makeMove ((6, c2), (4, c2))).isOwnPiece 1 = true := by
        simp [ChessEngine.isOwnPiece, hw', isWhitePiece]
      rw [if_pos hown]
      exact count_enPassant_white _ c2 c' hw' hep hc hc' hempty
  · intro m2 hm2 x hx hpx hd
    refine diagonal_pawn_moves_capture _ ?_ x hx hpx hd
    rw [makeMove_enPassantCol, if_neg hm2]


/-- C9, in `enPassantSetup`: after e2-e4 the Black pawn on d4 has exactly one move to
e3. -/
theorem enPassant_window_witness :
    ((1, 4), (3, 4)) ∈ enPassantSetup.getAllLegalMoves ∧
    enPassantSetup.at 1 4 = 1 ∧
    (enPassantSetup.makeMove ((1, 4), (3, 4))).at 3 3 = 7 ∧
    (enPassantSetup.makeMove ((1, 4), (3, 4))).getAllLegalMoves.count ((3, 3), (2, 4)) = 1 :=
  ⟨by decide, by decide, by decide,
    (enPassant_window enPassantSetup ((1, 4), (3, 4)) (by decide) (by decide) (by decide)
      (by decide)).1 3 (by decide) (by decide) (by decide)⟩

/-- C10: with White to move and the White king on e1, e1-g1 is generated exactly when
the White king-moved and kingside rook-moved flags are clear, f1 and g1 are empty and h1
holds a White rook, and e1-c1 exactly when the king-moved and queenside rook-moved flags
are clear, d1, c1 and b1 are empty and a1 holds a White rook; likewise for Black on row 7
with king code 12 and rook code 10. -/
theorem castling_offered_iff (s : ChessEngine) :
    (s.whiteToMove = true → s.at 0 4 = 6 →
      (((0, 4), (0, 6)) ∈ s.getAllLegalMoves ↔
        s.whiteKingMoved = false ∧ s.whiteKingsideRookMoved = false ∧
          s.at 0 5 = 0 ∧ s.at 0 6 = 0 ∧ s.at 0 7 = 4) ∧
      (((0, 4), (0, 2)) ∈ s.getAllLegalMoves ↔
        s.whiteKingMoved = false ∧ s.whiteQueensideRookMoved = false ∧
          s.at 0 3 = 0 ∧ s.at 0 2 = 0 ∧ s.at 0 1 = 0 ∧ s.at 0 0 = 4)) ∧
    (s.whiteToMove = false → s.at 7 4 = 12 →
      (((7, 4), (7, 6)) ∈ s.getAllLegalMoves ↔
        s.blackKingMoved = false ∧ s.blackKingsideRookMoved = false ∧
          s.at 7 5 = 0 ∧ s.at 7 6 = 0 ∧ s.at 7 7 = 10) ∧
      (((7, 4), (7, 2)) ∈ s.getAllLegalMoves ↔
        s.blackKingMoved = false ∧ s.blackQueensideRookMoved = false ∧
          s.at 7 3 = 0 ∧ s.at 7 2 = 0 ∧ s.at 7 1 = 0 ∧ s.at 7 0 = 10)) :=
  ⟨fun hw hk => ⟨whiteKingside_mem_iff s hw hk, whiteQueenside_mem_iff s hw hk⟩,
    fun hw hk => ⟨blackKingside_mem_iff s hw hk, blackQueenside_mem_iff s hw hk⟩⟩

/-- C10, in `castleReady`: both White castling moves are generated. -/
theorem castling_offered_iff_witness :
    castleReady.whiteToMove = true ∧ castleReady.at 0 4 = 6 ∧
    ((0, 4), (0, 6)) ∈ castleReady.getAllLegalMoves ∧
    ((0, 4), (0, 2)) ∈ castleReady.getAllLegalMoves :=
  ⟨by decide, by decide,
    ((castling_offered_iff castleReady).1 (by decide) (by decide)).1.mpr (by decide),
    ((castling_offered_iff castleReady).1 (by decide) (by decide)).2.mpr (by decide)⟩

/-! ## The claims, continued -/

/-- C11: at every depth greater than zero, a state with no generated move gets the
fixed score -100000 from `negamax`, whatever the grid holds. -/
theorem negamax_no_moves (s : ChessEngine) (depth : Nat) (hd : depth > 0)
    (h : s.getAllLegalMoves = []) : s.negamax depth = -100000 := by
  obtain ⟨d, rfl⟩ : ∃ d, depth = d + 1 := ⟨depth - 1, by omega⟩
  rw [negamax_succ, h]
  rfl

/-- C11, in `loneBlackKing` at depth 3: White has no piece, hence no move. -/
theorem negamax_no_moves_witness :
    loneBlackKing.getAllLegalMoves = [] ∧ loneBlackKing.negamax 3 = -100000 :=
  ⟨by decide, negamax_no_moves loneBlackKing 3 (by decide) (by decide)⟩

/-- C12: after `makeMove` with an in-range move from one square to another, the
en-passant file is the origin column when the moved piece is a pawn (code 1 or 7) and
origin and destination rows differ by exactly two, and is -1 in every other case,
whatever it was before. -/
theorem enPassantCol_after_makeMove (s : ChessEngine) (m : Move) (_hin : inRange m)
    (_hne : m.1 ≠ m.2) :
    (((s.at m.1.1 m.1.2 = 1 ∨ s.at m.1.1 m.1.2 = 7) ∧ (m.1.1 - m.2.1).natAbs = 2) →
      (s.makeMove m).enPassantCol = m.1.2) ∧
    (¬((s.at m.1.1 m.1.2 = 1 ∨ s.at m.1.1 m.1.2 = 7) ∧ (m.1.1 - m.2.1).natAbs = 2) →
      (s.makeMove m).enPassantCol = -1) := by
  rw [makeMove_enPassantCol]
  constructor
  · intro h; rw [if_pos h]
  · intro h; rw [if_neg h]

/-- C12, from the initial position with the en-passant file preset to 6: e2-e4 sets it to
4, the knight move b1-c3 resets it to -1. -/
theorem enPassantCol_after_makeMove_witness :
    inRange ((1, 4), (3, 4)) ∧
    ({ initializeBoard with enPassantCol := 6 } : ChessEngine).at 1 4 = 1 ∧
    (({ initializeBoard with enPassantCol := 6 } : ChessEngine).makeMove
      ((1, 4), (3, 4))).enPassantCol = 4 ∧
    inRange ((0, 1), (2, 2)) ∧
    (({ initializeBoard with enPassantCol := 6 } : ChessEngine).makeMove
      ((0, 1), (2, 2))).enPassantCol = -1 :=
  ⟨by decide, by decide,
    (enPassantCol_after_makeMove _ ((1, 4), (3, 4)) (by decide) (by decide)).1 (by decide),
    by decide,
    (enPassantCol_after_makeMove _ ((0, 1), (2, 2)) (by decide) (by decide)).2 (by decide)⟩

/-- C13, as stated, fails: the in-range move a1-a1 of the White rook in the initial
position leaves its destination a1 empty, not holding the rook's code 4. -/
theorem null_move_empties_destination :
    isGrid8 initializeBoard.board ∧ inRange ((0, 0), (0, 0)) ∧
    initializeBoard.at 0 0 = 4 ∧
    (initializeBoard.makeMove ((0, 0), (0, 0))).at 0 0 ≠ initializeBoard.at 0 0 := by
  decide

/-- C13 (amended): on an 8x8 grid and for an in-range move, the destination holds 5
after a White pawn arrives on row 7 and 11 after a Black pawn arrives on row 0; in
every other case, provided origin and destination are different squares, it holds the
moved piece's own code. -/
theorem destination_after_makeMove (s : ChessEngine) (m : Move) (hg : isGrid8 s.board)
    (hin : inRange m) :
    ((s.at m.1.1 m.1.2 = 1 ∧ m.2.1 = 7) → (s.makeMove m).at m.2.1 m.2.2 = 5) ∧
    ((s.at m.1.1 m.1.2 = 7 ∧ m.2.1 = 0) → (s.makeMove m).at m.2.1 m.2.2 = 11) ∧
    (m.1 ≠ m.2 → ¬(s.at m.1.1 m.1.2 = 1 ∧ m.2.1 = 7) → ¬(s.at m.1.1 m.1.2 = 7 ∧ m.2.1 = 0) →
      (s.makeMove m).at m.2.1 m.2.2 = s.at m.1.1 m.1.2) := by
  rw [makeMove_at_dest s m hg hin]
  refine ⟨fun h => by rw [if_pos h], fun h => ?_, fun h1 h2 h3 => by
    rw [if_neg h2, if_neg h3, if_neg h1]⟩
  have : ¬(s.at m.1.1 m.1.2 = 1 ∧ m.2.1 = 7) := fun h' => by omega
  rw [if_neg this, if_pos h]

/-- C13 (amended), for the knight move b1-c3 in the initial position. -/
theorem destination_after_makeMove_witness :
    isGrid8 initializeBoard.board ∧ inRange ((0, 1), (2, 2)) ∧
    (initializeBoard.makeMove ((0, 1), (2, 2))).at 2 2 = initializeBoard.at 0 1 :=
  ⟨by decide, by decide,
    (destination_after_makeMove initializeBoard ((0, 1), (2, 2)) (by decide) (by decide)).2.2
      (by decide) (by decide) (by decide)⟩

/-- C14: on an 8x8 grid, after `makeMove` with an in-range move from one square to a
different one, the origin square is empty and the side to move has changed, whatever
the origin held (king, pawn, nothing) and whatever kind of move it is. -/
theorem origin_empty_and_side_toggled (s : ChessEngine) (m : Move) (hg : isGrid8 s.board)
    (hin : inRange m) (hne : m.1 ≠ m.2) :
    (s.makeMove m).at m.1.1 m.1.2 = 0 ∧ (s.makeMove m).whiteToMove = !s.whiteToMove :=
  ⟨makeMove_at_origin s m hg hin hne, makeMove_whiteToMove s m⟩

/-- C14, for White castling kingside in `castleReady`. -/
theorem origin_empty_and_side_toggled_witness :
    isGrid8 castleReady.board ∧ inRange ((0, 4), (0, 6)) ∧
    (castleReady.makeMove ((0, 4), (0, 6))).at 0 4 = 0 ∧
    (castleReady.makeMove ((0, 4), (0, 6))).whiteToMove = !castleReady.whiteToMove :=
  ⟨by decide, by decide,
    origin_empty_and_side_toggled castleReady ((0, 4), (0, 6)) (by decide) (by decide)
      (by decide)⟩

/-- C15, as stated, fails: in `knightOnSkippedSquare` the diagonal pawn move b4-c3 is
produced twice, once as an ordinary capture of the knight on c3 and once as the
en-passant move on the stored file c. -/
theorem diagonal_pawn_move_produced_twice :
    knightOnSkippedSquare.at 3 1 = 7 ∧
    ((3, 1), (2, 2)) ∈ knightOnSkippedSquare.getAllLegalMoves ∧
    knightOnSkippedSquare.getAllLegalMoves.count ((3, 1), (2, 2)) = 2 := by
  decide

/-- C15 (amended): in every state in which the en-passant target square (row 5 with
White to move, row 2 with Black to move, on the stored en-passant file) is empty
whenever that file is a board column, every generated diagonal pawn move lands either on
an enemy piece or, as an en-passant capture on the stored file from the rank next to the
target, on an empty square; it never lands on a piece of the mover, and it occurs
exactly once in the generated list. -/
theorem diagonal_pawn_moves (s : ChessEngine)
    (hep : (0 ≤ s.enPassantCol ∧ s.enPassantCol < 8) →
      s.at (if s.whiteToMove = true then 5 else 2) s.enPassantCol = 0)
    (x : Move) (hx : x ∈ s.getAllLegalMoves)
    (hp : s.at x.1.1 x.1.2 = 1 ∨ s.at x.1.1 x.1.2 = 7) (hd : x.2.2 ≠ x.1.2) :
    ((s.at x.2.1 x.2.2 ≠ 0 ∧ s.isEnemyPiece (s.at x.2.1 x.2.2) = true) ∨
      (s.at x.2.1 x.2.2 = 0 ∧ x.2.2 = s.enPassantCol ∧
        x.2.1 = (if s.whiteToMove = true then 5 else 2) ∧
        x.1.1 = (if s.whiteToMove = true then 4 else 3))) ∧
    s.isOwnPiece (s.at x.2.1 x.2.2) = false ∧
    s.getAllLegalMoves.count x = 1 := by
  obtain ⟨hr, hc, hmf⟩ := (mem_getAllLegalMoves_iff s x).mp hx
  have hcount : s.getAllLegalMoves.count x = (s.movesFrom x.1.1 x.1.2).count x :=
    count_getAllLegalMoves s x hr hc
  rw [movesFrom_pawn s _ _ hp] at hmf hcount
  split at hmf
  swap
  · exact absurd hmf (List.not_mem_nil x)
  rename_i hown
  rw [if_pos hown] at hcount
  have hland : (s.at x.2.1 x.2.2 ≠ 0 ∧ s.isEnemyPiece (s.at x.2.1 x.2.2) = true) ∨
      (s.at x.2.1 x.2.2 = 0 ∧ x.2.2 = s.enPassantCol ∧
        x.2.1 = (if s.whiteToMove = true then 5 else 2) ∧
        x.1.1 = (if s.whiteToMove = true then 4 else 3)) := by
    have hmf' := hmf
    unfold ChessEngine.getPawnMoves at hmf'
    simp only [List.append_assoc, List.mem_append] at hmf'
    rcases hmf' with h | h | h
    · exfalso
      apply hd
      cases hw : s.whiteToMove <;> simp [hw] at h <;>
        rcases h with ⟨_, (h | ⟨_, h⟩)⟩ <;> rw [h]
    · exact pawnCapture_landing s _ _ _ hep x h
    · exact pawnCapture_landing s _ _ _ hep x h
  refine ⟨hland, ?_, ?_⟩
  · rcases hland with h | h
    · exact enemy_not_own s _ h.2
    · rw [h.1]; exact empty_not_own s
  · rw [hcount]
    exact count_eq_one_of_nodup (getPawnMoves_nodup s _ _ hep) hmf

/-- C15 (amended), in `enPassantSetup` after e2-e4, for the en-passant move d4-e3. -/
theorem diagonal_pawn_moves_witness :
    ((0 ≤ (enPassantSetup.makeMove ((1, 4), (3, 4))).enPassantCol ∧
        (enPassantSetup.makeMove ((1, 4), (3, 4))).enPassantCol < 8) →
      (enPassantSetup.makeMove ((1, 4), (3, 4))).at
        (if (enPassantSetup.makeMove ((1, 4), (3, 4))).whiteToMove = true then 5 else 2)
        (enPassantSetup.makeMove ((1, 4), (3, 4))).enPassantCol = 0) ∧
    ((3, 3), (2, 4)) ∈ (enPassantSetup.makeMove ((1, 4), (3, 4))).getAllLegalMoves ∧
    (enPassantSetup.makeMove ((1, 4), (3, 4))).at 3 3 = 7 ∧
    (enPassantSetup.makeMove ((1, 4), (3, 4))).at 2 4 = 0 ∧
    (enPassantSetup.makeMove ((1, 4), (3, 4))).getAllLegalMoves.count ((3, 3), (2, 4)) = 1 :=
  ⟨by decide, by decide, by decide, by decide,
    (diagonal_pawn_moves (enPassantSetup.makeMove ((1, 4), (3, 4))) (by decide) ((3, 3), (2, 4))
      (by decide) (by decide) (by decide)).2.2⟩

/-- C16, as stated, fails: after e2-e4 from the initial position, the in-range move
e4-f4 has a pawn on its origin and an empty destination on another file, yet the square
on the origin's row and the destination's column (f4, the destination itself) holds the
pawn afterwards. -/
theorem sideways_pawn_keeps_square_occupied :
    isGrid8 (initializeBoard.makeMove ((1, 4), (3, 4))).board ∧
    inRange ((3, 4), (3, 5)) ∧
    (initializeBoard.makeMove ((1, 4), (3, 4))).at 3 4 = 1 ∧
    (5 : Int) ≠ 4 ∧
    (initializeBoard.makeMove ((1, 4), (3, 4))).at 3 5 = 0 ∧
    ((initializeBoard.makeMove ((1, 4), (3, 4))).makeMove ((3, 4), (3, 5))).at 3 5 ≠ 0 := by
  decide

/-- C16 (amended): on an 8x8 grid, for an in-range move whose origin holds a pawn and
whose destination is empty and on a different file, every square other than the origin,
the destination and the square on the origin's row and the destination's column keeps
its code; and when the destination is also on a different row, that last square is
empty after `makeMove`. -/
theorem enPassant_capture_effect (s : ChessEngine) (m : Move) (hg : isGrid8 s.board)
    (hin : inRange m) (hp : s.at m.1.1 m.1.2 = 1 ∨ s.at m.1.1 m.1.2 = 7)
    (hcol : m.2.2 ≠ m.1.2) (hempty : s.at m.2.1 m.2.2 = 0) :
    (m.2.1 ≠ m.1.1 → (s.makeMove m).at m.1.1 m.2.2 = 0) ∧
    ∀ r c : Int, (r, c) ≠ (m.1.1, m.2.2) → (r, c) ≠ m.1 → (r, c) ≠ m.2 →
      (s.makeMove m).at r c = s.at r c := by
  obtain ⟨⟨fr, fc⟩, ⟨tr, tc⟩⟩ := m
  obtain ⟨h1, h2, h3, h4⟩ := hin
  simp only [] at hp hcol hempty h1 h2 h3 h4 ⊢
  have h6 : s.at fr fc ≠ 6 := by omega
  have h12 : s.at fr fc ≠ 12 := by omega
  have key : ∀ r c : Int, (tr ≠ r ∨ tc ≠ c) → (fr ≠ r ∨ fc ≠ c) →
      (s.makeMove ((fr, fc), (tr, tc))).at r c =
        ((s.stepEnPassantCol (s.at fr fc) fr fc tr).stepEnPassantCapture (s.at fr fc) fr fc tr
          tc).at r c := by
    intro r c hto hfrom
    show (ChessEngine.stepPromotion _ _ _ _).at r c = _
    rw [stepPromotion_at_ne _ _ _ _ _ _ hto, stepRelocate_at_ne _ _ _ _ _ _ _ hfrom hto,
      stepKingFlags_at, stepRookFlags_at, stepCastling_of_not_king _ _ _ _ _ h6 h12]
  have ne_of : ∀ {a b r c : Int}, (r, c) ≠ (a, b) → a ≠ r ∨ b ≠ c := by
    intro a b r c h
    by_contra hcon
    push_neg at hcon
    exact h (by rw [hcon.1, hcon.2])
  constructor
  · intro hrow
    rw [key fr tc (Or.inl hrow) (Or.inr (Ne.symm hcol))]
    unfold ChessEngine.stepEnPassantCapture
    rw [if_pos ⟨hp, Ne.symm hcol, by rw [stepEnPassantCol_at]; exact hempty⟩]
    exact at_put_same _ fr tc 0 (isGrid8_stepEnPassantCol s _ _ _ _ hg) h1 h4
  · intro r c hx hfrom hto
    rw [key r c (ne_of hto) (ne_of hfrom),
      stepEnPassantCapture_at_ne _ _ _ _ _ _ _ _ (ne_of hx), stepEnPassantCol_at]

/-- C16 (amended), in `enPassantSetup` after e2-e4: the capture d4-e3 empties e4. -/
theorem enPassant_capture_effect_witness :
    isGrid8 (enPassantSetup.makeMove ((1, 4), (3, 4))).board ∧
    inRange ((3, 3), (2, 4)) ∧
    (enPassantSetup.makeMove ((1, 4), (3, 4))).at 3 3 = 7 ∧
    (enPassantSetup.makeMove ((1, 4), (3, 4))).at 2 4 = 0 ∧
    (enPassantSetup.makeMove ((1, 4), (3, 4))).at 3 4 = 1 ∧
    ((enPassantSetup.makeMove ((1, 4), (3, 4))).makeMove ((3, 3), (2, 4))).at 3 4 = 0 :=
  ⟨by decide, by decide, by decide, by decide, by decide,
    (enPassant_capture_effect (enPassantSetup.makeMove ((1, 4), (3, 4))) ((3, 3), (2, 4))
      (by decide) (by decide) (by decide) (by decide) (by decide)).1 (by decide)⟩

/-- C17: from an on-board square `(r, c)`, `getRookMoves` produces exactly the moves
`(r, c) -> (r', c')` to a different on-board square of the same row or column such that
every square strictly between the two is empty and `(r', c')` is empty or holds an enemy
piece; `getBishopMoves` does the same along the four diagonals; these are the moves
generated for a rook, resp. a bishop, of the side to move standing there, and the moves
generated for its queen are the bishop moves followed by the rook moves. -/
theorem sliding_moves (s : ChessEngine) (r c : Int) (hr : 0 ≤ r ∧ r < 8)
    (hc : 0 ≤ c ∧ c < 8) :
    (∀ m : Move, m ∈ s.getRookMoves r c ↔
      m.1 = (r, c) ∧ onBoard m.2.1 m.2.2 = true ∧ m.2 ≠ (r, c) ∧
      (m.2.1 = r ∨ m.2.2 = c) ∧ pathClear s r c m.2.1 m.2.2 ∧
      (s.at m.2.1 m.2.2 = 0 ∨ s.isEnemyPiece (s.at m.2.1 m.2.2) = true)) ∧
    (∀ m : Move, m ∈ s.getBishopMoves r c ↔
      m.1 = (r, c) ∧ onBoard m.2.1 m.2.2 = true ∧ m.2 ≠ (r, c) ∧
      (m.2.1 - r).natAbs = (m.2.2 - c).natAbs ∧ pathClear s r c m.2.1 m.2.2 ∧
      (s.at m.2.1 m.2.2 = 0 ∨ s.isEnemyPiece (s.at m.2.1 m.2.2) = true)) ∧
    (s.isOwnPiece (s.at r c) = true → (s.at r c = 4 ∨ s.at r c = 10) →
      s.movesFrom r c = s.getRookMoves r c) ∧
    (s.isOwnPiece (s.at r c) = true → (s.at r c = 3 ∨ s.at r c = 9) →
      s.movesFrom r c = s.getBishopMoves r c) ∧
    (s.isOwnPiece (s.at r c) = true → (s.at r c = 5 ∨ s.at r c = 11) →
      s.movesFrom r c = s.getBishopMoves r c ++ s.getRookMoves r c) :=
  ⟨getRookMoves_iff s r c hr hc, getBishopMoves_iff s r c hr hc, movesFrom_rook s r c,
    movesFrom_bishop s r c, movesFrom_queen s r c⟩

/-- C17, for the rook on a1 in `castleReady`: a1-d1 is produced (b1 and c1 are empty),
a1-e1 is not (the own king stands on e1). -/
theorem sliding_moves_witness :
    ((0 : Int) ≤ 0 ∧ (0 : Int) < 8) ∧
    ((0, 0), (0, 3)) ∈ castleReady.getRookMoves 0 0 ∧
    ((0, 0), (0, 4)) ∉ castleReady.getRookMoves 0 0 ∧
    castleReady.movesFrom 0 0 = castleReady.getRookMoves 0 0 :=
  ⟨by decide,
    ((sliding_moves castleReady 0 0 (by decide) (by decide)).1 ((0, 0), (0, 3))).mpr (by decide),
    fun h => absurd (((sliding_moves castleReady 0 0 (by decide) (by decide)).1
      ((0, 0), (0, 4))).mp h).2.2.2.2.2 (by decide),
    (sliding_moves castleReady 0 0 (by decide) (by decide)).2.2.1 (by decide) (by decide)⟩

/-- C18: on an 8x8 grid, after `makeMove` with a generated castling move (the king of
code 6 from e1 to g1 or c1, of code 12 from e8 to g8 or c8) the king stands on the
destination, the rook of that wing on the square the king crossed (f1/d1, f8/d8), the
king's and the rook's home squares are empty, and that side's king-moved flag is
set. -/
theorem castling_moves_rook (s : ChessEngine) (m : Move) (hg : isGrid8 s.board)
    (_hm : m ∈ s.getAllLegalMoves) :
    (s.at 0 4 = 6 → m = ((0, 4), (0, 6)) →
      (s.makeMove m).at 0 6 = 6 ∧ (s.makeMove m).at 0 5 = 4 ∧ (s.makeMove m).at 0 4 = 0 ∧
        (s.makeMove m).at 0 7 = 0 ∧ (s.makeMove m).whiteKingMoved = true) ∧
    (s.at 0 4 = 6 → m = ((0, 4), (0, 2)) →
      (s.makeMove m).at 0 2 = 6 ∧ (s.makeMove m).at 0 3 = 4 ∧ (s.makeMove m).at 0 4 = 0 ∧
        (s.makeMove m).at 0 0 = 0 ∧ (s.makeMove m).whiteKingMoved = true) ∧
    (s.at 7 4 = 12 → m = ((7, 4), (7, 6)) →
      (s.makeMove m).at 7 6 = 12 ∧ (s.makeMove m).at 7 5 = 10 ∧ (s.makeMove m).at 7 4 = 0 ∧
        (s.makeMove m).at 7 7 = 0 ∧ (s.makeMove m).blackKingMoved = true) ∧
    (s.at 7 4 = 12 → m = ((7, 4), (7, 2)) →
      (s.makeMove m).at 7 2 = 12 ∧ (s.makeMove m).at 7 3 = 10 ∧ (s.makeMove m).at 7 4 = 0 ∧
        (s.makeMove m).at 7 0 = 0 ∧ (s.makeMove m).blackKingMoved = true) := by
  refine ⟨?_, ?_, ?_, ?_⟩
  · rintro hk rfl
    have hb := makeMove_board_king s 0 4 0 6 (Or.inl hk)
    rw [stepCastling_board, hk] at hb
    simp only [true_and, if_true] at hb
    obtain ⟨r1, r2, r3, r4⟩ := castle_reads s.board hg 0 7 5 6 4 6 (by decide) (by decide)
      (by decide) (by decide) (by decide) (by decide) (by decide) (by decide) (by decide)
      (by decide)
    unfold ChessEngine.at
    rw [hb]
    exact ⟨r1, r2, r3, r4, makeMove_whiteKingMoved s _ hk⟩
  · rintro hk rfl
    have hb := makeMove_board_king s 0 4 0 2 (Or.inl hk)
    rw [stepCastling_board, hk] at hb
    simp only [true_and, if_true] at hb
    norm_num at hb
    obtain ⟨r1, r2, r3, r4⟩ := castle_reads s.board hg 0 0 3 2 4 6 (by decide) (by decide)
      (by decide) (by decide) (by decide) (by decide) (by decide) (by decide) (by decide)
      (by decide)
    unfold ChessEngine.at
    rw [hb]
    exact ⟨r1, r2, r3, r4, makeMove_whiteKingMoved s _ hk⟩
  · rintro hk rfl
    have hb := makeMove_board_king s 7 4 7 6 (Or.inr hk)
    rw [stepCastling_board, hk] at hb
    norm_num at hb
    obtain ⟨r1, r2, r3, r4⟩ := castle_reads s.board hg 7 7 5 6 10 12 (by decide) (by decide)
      (by decide) (by decide) (by decide) (by decide) (by decide) (by decide) (by decide)
      (by decide)
    unfold ChessEngine.at
    rw [hb]
    exact ⟨r1, r2, r3, r4, makeMove_blackKingMoved s _ hk⟩
  · rintro hk rfl
    have hb := makeMove_board_king s 7 4 7 2 (Or.inr hk)
    rw [stepCastling_board, hk] at hb
    norm_num at hb
    obtain ⟨r1, r2, r3, r4⟩ := castle_reads s.board hg 7 0 3 2 10 12 (by decide) (by decide)
      (by decide) (by decide) (by decide) (by decide) (by decide) (by decide) (by decide)
      (by decide)
    unfold ChessEngine.at
    rw [hb]
    exact ⟨r1, r2, r3, r4, makeMove_blackKingMoved s _ hk⟩

/-- C18, for White castling kingside in `castleReady`. -/
theorem castling_moves_rook_witness :
    isGrid8 castleReady.board ∧ ((0, 4), (0, 6)) ∈ castleReady.getAllLegalMoves ∧
    castleReady.at 0 4 = 6 ∧
    (castleReady.makeMove ((0, 4), (0, 6))).at 0 6 = 6 ∧
    (castleReady.makeMove ((0, 4), (0, 6))).at 0 5 = 4 ∧
    (castleReady.makeMove ((0, 4), (0, 6))).at 0 4 = 0 ∧
    (castleReady.makeMove ((0, 4), (0, 6))).at 0 7 = 0 ∧
    (castleReady.makeMove ((0, 4), (0, 6))).whiteKingMoved = true :=
  ⟨by decide, by decide, by decide,
    (castling_moves_rook castleReady ((0, 4), (0, 6)) (by decide) (by decide)).1 (by decide) rfl⟩

/-- C19: `makeMove` with an in-range move keeps an 8x8 grid with cells in `0..12` an
8x8 grid with cells in `0..12`; `setPosition` yields such a grid for every input string;
and its placement loop leaves the state unchanged at every character met while the row
or the column is outside the board. -/
theorem grid_stays_valid :
    (∀ (s : ChessEngine) (m : Move), isGrid8 s.board → cellsValid s.board → inRange m →
      isGrid8 (s.makeMove m).board ∧ cellsValid (s.makeMove m).board) ∧
    (∀ fen : String, isGrid8 (setPosition fen).board ∧ cellsValid (setPosition fen).board) ∧
    (∀ (k : Cursor) (c : Char), ¬(0 ≤ k.row ∧ k.row < 8 ∧ 0 ≤ k.col ∧ k.col < 8) →
      (placeChar k c).state = k.state) :=
  ⟨fun s m hg hv hin => ⟨isGrid8_makeMove s m hg, cellsValid_makeMove s m hv hin⟩,
    setPosition_valid, placeChar_off_board⟩

/-- C19, for e2-e4 in the initial position and for a piece letter met at column 8. -/
theorem grid_stays_valid_witness :
    isGrid8 initializeBoard.board ∧ cellsValid initializeBoard.board ∧
    inRange ((1, 4), (3, 4)) ∧
    isGrid8 (initializeBoard.makeMove ((1, 4), (3, 4))).board ∧
    cellsValid (initializeBoard.makeMove ((1, 4), (3, 4))).board ∧
    (placeChar { state := initializeBoard, row := 7, col := 8 } 'q').state = initializeBoard :=
  ⟨by decide, by decide, by decide,
    (grid_stays_valid.1 initializeBoard ((1, 4), (3, 4)) (by decide) (by decide) (by decide)).1,
    (grid_stays_valid.1 initializeBoard ((1, 4), (3, 4)) (by decide) (by decide) (by decide)).2,
    grid_stays_valid.2.2 { state := initializeBoard, row := 7, col := 8 } 'q' (by decide)⟩

/-- C20: on an 8x8 grid, every generated move has its four coordinates in `0..7`, starts
on a square holding a piece of the side to move and ends on a different square; and the
generator with checked accesses returns the same list, so no access of the generation
falls outside the grid. -/
theorem generated_moves_safe (s : ChessEngine) (hg : isGrid8 s.board) :
    (∀ m ∈ s.getAllLegalMoves,
      inRange m ∧ s.isOwnPiece (s.at m.1.1 m.1.2) = true ∧ m.2 ≠ m.1) ∧
    s.getAllLegalMovesChecked = some s.getAllLegalMoves := by
  refine ⟨?_, getAllLegalMovesChecked_eq s hg⟩
  intro m hm
  obtain ⟨_, _, hmf⟩ := (mem_getAllLegalMoves_iff s m).mp hm
  refine ⟨getAllLegalMoves_inRange s m hm, movesFrom_own s _ _ m hmf, ?_⟩
  intro heq
  have := movesFrom_dest_ne s _ _ m hmf
  rw [heq] at this
  omega

/-- C20, at the initial position. -/
theorem generated_moves_safe_witness :
    isGrid8 initializeBoard.board ∧
    (∀ m ∈ initializeBoard.getAllLegalMoves,
      inRange m ∧ initializeBoard.isOwnPiece (initializeBoard.at m.1.1 m.1.2) = true ∧
        m.2 ≠ m.1) ∧
    initializeBoard.getAllLegalMovesChecked = some initializeBoard.getAllLegalMoves :=
  ⟨by decide, generated_moves_safe initializeBoard (by decide)⟩

/-- C21: in every state reachable from the initial position through generated moves, the
en-passant file is unset or a board column; when it is set to column `c`, the side that
is not to move has a pawn on column `c` on its double-push landing row (row 3 if Black
is to move, row 4 if White is to move) and the skipped square (row 2, resp. row 5,
column `c`) is empty; so every generated en-passant move lands on an empty square, has
an enemy pawn beside its origin on the destination's column, and that square is empty
after `makeMove`. -/
theorem enPassant_file_invariant (s : ChessEngine) (hs : Reachable s) :
    (s.enPassantCol = -1 ∨ (0 ≤ s.enPassantCol ∧ s.enPassantCol < 8)) ∧
    (s.enPassantCol ≠ -1 →
      (s.whiteToMove = false → s.at 3 s.enPassantCol = 1 ∧ s.at 2 s.enPassantCol = 0) ∧
      (s.whiteToMove = true → s.at 4 s.enPassantCol = 7 ∧ s.at 5 s.enPassantCol = 0)) ∧
    (∀ x ∈ s.getAllLegalMoves, isEnPassantMove s x →
      s.at x.2.1 x.2.2 = 0 ∧
      s.at x.1.1 x.2.2 = (if s.whiteToMove = true then 7 else 1) ∧
      (s.makeMove x).at x.1.1 x.2.2 = 0) := by
  obtain ⟨hg, _, hsound⟩ := reachable_invariant s hs
  refine ⟨hsound.1, hsound.2, ?_⟩
  intro x hx hep
  obtain ⟨hp, hdiag, hcol, hrow2, hrow1⟩ := hep
  obtain ⟨h1, h2, h3, h4⟩ := getAllLegalMoves_inRange s x hx
  have hset : s.enPassantCol ≠ -1 := by omega
  have hfacts := hsound.2 hset
  obtain ⟨⟨fr, fc⟩, ⟨tr, tc⟩⟩ := x
  simp only [] at hp hdiag hcol hrow2 hrow1 h1 h2 h3 h4 ⊢
  cases hw : s.whiteToMove
  · rw [hw] at hrow2 hrow1
    simp only [Bool.false_eq_true, if_false] at hrow2 hrow1 ⊢
    obtain ⟨hpawn, hskip⟩ := hfacts.1 hw
    subst hrow2 hrow1
    rw [← hcol] at hpawn hskip
    exact ⟨hskip, hpawn, makeMove_clears_beside s 3 fc 2 tc hg (by decide) h4 hp hdiag
      (by decide) hskip⟩
  · rw [hw] at hrow2 hrow1
    simp only [if_true] at hrow2 hrow1 ⊢
    obtain ⟨hpawn, hskip⟩ := hfacts.2 hw
    subst hrow2 hrow1
    rw [← hcol] at hpawn hskip
    exact ⟨hskip, hpawn, makeMove_clears_beside s 4 fc 5 tc hg (by decide) h4 hp hdiag
      (by decide) hskip⟩

/-- C21, in `enPassantReady`: the en-passant file is d, the Black pawn stands on d5, d6 is
empty, and the generated en-passant move e5-d6 removes the pawn on d5. -/
theorem enPassant_file_invariant_witness :
    Reachable enPassantReady ∧
    enPassantReady.enPassantCol = 3 ∧ enPassantReady.whiteToMove = true ∧
    enPassantReady.at 4 3 = 7 ∧ enPassantReady.at 5 3 = 0 ∧
    ((4, 4), (5, 3)) ∈ enPassantReady.getAllLegalMoves ∧
    isEnPassantMove enPassantReady ((4, 4), (5, 3)) ∧
    (enPassantReady.makeMove ((4, 4), (5, 3))).at 4 3 = 0 :=
  ⟨enPassantReady_reachable, by decide, by decide,
    ((enPassant_file_invariant enPassantReady enPassantReady_reachable).2.1 (by decide)).2
      (by decide) |>.1,
    ((enPassant_file_invariant enPassantReady enPassantReady_reachable).2.1 (by decide)).2
      (by decide) |>.2,
    by decide, by decide,
    ((enPassant_file_invariant enPassantReady enPassantReady_reachable).2.2 ((4, 4), (5, 3))
      (by decide) (by decide)).2.2⟩
/-- C22: in every state reachable from the initial position through generated moves, a
further generated move leaves the number of pieces of the side that moved unchanged and
lowers the number of pieces of the other side by at most one (castling, en passant and
promotion included); the total number of pieces never grows. -/
theorem piece_counts_after_move (s : ChessEngine) (hs : Reachable s) (m : Move)
    (hm : m ∈ s.getAllLegalMoves) :
    (s.whiteToMove = true →
      (s.makeMove m).whitePieces = s.whitePieces ∧
      (s.makeMove m).blackPieces ≤ s.blackPieces ∧
      s.blackPieces ≤ (s.makeMove m).blackPieces + 1) ∧
    (s.whiteToMove = false →
      (s.makeMove m).blackPieces = s.blackPieces ∧
      (s.makeMove m).whitePieces ≤ s.whitePieces ∧
      s.whitePieces ≤ (s.makeMove m).whitePieces + 1) ∧
    (s.makeMove m).whitePieces + (s.makeMove m).blackPieces ≤
      s.whitePieces + s.blackPieces := by
  obtain ⟨hg, _, hsound⟩ := reachable_invariant s hs
  obtain ⟨a, b, hW, ha, hb, hab⟩ :=
    countCells_generated isWhitePiece (by decide) (by decide) (by decide) s hg hsound m hm
  obtain ⟨a2, b2, hB, ha2, hb2, hab2⟩ :=
    countCells_generated isBlackPiece (by decide) (by decide) (by decide) s hg hsound m hm
  have hwz : tally isWhitePiece 0 = 0 := rfl
  have hbz : tally isBlackPiece 0 = 0 := rfl
  have h1 := tally_le_one isWhitePiece a
  have h2 := tally_le_one isWhitePiece b
  have h3 := tally_le_one isBlackPiece a2
  have h4 := tally_le_one isBlackPiece b2
  have hWsum : tally isWhitePiece a + tally isWhitePiece b ≤ 1 := by
    rcases hab with rfl | rfl <;> omega
  have hBsum : tally isBlackPiece a2 + tally isBlackPiece b2 ≤ 1 := by
    rcases hab2 with rfl | rfl <;> omega
  unfold ChessEngine.whitePieces ChessEngine.blackPieces
  refine ⟨fun hw => ?_, fun hw => ?_, by omega⟩
  · have e1 := tally_white_enemy s hw a ha
    have e2 := tally_white_enemy s hw b hb
    omega
  · have e1 := tally_black_enemy s hw a2 ha2
    have e2 := tally_black_enemy s hw b2 hb2
    omega

/-- C22, at the en-passant capture e5xd6 in `enPassantReady`: White keeps 16 pieces and
Black goes from 16 to 15. -/
theorem piece_counts_after_move_witness :
    Reachable enPassantReady ∧ ((4, 4), (5, 3)) ∈ enPassantReady.getAllLegalMoves ∧
    enPassantReady.whiteToMove = true ∧
    enPassantReady.whitePieces = 16 ∧ enPassantReady.blackPieces = 16 ∧
    (enPassantReady.makeMove ((4, 4), (5, 3))).blackPieces = 15 ∧
    (enPassantReady.makeMove ((4, 4), (5, 3))).whitePieces = enPassantReady.whitePieces ∧
    (enPassantReady.makeMove ((4, 4), (5, 3))).blackPieces ≤ enPassantReady.blackPieces ∧
    enPassantReady.blackPieces ≤ (enPassantReady.makeMove ((4, 4), (5, 3))).blackPieces + 1 :=
  ⟨enPassantReady_reachable, by decide, by decide, by decide, by decide, by decide,
    (piece_counts_after_move enPassantReady enPassantReady_reachable ((4, 4), (5, 3))
      (by decide)).1 (by decide)⟩

end Nexa
